import Mathlib

/-!
# Pure-Data filter externals: `fumio~`, `ota~`, `zdsv~`, `ring64~`

A shallow embedding of the four signal externals and proofs about them.

Conventions of the embedding.

* The C type `double` (and Pd's `t_float`) is an arbitrary linearly ordered
  field `α`; the theorems are stated over `ℝ` where a property of `tan`,
  `tanh`, `exp` or `atan` is needed.  Rounding, infinities and NaN are outside
  the model, and a float literal such as `0.48f` is the rational `0.48`.
* Division is the total division of the field (`a / 0 = 0`), where the C code
  yields a non-finite value; statements that depend on a quotient say when
  its divisor is not zero.  The one division by zero the code meets at an
  ordinary input, the resonance input `0` of `ring64~`, is modelled by its C
  value (`resonance_map`).
* The libm functions are explicit arguments (`tan`, `tanh`, `exp`, `atan`), so
  every definition is executable over `ℚ` and is instantiated with
  `Real.tan`, `Real.tanh`, `Real.exp`, `Real.arctan` in the theorems.
* A C array is a function of its index; a signal buffer is a function
  `Nat → α` read at the indices below the block length `n`.
* `pd_new` hands out zeroed memory, so a field the constructor does not
  assign is `0`.
* A `for` loop is a recursive function giving the state after its first `i`
  iterations.
-/

/-- C conversion of a floating value to `int`: the fractional part is dropped. -/
def c_trunc {α : Type} [LinearOrderedField α] [FloorRing α] (v : α) : Int :=
  if 0 ≤ v then ⌊v⌋ else ⌈v⌉

/-! ## `fumio~`: 2-pole MS20-style filter, Runge–Kutta solver -/

namespace fumio

/-- Length of the state vector: `#define DIM 2`. -/
abbrev DIM : Nat := 2

/-- Instance data of `fumio~` (the host fields `x_obj`, `x_out1` are left out). -/
structure t_fumio (α : Type) where
  x_f : α
  x_state : Fin DIM → α
  x_sr : α
  x_oversample : Int
  x_mode : Int
  p_input : α
  p_cutoff : α
  p_resonance : α
  p_derivativeswere : Fin DIM → α

variable {α : Type} [LinearOrderedField α]

/-- Derivative of the state for the current mode.  The C function writes
`dstate` only inside one of its three mode branches; `none` stands for the
case where no branch is taken and `dstate` is left unassigned. -/
def calc_derivatives (tanh : α → α) (state : Fin DIM → α) (x : t_fumio α) :
    Option (Fin DIM → α) :=
  let k : α := (2 * 3.14159) * x.p_cutoff
  if x.x_mode = 1 then
    some ![k * (x.p_input - state 0 - tanh (x.p_resonance * state 1)),
           k * (state 0 - state 1 + tanh (x.p_resonance * state 1))]
  else if x.x_mode = 3 then
    some ![k * (state 0 - tanh (x.p_resonance * state 1)),
           k * (-x.p_input - state 1)]
  else if x.x_mode = 2 then
    some ![k * (-x.p_input - state 0 - tanh (x.p_resonance * state 1)),
           k * (x.p_input + state 0 - state 1 + tanh (x.p_resonance * state 1))]
  else
    none

/-- One Runge–Kutta step on `state`; the result is the new content of `state`. -/
def solver_rungekutta (tanh : α → α) (state : Fin DIM → α) (stepsize : α) (x : t_fumio α) :
    Option (Fin DIM → α) := do
  let deriv1 ← calc_derivatives tanh state x
  let tempstate1 : Fin DIM → α := fun i => state i + 0.5 * stepsize * deriv1 i
  let deriv2 ← calc_derivatives tanh tempstate1 x
  let tempstate2 : Fin DIM → α := fun i => state i + 0.5 * stepsize * deriv2 i
  let deriv3 ← calc_derivatives tanh tempstate2 x
  let tempstate3 : Fin DIM → α := fun i => state i + stepsize * deriv3 i
  let deriv4 ← calc_derivatives tanh tempstate3 x
  pure (fun i => state i + (1 / 6) * stepsize *
    (deriv1 i + 2 * deriv2 i + 2 * deriv3 i + deriv4 i))

/-- Message `oversample`: clamp the request to `[1, 8]` and store it as an `int`. -/
def fumio_oversample [FloorRing α] (x : t_fumio α) (oversample : α) : t_fumio α :=
  let o1 := if oversample ≤ 1 then 1 else oversample
  let o2 := if o1 > 8 then 8 else o1
  { x with x_oversample := c_trunc o2 }

/-- Message `clear`: zero the state and the stored derivatives. -/
def fumio_clear (x : t_fumio α) : t_fumio α :=
  { x with x_state := fun _ => 0, p_derivativeswere := fun _ => 0 }

/-- Message `mode`: a request in `[1, 3]` zeroes the state and is stored as an
`int`; any other request changes nothing. -/
def fumio_mode [FloorRing α] (x : t_fumio α) (mode : α) : t_fumio α :=
  if 1 ≤ mode ∧ mode ≤ 3 then
    { x with x_state := fun _ => 0, p_derivativeswere := fun _ => 0, x_mode := c_trunc mode }
  else
    x

/-- Memory as `pd_new` returns it: every field zero. -/
def pd_new : t_fumio α :=
  { x_f := 0, x_state := fun _ => 0, x_sr := 0, x_oversample := 0, x_mode := 0,
    p_input := 0, p_cutoff := 0, p_resonance := 0, p_derivativeswere := fun _ => 0 }

/-- Constructor `fumio_new`. -/
def fumio_new [FloorRing α] : t_fumio α :=
  fumio_mode (fumio_oversample (fumio_clear { (pd_new : t_fumio α) with x_f := 0 }) 2) 1

/-- Method `dsp`: record the sample rate of the signal. -/
def fumio_dsp (x : t_fumio α) (s_sr : α) : t_fumio α :=
  { x with x_sr := s_sr }

/-- The inner loop `for (j = 0; j < x->x_oversample; j++) solver_rungekutta(...)`:
the instance after its first `j` iterations. -/
def oversample_loop (tanh : α → α) (stepsize : α) (x : t_fumio α) : Nat → Option (t_fumio α)
  | 0 => some x
  | j + 1 => do
    let y ← oversample_loop tanh stepsize x j
    let s ← solver_rungekutta tanh y.x_state stepsize y
    pure { y with x_state := s }

/-- Body of the sample loop of `fumio_perform` for one sample: the new instance
and the samples written to `out` (none when the mode selects no branch). -/
def perform_sample (tanh : α → α) (stepsize : α) (x : t_fumio α)
    (in1 cutoffin resonancein : α) : Option (t_fumio α × List α) := do
  let x1 : t_fumio α := { x with p_input := in1 }
  let x2 : t_fumio α := { x1 with p_cutoff := cutoffin }
  let x3 : t_fumio α := { x2 with p_resonance := if resonancein < 0 then 0 else resonancein }
  let x4 ← oversample_loop tanh stepsize x3 x3.x_oversample.toNat
  if x4.x_mode = 1 ∨ x4.x_mode = 2 then
    pure (x4, [x4.x_state 1])
  else if x4.x_mode = 3 then
    pure (x4, [x4.x_state 1 + x4.p_input])
  else
    pure (x4, [])

/-- The sample loop of `fumio_perform`: instance and output after the first `i` samples. -/
def perform_loop (tanh : α → α) (stepsize : α) (in1 cutoffin resonancein : Nat → α)
    (x : t_fumio α) : Nat → Option (t_fumio α × List α)
  | 0 => some (x, [])
  | i + 1 => do
    let r ← perform_loop tanh stepsize in1 cutoffin resonancein x i
    let r2 ← perform_sample tanh stepsize r.1 (in1 i) (cutoffin i) (resonancein i)
    pure (r2.1, r.2 ++ r2.2)

/-- Block routine `fumio_perform` on buffers of length `n`. -/
def fumio_perform (tanh : α → α) (x : t_fumio α) (in1 cutoffin resonancein : Nat → α)
    (n : Nat) : Option (t_fumio α × List α) :=
  let stepsize : α := 1 / ((x.x_oversample : α) * x.x_sr)
  perform_loop tanh stepsize in1 cutoffin resonancein x n

/-- Instances of `fumio~` reachable from construction: the constructor, then the
messages `mode`, `oversample`, `clear` with any argument, `dsp` at any sample rate,
and processed blocks, in any order. -/
inductive Reachable [FloorRing α] (tanh : α → α) : t_fumio α → Prop
  | construct : Reachable tanh fumio_new
  | mode (x : t_fumio α) (m : α) : Reachable tanh x → Reachable tanh (fumio_mode x m)
  | oversample (x : t_fumio α) (o : α) : Reachable tanh x →
      Reachable tanh (fumio_oversample x o)
  | clear (x : t_fumio α) : Reachable tanh x → Reachable tanh (fumio_clear x)
  | dsp (x : t_fumio α) (sr : α) : Reachable tanh x → Reachable tanh (fumio_dsp x sr)
  | perform (x : t_fumio α) (in1 cutoffin resonancein : Nat → α) (n : Nat)
      (y : t_fumio α) (out : List α) : Reachable tanh x →
      fumio_perform tanh x in1 cutoffin resonancein n = some (y, out) → Reachable tanh y

end fumio

/-! ## `ota~`: 4-pole OTA ladder filter, Runge–Kutta solver -/

namespace ota

/-- Length of the state vector: `#define DIM 4`. -/
abbrev DIM : Nat := 4

/-- The parameter record `t_params` (declared, never read by the routines). -/
structure t_params (α : Type) where
  p_input : α
  p_cutoff : α
  p_resonance : α
  p_derivativeswere : Fin DIM → α

/-- Instance data of `ota~` (the host fields `x_obj`, `x_out1` are left out). -/
structure t_ota (α : Type) where
  x_f : α
  x_params : t_params α
  x_state : Fin DIM → α
  x_sr : α
  x_oversample : Int
  x_mode : Int
  p_input : α
  p_cutoff : α
  p_resonance : α
  p_derivativeswere : Fin DIM → α

variable {α : Type} [LinearOrderedField α]

/-- Derivative of the four ladder stages. -/
def calc_derivatives (tanh : α → α) (state : Fin DIM → α) (x : t_ota α) : Fin DIM → α :=
  let k : α := (2 * 3.14159) * x.p_cutoff
  ![k * tanh (1.1 * x.p_input - x.p_resonance * tanh (1.96 * state 3) - state 0),
    k * tanh (1.1 * state 0 - state 1),
    k * tanh (1.1 * state 1 - state 2),
    k * tanh (1.1 * state 2 - state 3)]

/-- One Runge–Kutta step on `state`; the result is the new content of `state`. -/
def solver_rungekutta (tanh : α → α) (state : Fin DIM → α) (stepsize : α) (x : t_ota α) :
    Fin DIM → α :=
  let deriv1 := calc_derivatives tanh state x
  let tempstate1 : Fin DIM → α := fun i => state i + 0.5 * stepsize * deriv1 i
  let deriv2 := calc_derivatives tanh tempstate1 x
  let tempstate2 : Fin DIM → α := fun i => state i + 0.5 * stepsize * deriv2 i
  let deriv3 := calc_derivatives tanh tempstate2 x
  let tempstate3 : Fin DIM → α := fun i => state i + stepsize * deriv3 i
  let deriv4 := calc_derivatives tanh tempstate3 x
  fun i => state i + (1 / 6) * stepsize *
    (deriv1 i + 2 * deriv2 i + 2 * deriv3 i + deriv4 i)

/-- Message `oversample`: clamp the request to `[1, 8]` and store it as an `int`. -/
def ota_oversample [FloorRing α] (x : t_ota α) (oversample : α) : t_ota α :=
  let o1 := if oversample ≤ 1 then 1 else oversample
  let o2 := if o1 > 8 then 8 else o1
  { x with x_oversample := c_trunc o2 }

/-- Message `clear`: zero the state and the stored derivatives. -/
def ota_clear (x : t_ota α) : t_ota α :=
  { x with x_state := fun _ => 0, p_derivativeswere := fun _ => 0 }

/-- Memory as `pd_new` returns it: every field zero. -/
def pd_new : t_ota α :=
  { x_f := 0,
    x_params := { p_input := 0, p_cutoff := 0, p_resonance := 0,
                  p_derivativeswere := fun _ => 0 },
    x_state := fun _ => 0, x_sr := 0, x_oversample := 0, x_mode := 0,
    p_input := 0, p_cutoff := 0, p_resonance := 0, p_derivativeswere := fun _ => 0 }

/-- Constructor `ota_new`. -/
def ota_new [FloorRing α] : t_ota α :=
  ota_oversample (ota_clear { (pd_new : t_ota α) with x_f := 0 }) 2

/-- Method `dsp`: record the sample rate of the signal. -/
def ota_dsp (x : t_ota α) (s_sr : α) : t_ota α :=
  { x with x_sr := s_sr }

/-- The inner loop `for (j = 0; j < x->x_oversample; j++) solver_rungekutta(...)`:
the instance after its first `j` iterations. -/
def oversample_loop (tanh : α → α) (stepsize : α) (x : t_ota α) : Nat → t_ota α
  | 0 => x
  | j + 1 =>
    let y := oversample_loop tanh stepsize x j
    { y with x_state := solver_rungekutta tanh y.x_state stepsize y }

/-- Body of the sample loop of `ota_perform` for one sample: the new instance
and the sample written to `out`. -/
def perform_sample (tanh : α → α) (stepsize : α) (x : t_ota α)
    (in1 cutoffin resonancein : α) : t_ota α × α :=
  let x1 : t_ota α := { x with p_input := in1 }
  let x2 : t_ota α := { x1 with p_cutoff := cutoffin }
  let x3 : t_ota α := { x2 with p_resonance := if resonancein < 0 then 0 else resonancein }
  let x4 := oversample_loop tanh stepsize x3 x3.x_oversample.toNat
  (x4, x4.x_state 3)

/-- The sample loop of `ota_perform`: instance and output after the first `i` samples. -/
def perform_loop (tanh : α → α) (stepsize : α) (in1 cutoffin resonancein : Nat → α)
    (x : t_ota α) : Nat → t_ota α × List α
  | 0 => (x, [])
  | i + 1 =>
    let r := perform_loop tanh stepsize in1 cutoffin resonancein x i
    let r2 := perform_sample tanh stepsize r.1 (in1 i) (cutoffin i) (resonancein i)
    (r2.1, r.2 ++ [r2.2])

/-- Block routine `ota_perform` on buffers of length `n`. -/
def ota_perform (tanh : α → α) (x : t_ota α) (in1 cutoffin resonancein : Nat → α)
    (n : Nat) : t_ota α × List α :=
  let stepsize : α := 1 / ((x.x_oversample : α) * x.x_sr)
  perform_loop tanh stepsize in1 cutoffin resonancein x n

end ota

/-! ## `zdsv~`: zero-delay-feedback state-variable filter -/

namespace zdsv

/-- Instance data of `zdsv~` (the host fields `x_obj`, `x_out1..3` are left out). -/
structure t_zdsv (α : Type) where
  x_f : α
  x_sr : α
  T : α
  x_lp : α
  x_bp : α
  x_hp : α
  p_input : α
  p_out : α
  p_cutoff : α
  cutoffold : α
  cutoffincrement : α
  p_resonance : α
  resonanceold : α
  resonanceincrement : α
  s1 : α
  s2 : α
  PI : α

variable {α : Type} [LinearOrderedField α]

/-- Memory as `pd_new` returns it: every field zero. -/
def pd_new : t_zdsv α :=
  { x_f := 0, x_sr := 0, T := 0, x_lp := 0, x_bp := 0, x_hp := 0, p_input := 0, p_out := 0,
    p_cutoff := 0, cutoffold := 0, cutoffincrement := 0, p_resonance := 0, resonanceold := 0,
    resonanceincrement := 0, s1 := 0, s2 := 0, PI := 0 }

/-- Constructor `zdsv_new`. -/
def zdsv_new (atan : α → α) : t_zdsv α :=
  { (pd_new : t_zdsv α) with
    x_f := 0, s1 := 0, s2 := 0, PI := 4 * atan 1,
    p_cutoff := 0, cutoffold := 0, p_resonance := 1, resonanceold := 1 }

/-- Method `dsp`: record the sample rate of the signal. -/
def zdsv_dsp (x : t_zdsv α) (s_sr : α) : t_zdsv α :=
  { x with x_sr := s_sr }

/-- Start of `zdsv_perform`: read the first cutoff sample and clip it when it
differs from `cutoffold`. -/
def perform_cutoff (x : t_zdsv α) (cutoffin0 : α) : t_zdsv α :=
  let x : t_zdsv α := { x with p_cutoff := cutoffin0 }
  if x.p_cutoff ≠ x.cutoffold then
    if x.p_cutoff > x.x_sr * 0.48 then
      { x with p_cutoff := x.x_sr * 0.48, cutoffold := x.x_sr * 0.48 }
    else if x.p_cutoff < 0.0003 then
      { x with p_cutoff := 0.0003, cutoffold := 0.0003 }
    else
      { x with cutoffold := x.p_cutoff }
  else
    x

/-- Start of `zdsv_perform`: map the first resonance sample by `1 - 0.01 r` and
clip it when it differs from `resonanceold`. -/
def perform_resonance (x : t_zdsv α) (resonancein0 : α) : t_zdsv α :=
  let x : t_zdsv α := { x with p_resonance := 1 - 0.01 * resonancein0 }
  if x.p_resonance ≠ x.resonanceold then
    if x.p_resonance > 1 then
      { x with p_resonance := 1, resonanceold := 1 }
    else if x.p_resonance < 0.0005 then
      { x with p_resonance := 0.0005, resonanceold := 0.0005 }
    else
      { x with resonanceold := x.p_resonance }
  else
    x

/-- Everything `zdsv_perform` does before its sample loop. -/
def perform_begin (x : t_zdsv α) (cutoffin0 resonancein0 : α) (n : Nat) : t_zdsv α :=
  let x : t_zdsv α := { x with T := 1 / x.x_sr }
  let oneoverblocksize : α := 1 / (n : α)
  let x := perform_cutoff x cutoffin0
  let x := perform_resonance x resonancein0
  let x : t_zdsv α := { x with cutoffincrement := (x.p_cutoff - x.cutoffold) * oneoverblocksize }
  { x with resonanceincrement := (x.p_resonance - x.resonanceold) * oneoverblocksize }

/-- The prewarped integrator gain `g` of one sample:
`wd = 2*PI*cutoff`, `wa = (2*sr) * tan(wd*T*0.5)`, `g = wa*T*0.5`. -/
def prewarp (tan : α → α) (x : t_zdsv α) : α :=
  let wd := 2 * x.PI * x.p_cutoff
  let wa := (2 * x.x_sr) * tan (wd * x.T * 0.5)
  wa * x.T * 0.5

/-- The divisor of the high-pass solve of one sample. -/
def divisor (tan : α → α) (x : t_zdsv α) : α :=
  1 + 2 * x.p_resonance * prewarp tan x + prewarp tan x * prewarp tan x

/-- Body of the sample loop of `zdsv_perform`: the new instance and the samples
written to `out1`, `out2`, `out3`.  The quotient `x_hp` is that of the field: it is
the value the C code computes where `divisor` is not zero; at a zero divisor the C
code yields `±∞` or NaN, which the field does not have, and the definition does not
describe the code there. -/
def perform_sample (tan : α → α) (x : t_zdsv α) (in1 : α) : t_zdsv α × (α × α × α) :=
  let x : t_zdsv α := { x with p_input := in1 }
  let g := prewarp tan x
  let x : t_zdsv α := { x with
    x_hp := (x.p_input - 2 * x.p_resonance * x.s1 - g * x.s1 - x.s2) / divisor tan x }
  let x : t_zdsv α := { x with x_bp := g * x.x_hp + x.s1 }
  let x : t_zdsv α := { x with s1 := g * x.x_hp + x.x_bp }
  let x : t_zdsv α := { x with x_lp := g * x.x_bp + x.s2 }
  let x : t_zdsv α := { x with s2 := g * x.x_bp + x.x_lp }
  let out := (x.x_lp, x.x_bp, x.x_hp)
  let x : t_zdsv α := { x with p_cutoff := x.p_cutoff + x.cutoffincrement }
  let x : t_zdsv α := { x with p_resonance := x.p_resonance + x.resonanceincrement }
  (x, out)

/-- The sample loop of `zdsv_perform`: instance and written samples after the
first `i` samples. -/
def perform_loop (tan : α → α) (in1 : Nat → α) (x : t_zdsv α) : Nat → t_zdsv α × List (α × α × α)
  | 0 => (x, [])
  | i + 1 =>
    let r := perform_loop tan in1 x i
    let r2 := perform_sample tan r.1 (in1 i)
    (r2.1, r.2 ++ [r2.2])

/-- Block routine `zdsv_perform` on buffers of length `n`; the list holds, for
each sample, what is written to `out1`, `out2` and `out3`. -/
def zdsv_perform (tan : α → α) (x : t_zdsv α) (in1 cutoffin resonancein : Nat → α) (n : Nat) :
    t_zdsv α × List (α × α × α) :=
  perform_loop tan in1 (perform_begin x (cutoffin 0) (resonancein 0) n) n

/-- Instances of `zdsv~` reachable from construction when every `dsp` call of the
host announces the same sample rate `sr`: the constructor, then `dsp` and blocks
in any order. -/
inductive ReachableAt (tan atan : α → α) (sr : α) : t_zdsv α → Prop
  | construct : ReachableAt tan atan sr (zdsv_dsp (zdsv_new atan) sr)
  | dsp (x : t_zdsv α) : ReachableAt tan atan sr x → ReachableAt tan atan sr (zdsv_dsp x sr)
  | perform (x : t_zdsv α) (in1 cutoffin resonancein : Nat → α) (n : Nat) :
      ReachableAt tan atan sr x →
      ReachableAt tan atan sr (zdsv_perform tan x in1 cutoffin resonancein n).1

end zdsv

/-! ## `ring64~`: bank of 64 zero-delay-feedback band-pass resonators -/

namespace ring64

/-- Number of filters: `#define BANDS 64`. -/
abbrev BANDS : Nat := 64

/-- A message argument (`t_atom`): a number, a symbol, or another kind. -/
inductive t_atom (α : Type) where
  | A_FLOAT (w_float : α)
  | A_SYMBOL (s_name : String)
  | A_POINTER

/-- Instance data of `ring64~` (the host fields `x_obj`, `x_out` are left out). -/
structure t_ring64 (α : Type) where
  x_f : α
  x_sr : α
  T : α
  PI : α
  p_input : α
  p_cutoff : α
  cutoffold : α
  cutoffincrement : α
  p_resonance : α
  resonanceold : α
  resonanceincrement : α
  p_gainband : Nat → α
  gainbandold : Nat → α
  gainbandincrement : Nat → α
  p_brightness : α
  brightnessold : α
  brightnessincrement : α
  numberbands : Int
  softclip : Int
  x_lp : Nat → α
  x_bp : Nat → α
  x_hp : Nat → α
  s1 : Nat → α
  s2 : Nat → α
  freqmult : Nat → α
  freqband : Nat → α
  gainband : Nat → α
  singleout : Nat → α
  sumout : α
  gain : α

variable {α : Type} [LinearOrderedField α]

/-- Memory as `pd_new` returns it: every field zero. -/
def pd_new : t_ring64 α :=
  { x_f := 0, x_sr := 0, T := 0, PI := 0, p_input := 0, p_cutoff := 0, cutoffold := 0,
    cutoffincrement := 0, p_resonance := 0, resonanceold := 0, resonanceincrement := 0,
    p_gainband := fun _ => 0, gainbandold := fun _ => 0, gainbandincrement := fun _ => 0,
    p_brightness := 0, brightnessold := 0, brightnessincrement := 0,
    numberbands := 0, softclip := 0,
    x_lp := fun _ => 0, x_bp := fun _ => 0, x_hp := fun _ => 0, s1 := fun _ => 0,
    s2 := fun _ => 0, freqmult := fun _ => 0, freqband := fun _ => 0, gainband := fun _ => 0,
    singleout := fun _ => 0, sumout := 0, gain := 0 }

/-- The initialisation loop of `ring64_new`: the instance after its first `m` iterations. -/
def new_loop (x : t_ring64 α) : Nat → t_ring64 α
  | 0 => x
  | m + 1 =>
    let y := new_loop x m
    { y with
      s1 := Function.update y.s1 m 0,
      s2 := Function.update y.s2 m 0,
      freqmult := Function.update y.freqmult m 1,
      gainband := Function.update y.gainband m 1 }

/-- Constructor `ring64_new`. -/
def ring64_new (atan : α → α) : t_ring64 α :=
  let x : t_ring64 α := { (pd_new : t_ring64 α) with x_f := 0, PI := 4 * atan 1 }
  let x := new_loop x BANDS
  { x with
    numberbands := 16, p_cutoff := 0, cutoffold := 0, p_resonance := 1, resonanceold := 1,
    p_brightness := 0, brightnessold := 0, softclip := 0, gain := 0.9 }

/-- Body of the loop of `ring64_freqs` for entry `i`: a number becomes the
frequency multiplier of band `i`; a symbol is reported and skipped. -/
def freqs_entry (x : t_ring64 α) (i : Nat) (a : t_atom α) : t_ring64 α :=
  match a with
  | t_atom.A_FLOAT f => { x with freqmult := Function.update x.freqmult i f }
  | _ => x

/-- Message `freqs`: entry `i` of the list, when it is a number, becomes the
frequency multiplier of band `i`. -/
def ring64_freqs (x : t_ring64 α) (argvec : List (t_atom α)) : t_ring64 α :=
  (argvec.enum).foldl (fun y ia => freqs_entry y ia.1 ia.2) x

/-- Body of the loop of `ring64_gains` for entry `i`: a number is clamped to
`[0, 16]` and becomes the base gain of band `i`; a symbol is reported and skipped. -/
def gains_entry (x : t_ring64 α) (i : Nat) (a : t_atom α) : t_ring64 α :=
  match a with
  | t_atom.A_FLOAT f =>
    if f > 16 then { x with p_gainband := Function.update x.p_gainband i 16 }
    else if f < 0 then { x with p_gainband := Function.update x.p_gainband i 0 }
    else { x with p_gainband := Function.update x.p_gainband i f }
  | _ => x

/-- Message `gains`: entry `i` of the list, when it is a number, is clamped to
`[0, 16]` and becomes the base gain of band `i`. -/
def ring64_gains (x : t_ring64 α) (argvec : List (t_atom α)) : t_ring64 α :=
  (argvec.enum).foldl (fun y ia => gains_entry y ia.1 ia.2) x

/-- Message `bands`: the number of active bands, clamped to `[1, 64]`. -/
def ring64_bands [FloorRing α] (x : t_ring64 α) (bands : α) : t_ring64 α :=
  if bands < 1 then { x with numberbands := 1 }
  else if bands > 64 then { x with numberbands := 64 }
  else { x with numberbands := c_trunc bands }

/-- Message `gain`: the overall gain, clamped to `[0, 2]`. -/
def ring64_gain (x : t_ring64 α) (gain : α) : t_ring64 α :=
  if gain < 0 then { x with gain := 0 }
  else if gain > 2 then { x with gain := 2 }
  else { x with gain := gain }

/-- Message `softclip`: the flag is the request converted to an integer. -/
def ring64_softclip [FloorRing α] (x : t_ring64 α) (softclip : α) : t_ring64 α :=
  { x with softclip := c_trunc softclip }

/-- Method `dsp`: record the sample rate of the signal. -/
def ring64_dsp (x : t_ring64 α) (s_sr : α) : t_ring64 α :=
  { x with x_sr := s_sr }

/-- Start of `ring64_perform`: read the first cutoff sample and clip it when it
differs from `cutoffold`. -/
def perform_cutoff (x : t_ring64 α) (cutoffin0 : α) : t_ring64 α :=
  let x : t_ring64 α := { x with p_cutoff := cutoffin0 }
  if x.p_cutoff ≠ x.cutoffold then
    if x.p_cutoff > x.x_sr * 0.48 then
      { x with p_cutoff := x.x_sr * 0.48, cutoffold := x.x_sr * 0.48 }
    else if x.p_cutoff < 0.0003 then
      { x with p_cutoff := 0.0003, cutoffold := 0.0003 }
    else
      { x with cutoffold := x.p_cutoff }
  else
    x

/-- The C expression `1-exp((-1000.0f/ x_sr) / (6.91*r))` of `ring64_perform`, at
the sample rate of a running signal (`sr > 0`).  Where the divisor `6.91*r` is zero
(the zero of a silent signal, of positive sign) the C quotient of the negative
number `-1000/sr` by it is `−∞` and `exp` gives `0`, so the value is `1`; elsewhere
the quotient is that of the field. -/
def resonance_map (exp : α → α) (sr r : α) : α :=
  if 6.91 * r = 0 then 1 else 1 - exp ((-1000 / sr) / (6.91 * r))

/-- Start of `ring64_perform`: map the first resonance sample by
`1 - exp((-1000/sr) / (6.91 r))` and clip it when it differs from `resonanceold`. -/
def perform_resonance (exp : α → α) (x : t_ring64 α) (resonancein0 : α) : t_ring64 α :=
  let x : t_ring64 α := { x with p_resonance := resonance_map exp x.x_sr resonancein0 }
  if x.p_resonance ≠ x.resonanceold then
    if x.p_resonance > 1 then
      { x with p_resonance := 1, resonanceold := 1 }
    else if x.p_resonance < 0.00002 then
      { x with p_resonance := 0.00002, resonanceold := 0.00002 }
    else
      { x with resonanceold := x.p_resonance }
  else
    x

/-- Start of `ring64_perform`: read the first brightness sample and clip it to
`[-1, 1]` when it differs from `brightnessold`. -/
def perform_brightness (x : t_ring64 α) (brightnessin0 : α) : t_ring64 α :=
  let x : t_ring64 α := { x with p_brightness := brightnessin0 }
  if x.p_brightness ≠ x.brightnessold then
    let x : t_ring64 α :=
      if x.p_brightness < -1 then { x with p_brightness := -1, brightnessold := -1 }
      else if x.p_brightness > 1 then { x with p_brightness := 1, brightnessold := 1 }
      else x
    { x with brightnessold := x.p_brightness }
  else
    x

/-- Everything `ring64_perform` does before its sample loop. -/
def perform_begin (exp : α → α) (x : t_ring64 α) (cutoffin0 resonancein0 brightnessin0 : α)
    (n : Nat) : t_ring64 α :=
  let x : t_ring64 α := { x with T := 1 / x.x_sr }
  let oneoverblocksize : α := 1 / (n : α)
  let x := perform_cutoff x cutoffin0
  let x := perform_resonance exp x resonancein0
  let x := perform_brightness x brightnessin0
  let x : t_ring64 α := { x with cutoffincrement := (x.p_cutoff - x.cutoffold) * oneoverblocksize }
  let x : t_ring64 α :=
    { x with resonanceincrement := (x.p_resonance - x.resonanceold) * oneoverblocksize }
  { x with brightnessincrement := (x.p_brightness - x.brightnessold) * oneoverblocksize }

/-- The reference band of the spectral tilt: `FLOAT pivot = 4`. -/
def pivot : α := 4

/-- The band-limiting test of band `k`: `p_cutoff * freqmult[k] > 0.48 * x_sr`. -/
def muted (x : t_ring64 α) (k : Nat) : Prop :=
  x.p_cutoff * x.freqmult k > 0.48 * x.x_sr

instance (x : t_ring64 α) (k : Nat) : Decidable (muted x k) := by
  unfold muted
  infer_instance

/-- One iteration `k` of the first band loop: mute and reset the band, or set its
gain from the base gain and the brightness tilt; a negative gain becomes `0`. -/
def gain_band (x : t_ring64 α) (k : Nat) : t_ring64 α :=
  let x : t_ring64 α :=
    if muted x k then
      { x with
        gainband := Function.update x.gainband k 0,
        s1 := Function.update x.s1 k 0,
        s2 := Function.update x.s2 k 0 }
    else
      let tilt : α := x.p_gainband k * (x.p_brightness * (((k : α) + 1 - pivot) / pivot) + 1)
      { x with gainband := Function.update x.gainband k tilt }
  if x.gainband k < 0 then { x with gainband := Function.update x.gainband k 0 } else x

/-- The first band loop `for (k = 0; k < BANDS; ++k)`: the instance after its
first `k` iterations. -/
def gain_loop (x : t_ring64 α) : Nat → t_ring64 α
  | 0 => x
  | k + 1 => gain_band (gain_loop x k) k

/-- The prewarped integrator gain `g` of band `m`:
`wd = 2*PI*cutoff*freqmult[m]`, `wa = (2*sr) * tan(wd*T*0.5)`, `g = wa*T*0.5`. -/
def prewarp (tan : α → α) (x : t_ring64 α) (m : Nat) : α :=
  let wd := 2 * x.PI * x.p_cutoff * x.freqmult m
  let wa := (2 * x.x_sr) * tan (wd * x.T * 0.5)
  wa * x.T * 0.5

/-- The divisor of the high-pass solve of band `m`. -/
def divisor (tan : α → α) (x : t_ring64 α) (m : Nat) : α :=
  1 + 2 * x.p_resonance * prewarp tan x m + prewarp tan x m * prewarp tan x m

/-- One iteration `m` of the solve loop: the filter of band `m` and its weighted
output.  The quotient `hp` is that of the field: it is the value the C code computes
where `divisor` is not zero; at a zero divisor the C code yields `±∞` or NaN, which
the field does not have, and the definition does not describe the code there. -/
def solve_band (tan : α → α) (x : t_ring64 α) (m : Nat) : t_ring64 α :=
  let g := prewarp tan x m
  let hp : α := (x.p_input - 2 * x.p_resonance * x.s1 m - g * x.s1 m - x.s2 m) / divisor tan x m
  let x : t_ring64 α := { x with x_hp := Function.update x.x_hp m hp }
  let x : t_ring64 α := { x with x_bp := Function.update x.x_bp m (g * x.x_hp m + x.s1 m) }
  let x : t_ring64 α := { x with s1 := Function.update x.s1 m (g * x.x_hp m + x.x_bp m) }
  let x : t_ring64 α := { x with x_lp := Function.update x.x_lp m (g * x.x_bp m + x.s2 m) }
  let x : t_ring64 α := { x with s2 := Function.update x.s2 m (g * x.x_bp m + x.x_lp m) }
  { x with singleout := Function.update x.singleout m (x.x_bp m * x.gainband m) }

/-- The solve loop `for (m = 0; m < x->numberbands; ++m)`: the instance after its
first `m` iterations. -/
def solve_loop (tan : α → α) (x : t_ring64 α) : Nat → t_ring64 α
  | 0 => x
  | m + 1 => solve_band tan (solve_loop tan x m) m

/-- The mixing loop `for (l = 0; l < x->numberbands; ++l)`: the instance after its
first `l` iterations. -/
def mix_loop (oneovernumberbands : α) (x : t_ring64 α) : Nat → t_ring64 α
  | 0 => x
  | l + 1 =>
    let y := mix_loop oneovernumberbands x l
    { y with sumout := y.sumout + (y.gain * y.singleout l * oneovernumberbands) }

/-- The soft-clipping branch: clamp `sumout` to `[-1, 1]`, then write
`1.5 s - 0.5 s³`; without soft clipping `sumout` is written as it is. -/
def write_out (x : t_ring64 α) : t_ring64 α × α :=
  if x.softclip = 1 then
    let x : t_ring64 α := if x.sumout > 1 then { x with sumout := 1 } else x
    let x : t_ring64 α := if x.sumout < -1 then { x with sumout := -1 } else x
    (x, 1.5 * x.sumout - 0.5 * x.sumout * x.sumout * x.sumout)
  else
    (x, x.sumout)

/-- Body of the sample loop of `ring64_perform`: the new instance and the sample
written to `out`. -/
def perform_sample (tan : α → α) (oneovernumberbands : α) (x : t_ring64 α) (in1 : α) :
    t_ring64 α × α :=
  let x : t_ring64 α := { x with p_input := in1 }
  let x := gain_loop x BANDS
  let x := solve_loop tan x x.numberbands.toNat
  let x : t_ring64 α := { x with sumout := 0 }
  let x := mix_loop oneovernumberbands x x.numberbands.toNat
  let r := write_out x
  let x := r.1
  let x : t_ring64 α := { x with p_cutoff := x.p_cutoff + x.cutoffincrement }
  let x : t_ring64 α := { x with p_resonance := x.p_resonance + x.resonanceincrement }
  let x : t_ring64 α := { x with p_brightness := x.p_brightness + x.brightnessincrement }
  (x, r.2)

/-- The sample loop of `ring64_perform`: instance and output after the first `i` samples. -/
def perform_loop (tan : α → α) (oneovernumberbands : α) (in1 : Nat → α) (x : t_ring64 α) :
    Nat → t_ring64 α × List α
  | 0 => (x, [])
  | i + 1 =>
    let r := perform_loop tan oneovernumberbands in1 x i
    let r2 := perform_sample tan oneovernumberbands r.1 (in1 i)
    (r2.1, r.2 ++ [r2.2])

/-- Block routine `ring64_perform` on buffers of length `n`. -/
def ring64_perform (tan exp : α → α) (x : t_ring64 α)
    (in1 cutoffin resonancein brightnessin : Nat → α) (n : Nat) : t_ring64 α × List α :=
  let oneovernumberbands : α := 1 / (x.numberbands : α)
  perform_loop tan oneovernumberbands in1
    (perform_begin exp x (cutoffin 0) (resonancein 0) (brightnessin 0) n) n

/-! Closed forms of the loops of one sample, used to state the theorems. -/

/-- The gain of band `k` after the first band loop of a sample: `0` for a muted
band, else the base gain times the brightness tilt, and never negative. -/
def band_gain (x : t_ring64 α) (k : Nat) : α :=
  if muted x k then 0
  else if x.p_gainband k * (x.p_brightness * (((k : α) + 1 - pivot) / pivot) + 1) < 0 then 0
  else x.p_gainband k * (x.p_brightness * (((k : α) + 1 - pivot) / pivot) + 1)

/-- High-pass value of band `m` solved from the instance `x`. -/
def band_hp (tan : α → α) (x : t_ring64 α) (m : Nat) : α :=
  (x.p_input - 2 * x.p_resonance * x.s1 m - prewarp tan x m * x.s1 m - x.s2 m) / divisor tan x m

/-- Band-pass value of band `m` solved from the instance `x`. -/
def band_bp (tan : α → α) (x : t_ring64 α) (m : Nat) : α :=
  prewarp tan x m * band_hp tan x m + x.s1 m

/-- Low-pass value of band `m` solved from the instance `x`. -/
def band_lp (tan : α → α) (x : t_ring64 α) (m : Nat) : α :=
  prewarp tan x m * band_bp tan x m + x.s2 m

/-- The instance as the solve loop of one sample finds it: the input sample is
stored and the first band loop has run over all 64 bands. -/
def pre_solve (x : t_ring64 α) (a : α) : t_ring64 α :=
  gain_loop { x with p_input := a } BANDS

/-- The mix of one sample before soft clipping: the weighted band outputs of the
active bands, each times the overall gain and `1 / numberbands`. -/
def mix_value (tan : α → α) (o : α) (x : t_ring64 α) (a : α) : α :=
  ∑ l in Finset.range x.numberbands.toNat,
    x.gain * (band_bp tan (pre_solve x a) l * (pre_solve x a).gainband l) * o

/-- The soft-clipping curve applied to the mix `s` when `softclip` is `1`. -/
def clip_value (s : α) : α :=
  let c := if (if s > 1 then 1 else s) < -1 then -1 else (if s > 1 then 1 else s)
  1.5 * c - 0.5 * c * c * c

/-- The resonance with which a block of `ring64~` runs: `1 - exp((-1000/sr)/(6.91 r))`
for the first resonance sample `r` (`resonance_map`), clipped to `[0.00002, 1]`
when it differs from the retained value `old`. -/
def resonance_value (exp : α → α) (sr old r : α) : α :=
  if resonance_map exp sr r ≠ old then
    if resonance_map exp sr r > 1 then 1
    else if resonance_map exp sr r < 0.00002 then 0.00002
    else resonance_map exp sr r
  else resonance_map exp sr r

/-- The brightness with which a block of `ring64~` runs: the first brightness
sample `b`, clipped to `[-1, 1]` when it differs from the retained value `old`. -/
def brightness_value (old b : α) : α :=
  if b ≠ old then (if b < -1 then -1 else if b > 1 then 1 else b) else b

/-- The instance as sample `i` of a block of `ring64_perform` finds it: the block
prologue and the first `i` samples have run. -/
def sample_start (tan exp : α → α) (x : t_ring64 α)
    (in1 cutoffin resonancein brightnessin : Nat → α) (n i : Nat) : t_ring64 α :=
  (perform_loop tan (1 / (x.numberbands : α)) in1
    (perform_begin exp x (cutoffin 0) (resonancein 0) (brightnessin 0) n) i).1

/-- Instances of `ring64~` reachable from construction: the constructor, then `dsp`
(at any positive sample rate), the control messages and blocks in any order. -/
inductive Reachable [FloorRing α] (tan exp atan : α → α) : t_ring64 α → Prop
  | construct : Reachable tan exp atan (ring64_new atan)
  | dsp (x : t_ring64 α) (sr : α) : 0 < sr → Reachable tan exp atan x →
      Reachable tan exp atan (ring64_dsp x sr)
  | freqs (x : t_ring64 α) (argvec : List (t_atom α)) : Reachable tan exp atan x →
      Reachable tan exp atan (ring64_freqs x argvec)
  | gains (x : t_ring64 α) (argvec : List (t_atom α)) : Reachable tan exp atan x →
      Reachable tan exp atan (ring64_gains x argvec)
  | bands (x : t_ring64 α) (b : α) : Reachable tan exp atan x →
      Reachable tan exp atan (ring64_bands x b)
  | gain (x : t_ring64 α) (g : α) : Reachable tan exp atan x →
      Reachable tan exp atan (ring64_gain x g)
  | softclip (x : t_ring64 α) (s : α) : Reachable tan exp atan x →
      Reachable tan exp atan (ring64_softclip x s)
  | perform (x : t_ring64 α) (in1 cutoffin resonancein brightnessin : Nat → α) (n : Nat) :
      Reachable tan exp atan x →
      Reachable tan exp atan (ring64_perform tan exp x in1 cutoffin resonancein brightnessin n).1

/-- Instances of `ring64~` reachable from construction when every `dsp` call of the
host announces the same sample rate `sr`: the constructor and `dsp`, then `dsp`,
the control messages and blocks in any order. -/
inductive ReachableAt [FloorRing α] (tan exp atan : α → α) (sr : α) : t_ring64 α → Prop
  | construct : ReachableAt tan exp atan sr (ring64_dsp (ring64_new atan) sr)
  | dsp (x : t_ring64 α) : ReachableAt tan exp atan sr x →
      ReachableAt tan exp atan sr (ring64_dsp x sr)
  | freqs (x : t_ring64 α) (argvec : List (t_atom α)) : ReachableAt tan exp atan sr x →
      ReachableAt tan exp atan sr (ring64_freqs x argvec)
  | gains (x : t_ring64 α) (argvec : List (t_atom α)) : ReachableAt tan exp atan sr x →
      ReachableAt tan exp atan sr (ring64_gains x argvec)
  | bands (x : t_ring64 α) (b : α) : ReachableAt tan exp atan sr x →
      ReachableAt tan exp atan sr (ring64_bands x b)
  | gain (x : t_ring64 α) (g : α) : ReachableAt tan exp atan sr x →
      ReachableAt tan exp atan sr (ring64_gain x g)
  | softclip (x : t_ring64 α) (s : α) : ReachableAt tan exp atan sr x →
      ReachableAt tan exp atan sr (ring64_softclip x s)
  | perform (x : t_ring64 α) (in1 cutoffin resonancein brightnessin : Nat → α) (n : Nat) :
      ReachableAt tan exp atan sr x →
      ReachableAt tan exp atan sr
        (ring64_perform tan exp x in1 cutoffin resonancein brightnessin n).1

end ring64

/-! ## Definitions for the statements

The update of the specification (`rk4_spec`) and closed forms of values the code
computes. -/

section SpecSide

variable {α : Type} [LinearOrderedField α]

/-- The classical four-stage Runge–Kutta update in the words of the
specification: `k1 = f(s)`, `k2 = f(s + h/2·k1)`, `k3 = f(s + h/2·k2)`,
`k4 = f(s + h·k3)`, `s′ = s + (h/6)(k1 + 2k2 + 2k3 + k4)`. -/
def rk4_spec {N : Nat} (f : (Fin N → α) → (Fin N → α)) (h : α) (s : Fin N → α) : Fin N → α :=
  let k1 := f s
  let k2 := f (fun i => s i + h / 2 * k1 i)
  let k3 := f (fun i => s i + h / 2 * k2 i)
  let k4 := f (fun i => s i + h * k3 i)
  fun i => s i + h / 6 * (k1 i + 2 * k2 i + 2 * k3 i + k4 i)

/-- The cutoff with which a block of `zdsv~` or `ring64~` runs: the first cutoff
sample `c`, clipped to `[0.0003, 0.48 sr]` when it differs from the retained
value `old`, and `c` itself when it is equal to it. -/
def cutoff_value (sr old c : α) : α :=
  if c ≠ old then
    if c > sr * 0.48 then sr * 0.48 else if c < 0.0003 then 0.0003 else c
  else c

/-- The resonance with which a block of `zdsv~` runs: `1 - 0.01 r` for the first
resonance sample `r`, clipped to `[0.0005, 1]` when it differs from the retained
value `old`. -/
def zdsv_resonance_value (old r : α) : α :=
  if 1 - 0.01 * r ≠ old then
    if 1 - 0.01 * r > 1 then 1 else if 1 - 0.01 * r < 0.0005 then 0.0005 else 1 - 0.01 * r
  else 1 - 0.01 * r

/-- The factor by which one Runge–Kutta step of the linear low-pass multiplies the
distance to the input: `1 - a + a²/2 - a³/6 + a⁴/24` for `a = k·h`. -/
def fumio_P {α : Type} [LinearOrderedField α] (a : α) : α :=
  1 - a + a ^ 2 / 2 - a ^ 3 / 6 + a ^ 4 / 24

/-- The coupling of the first state into the second in one Runge–Kutta step of the
linear low-pass: `a - a² + a³/2 - a⁴/6` for `a = k·h`. -/
def fumio_Q {α : Type} [LinearOrderedField α] (a : α) : α :=
  a - a ^ 2 + a ^ 3 / 2 - a ^ 4 / 6

/-- In the words of the specification for `fumio~`: the integrator invoked `j`
times in succession from the state `s`, with step size `h` and the input, cutoff
and resonance of the instance `p` held fixed. -/
def fumio_rk_steps (tanh : α → α) (h : α) (p : fumio.t_fumio α) :
    Nat → (Fin 2 → α) → Option (Fin 2 → α)
  | 0, s => some s
  | j + 1, s => (fumio_rk_steps tanh h p j s).bind (fun t => fumio.solver_rungekutta tanh t h p)

/-- In the words of the specification for `ota~`: the integrator invoked `j` times
in succession from the state `s`, with step size `h` and the input, cutoff and
resonance of the instance `p` held fixed. -/
def ota_rk_steps (tanh : α → α) (h : α) (p : ota.t_ota α) : Nat → (Fin 4 → α) → Fin 4 → α
  | 0, s => s
  | j + 1, s => ota.solver_rungekutta tanh (ota_rk_steps tanh h p j s) h p

end SpecSide

/-! ## Theorems -/

section Theorems

variable {α : Type} [LinearOrderedField α]

theorem half_lit : (0.5 : α) = 1 / 2 := by norm_num

/-- In a valid mode the derivative function of `fumio~` is total. -/
theorem fumio_calc_derivatives_total (tanh : α → α) (x : fumio.t_fumio α)
    (hm : x.x_mode = 1 ∨ x.x_mode = 2 ∨ x.x_mode = 3) :
    ∃ f : (Fin 2 → α) → (Fin 2 → α), ∀ v, fumio.calc_derivatives tanh v x = some (f v) := by
  refine ⟨fun v => (fumio.calc_derivatives tanh v x).getD (fun _ => 0), fun v => ?_⟩
  rcases hm with h | h | h <;> simp [fumio.calc_derivatives, h]

/-- C1. In both Runge–Kutta models `solver_rungekutta` replaces the state `s` by
`s + (h/6)(k1 + 2 k2 + 2 k3 + k4)` with `k1 = f s`, `k2 = f (s + (h/2) k1)`,
`k3 = f (s + (h/2) k2)`, `k4 = f (s + h k3)`, where `f` is the model's
`calc_derivatives` at fixed parameters: for `fumio~` (two states, mode 1, 2
or 3, where `calc_derivatives` is the total function `f`) and for `ota~`
(four states). -/
theorem C1_solver_rungekutta_is_rk4 (tanh : α → α) :
    (∀ (x : fumio.t_fumio α) (s : Fin 2 → α) (h : α),
        (x.x_mode = 1 ∨ x.x_mode = 2 ∨ x.x_mode = 3) →
        ∃ f : (Fin 2 → α) → (Fin 2 → α),
          (∀ v, fumio.calc_derivatives tanh v x = some (f v)) ∧
          fumio.solver_rungekutta tanh s h x = some (rk4_spec f h s)) ∧
    (∀ (x : ota.t_ota α) (s : Fin 4 → α) (h : α),
        ota.solver_rungekutta tanh s h x
          = rk4_spec (fun v => ota.calc_derivatives tanh v x) h s) := by
  constructor
  · intro x s h hm
    obtain ⟨f, hf⟩ := fumio_calc_derivatives_total tanh x hm
    refine ⟨f, hf, ?_⟩
    simp only [fumio.solver_rungekutta, hf, rk4_spec, Option.bind_eq_bind, Option.some_bind,
      Option.pure_def, bind_pure_comp, Option.map_eq_map, Option.map_some', half_lit]
    congr 1
    funext i
    have e1 : (fun i => s i + 1 / 2 * h * f s i) = (fun i => s i + h / 2 * f s i) := by
      funext j; ring
    rw [e1]
    have e2 : (fun i => s i + 1 / 2 * h * f (fun i => s i + h / 2 * f s i) i)
        = (fun i => s i + h / 2 * f (fun i => s i + h / 2 * f s i) i) := by
      funext j; ring
    rw [e2]
    ring
  · intro x s h
    simp only [ota.solver_rungekutta, rk4_spec, half_lit]
    funext i
    have e1 : (fun i => s i + 1 / 2 * h * ota.calc_derivatives tanh s x i)
        = (fun i => s i + h / 2 * ota.calc_derivatives tanh s x i) := by
      funext j; ring
    rw [e1]
    have e2 : (fun i => s i + 1 / 2 * h *
          ota.calc_derivatives tanh (fun i => s i + h / 2 * ota.calc_derivatives tanh s x i) x i)
        = (fun i => s i + h / 2 *
          ota.calc_derivatives tanh (fun i => s i + h / 2 * ota.calc_derivatives tanh s x i) x i) := by
      funext j; ring
    rw [e2]
    ring

/-- The fields of a new `fumio~` over the reals. -/
theorem fumio_new_fields :
    (fumio.fumio_new : fumio.t_fumio ℝ).x_mode = 1 ∧
    (fumio.fumio_new : fumio.t_fumio ℝ).x_oversample = 2 ∧
    (fumio.fumio_new : fumio.t_fumio ℝ).x_state = (fun _ => 0) := by
  refine ⟨?_, ?_, ?_⟩
  · simp [fumio.fumio_new, fumio.fumio_mode, c_trunc]
  · simp [fumio.fumio_new, fumio.fumio_mode, fumio.fumio_oversample, fumio.fumio_clear, c_trunc]
    norm_num
  · simp [fumio.fumio_new, fumio.fumio_mode]

/-- C1, witness: one step of the new `fumio~` (mode 1) from the zero state. -/
theorem C1_witness :
    ∃ f : (Fin 2 → ℝ) → (Fin 2 → ℝ),
      (∀ v, fumio.calc_derivatives Real.tanh v fumio.fumio_new = some (f v)) ∧
      fumio.solver_rungekutta Real.tanh (fun _ => 0) (1 / 88200) fumio.fumio_new
        = some (rk4_spec f (1 / 88200) (fun _ => 0)) :=
  (C1_solver_rungekutta_is_rk4 Real.tanh).1 fumio.fumio_new (fun _ => 0) (1 / 88200)
    (Or.inl fumio_new_fields.1)

/-! ### `zdsv~`: the block prologue and the sample loop -/

section ZdsvLemmas

open zdsv

theorem zdsv_perform_cutoff_eq (x : t_zdsv α) (c : α) :
    perform_cutoff x c = { x with p_cutoff := cutoff_value x.x_sr x.cutoffold c,
                                  cutoffold := cutoff_value x.x_sr x.cutoffold c } := by
  unfold perform_cutoff cutoff_value
  dsimp only
  split_ifs with h1 h2 h3
  · rfl
  · rfl
  · rfl
  · have h := not_not.mp h1
    rw [h]

theorem zdsv_perform_resonance_eq (x : t_zdsv α) (r : α) :
    perform_resonance x r = { x with p_resonance := zdsv_resonance_value x.resonanceold r,
                                     resonanceold := zdsv_resonance_value x.resonanceold r } := by
  unfold perform_resonance zdsv_resonance_value
  dsimp only
  split_ifs with h1 h2 h3
  · rfl
  · rfl
  · rfl
  · have h := not_not.mp h1
    rw [h]

/-- The instance with which the sample loop of `zdsv_perform` starts: the retained
values are overwritten before the increments are taken, so both increments are `0`. -/
theorem zdsv_perform_begin_eq (x : t_zdsv α) (c r : α) (n : Nat) :
    perform_begin x c r n = { x with
      T := 1 / x.x_sr,
      p_cutoff := cutoff_value x.x_sr x.cutoffold c,
      cutoffold := cutoff_value x.x_sr x.cutoffold c,
      p_resonance := zdsv_resonance_value x.resonanceold r,
      resonanceold := zdsv_resonance_value x.resonanceold r,
      cutoffincrement := 0,
      resonanceincrement := 0 } := by
  simp [perform_begin, zdsv_perform_cutoff_eq, zdsv_perform_resonance_eq]

/-- Fields the sample loop of `zdsv_perform` keeps, and the running controls. -/
theorem zdsv_perform_loop_frame (tan : α → α) (in1 : Nat → α) (x : t_zdsv α) (i : Nat) :
    (perform_loop tan in1 x i).1.x_sr = x.x_sr ∧
    (perform_loop tan in1 x i).1.T = x.T ∧
    (perform_loop tan in1 x i).1.PI = x.PI ∧
    (perform_loop tan in1 x i).1.cutoffincrement = x.cutoffincrement ∧
    (perform_loop tan in1 x i).1.resonanceincrement = x.resonanceincrement ∧
    (perform_loop tan in1 x i).1.cutoffold = x.cutoffold ∧
    (perform_loop tan in1 x i).1.resonanceold = x.resonanceold ∧
    (perform_loop tan in1 x i).1.p_cutoff = x.p_cutoff + i * x.cutoffincrement ∧
    (perform_loop tan in1 x i).1.p_resonance = x.p_resonance + i * x.resonanceincrement := by
  induction i with
  | zero => simp [perform_loop]
  | succ i ih =>
    obtain ⟨h1, h2, h3, h4, h5, h6, h7, h8, h9⟩ := ih
    simp only [perform_loop, perform_sample, h1, h2, h3, h4, h5, h6, h7, h8, h9, Nat.cast_succ]
    refine ⟨trivial, trivial, trivial, trivial, trivial, trivial, trivial, ?_, ?_⟩ <;> ring

theorem zdsv_perform_loop_length (tan : α → α) (in1 : Nat → α) (x : t_zdsv α) (i : Nat) :
    (perform_loop tan in1 x i).2.length = i := by
  induction i with
  | zero => rfl
  | succ i ih => simp [perform_loop, ih]

/-- Entry `i` of the output of the loop is what the body wrote for sample `i`. -/
theorem zdsv_perform_loop_out (tan : α → α) (in1 : Nat → α) (x : t_zdsv α) (n i : Nat)
    (h : i < n) :
    (perform_loop tan in1 x n).2[i]?
      = some (perform_sample tan (perform_loop tan in1 x i).1 (in1 i)).2 := by
  induction n with
  | zero => omega
  | succ n ih =>
    simp only [perform_loop]
    by_cases hi : i < n
    · rw [List.getElem?_append_left (by rw [zdsv_perform_loop_length]; exact hi)]
      exact ih hi
    · have : i = n := by omega
      subst this
      rw [List.getElem?_append_right (by rw [zdsv_perform_loop_length])]
      simp [zdsv_perform_loop_length]


/-- One sample of the `zdsv~` solve in terms of its integrator gain `g`. -/
theorem zdsv_perform_sample_eq (tan : α → α) (y : t_zdsv α) (a g : α)
    (hg : prewarp tan { y with p_input := a } = g) :
    (perform_sample tan y a).2
      = (g * (g * ((a - 2 * y.p_resonance * y.s1 - g * y.s1 - y.s2)
                    / (1 + 2 * y.p_resonance * g + g ^ 2)) + y.s1) + y.s2,
         g * ((a - 2 * y.p_resonance * y.s1 - g * y.s1 - y.s2)
                    / (1 + 2 * y.p_resonance * g + g ^ 2)) + y.s1,
         (a - 2 * y.p_resonance * y.s1 - g * y.s1 - y.s2)
                    / (1 + 2 * y.p_resonance * g + g ^ 2)) ∧
    (perform_sample tan y a).1.s1
      = g * ((a - 2 * y.p_resonance * y.s1 - g * y.s1 - y.s2)
                    / (1 + 2 * y.p_resonance * g + g ^ 2))
        + (g * ((a - 2 * y.p_resonance * y.s1 - g * y.s1 - y.s2)
                    / (1 + 2 * y.p_resonance * g + g ^ 2)) + y.s1) ∧
    (perform_sample tan y a).1.s2
      = g * (g * ((a - 2 * y.p_resonance * y.s1 - g * y.s1 - y.s2)
                    / (1 + 2 * y.p_resonance * g + g ^ 2)) + y.s1)
        + (g * (g * ((a - 2 * y.p_resonance * y.s1 - g * y.s1 - y.s2)
                    / (1 + 2 * y.p_resonance * g + g ^ 2)) + y.s1) + y.s2) := by
  subst hg
  simp only [perform_sample, divisor, sq, and_self]

end ZdsvLemmas

/-! ### `ring64~`: closed forms of the loops of one sample -/

section Ring64Lemmas

open ring64

theorem ring64_gain_band_eq (x : t_ring64 α) (K : Nat) :
    gain_band x K = { x with
      gainband := Function.update x.gainband K (band_gain x K),
      s1 := if muted x K then Function.update x.s1 K 0 else x.s1,
      s2 := if muted x K then Function.update x.s2 K 0 else x.s2 } := by
  unfold gain_band band_gain
  by_cases h : muted x K
  · simp [h]
  · simp only [h, if_false, Function.update_same]
    split_ifs with h2
    · simp
    · rfl

theorem ring64_gain_loop_eq (x : t_ring64 α) (K : Nat) :
    gain_loop x K = { x with
      gainband := fun k => if k < K then band_gain x k else x.gainband k,
      s1 := fun k => if k < K ∧ muted x k then 0 else x.s1 k,
      s2 := fun k => if k < K ∧ muted x k then 0 else x.s2 k } := by
  induction K with
  | zero => simp [gain_loop]
  | succ K ih =>
    simp only [gain_loop, ih, ring64_gain_band_eq]
    have hm : ∀ (g s t : Nat → α), muted { x with gainband := g, s1 := s, s2 := t } K ↔ muted x K :=
      fun _ _ _ => Iff.rfl
    have hb : ∀ (g s t : Nat → α),
        band_gain { x with gainband := g, s1 := s, s2 := t } K = band_gain x K :=
      fun _ _ _ => rfl
    simp only [hm, hb]
    congr 1
    all_goals
      funext k
      by_cases hk : k = K
      · subst hk
        by_cases h : muted x k
        · simp [h]
        · simp [h]
      · have : k < K + 1 ↔ k < K := by omega
        by_cases h : muted x K
        · simp [h, Function.update_noteq hk, this]
        · simp [h, Function.update_noteq hk, this]

theorem ring64_solve_band_eq (tan : α → α) (x : t_ring64 α) (m : Nat) :
    solve_band tan x m = { x with
      x_hp := Function.update x.x_hp m (band_hp tan x m),
      x_bp := Function.update x.x_bp m (band_bp tan x m),
      s1 := Function.update x.s1 m (prewarp tan x m * band_hp tan x m + band_bp tan x m),
      x_lp := Function.update x.x_lp m (band_lp tan x m),
      s2 := Function.update x.s2 m (prewarp tan x m * band_bp tan x m + band_lp tan x m),
      singleout := Function.update x.singleout m (band_bp tan x m * x.gainband m) } := by
  simp only [solve_band, band_hp, band_bp, band_lp, prewarp, divisor, Function.update_same]

theorem ring64_solve_loop_eq (tan : α → α) (x : t_ring64 α) (M : Nat) :
    solve_loop tan x M = { x with
      x_hp := fun m => if m < M then band_hp tan x m else x.x_hp m,
      x_bp := fun m => if m < M then band_bp tan x m else x.x_bp m,
      s1 := fun m => if m < M then prewarp tan x m * band_hp tan x m + band_bp tan x m
                     else x.s1 m,
      x_lp := fun m => if m < M then band_lp tan x m else x.x_lp m,
      s2 := fun m => if m < M then prewarp tan x m * band_bp tan x m + band_lp tan x m
                     else x.s2 m,
      singleout := fun m => if m < M then band_bp tan x m * x.gainband m else x.singleout m } := by
  induction M with
  | zero => simp [solve_loop]
  | succ M ih =>
    simp only [solve_loop, ih, ring64_solve_band_eq]
    have hp : ∀ (a b c d e f : Nat → α), c M = x.s1 M → e M = x.s2 M →
        band_hp tan { x with x_hp := a, x_bp := b, s1 := c, x_lp := d, s2 := e, singleout := f } M
          = band_hp tan x M := by
      intro a b c d e f h1 h2
      simp only [band_hp, prewarp, divisor, h1, h2]
    have hb : ∀ (a b c d e f : Nat → α), c M = x.s1 M → e M = x.s2 M →
        band_bp tan { x with x_hp := a, x_bp := b, s1 := c, x_lp := d, s2 := e, singleout := f } M
          = band_bp tan x M := by
      intro a b c d e f h1 h2
      simp only [band_bp, band_hp, prewarp, divisor, h1, h2]
    have hl : ∀ (a b c d e f : Nat → α), c M = x.s1 M → e M = x.s2 M →
        band_lp tan { x with x_hp := a, x_bp := b, s1 := c, x_lp := d, s2 := e, singleout := f } M
          = band_lp tan x M := by
      intro a b c d e f h1 h2
      simp only [band_lp, band_bp, band_hp, prewarp, divisor, h1, h2]
    have hg : ∀ (a b c d e f : Nat → α),
        prewarp tan { x with x_hp := a, x_bp := b, s1 := c, x_lp := d, s2 := e, singleout := f } M
          = prewarp tan x M := fun _ _ _ _ _ _ => rfl
    rw [hp _ _ _ _ _ _ (by simp) (by simp), hb _ _ _ _ _ _ (by simp) (by simp),
      hl _ _ _ _ _ _ (by simp) (by simp), hg]
    congr 1
    all_goals
      funext k
      by_cases hk : k = M
      · subst hk
        simp
      · have : k < M + 1 ↔ k < M := by omega
        simp [Function.update_noteq hk, this]

theorem ring64_mix_loop_eq (o : α) (x : t_ring64 α) (L : Nat) :
    mix_loop o x L = { x with
      sumout := x.sumout + ∑ l in Finset.range L, x.gain * x.singleout l * o } := by
  induction L with
  | zero => simp [mix_loop]
  | succ L ih =>
    simp only [mix_loop, ih, Finset.sum_range_succ, add_assoc]

theorem ring64_pre_solve_eq (x : t_ring64 α) (a : α) :
    pre_solve x a = { x with
      p_input := a,
      gainband := fun k => if k < BANDS then band_gain x k else x.gainband k,
      s1 := fun k => if k < BANDS ∧ muted x k then 0 else x.s1 k,
      s2 := fun k => if k < BANDS ∧ muted x k then 0 else x.s2 k } := by
  simp only [pre_solve, ring64_gain_loop_eq]
  rfl

theorem ring64_write_out_eq (x : t_ring64 α) :
    write_out x = if x.softclip = 1 then
        ({ x with sumout := if (if x.sumout > 1 then 1 else x.sumout) < -1 then -1
                            else (if x.sumout > 1 then 1 else x.sumout) },
          clip_value x.sumout)
      else (x, x.sumout) := by
  unfold write_out clip_value
  by_cases h : x.softclip = 1
  · rw [if_pos h, if_pos h]
    by_cases h1 : x.sumout > 1
    · have h2 : ¬ ((1 : α) < -1) := by norm_num
      simp only [h1, if_true, h2, if_false]
    · by_cases h2 : x.sumout < -1
      · simp only [h1, if_false, h2, if_true]
      · simp only [h1, if_false, h2]
  · rw [if_neg h, if_neg h]

/-- The state and band fields one sample of `ring64_perform` leaves. -/
theorem ring64_perform_sample_fields (tan : α → α) (o : α) (x : t_ring64 α) (a : α) :
    (perform_sample tan o x a).1.s1
      = (fun m => if m < x.numberbands.toNat
          then prewarp tan (pre_solve x a) m * band_hp tan (pre_solve x a) m
                + band_bp tan (pre_solve x a) m
          else (pre_solve x a).s1 m) ∧
    (perform_sample tan o x a).1.s2
      = (fun m => if m < x.numberbands.toNat
          then prewarp tan (pre_solve x a) m * band_bp tan (pre_solve x a) m
                + band_lp tan (pre_solve x a) m
          else (pre_solve x a).s2 m) ∧
    (perform_sample tan o x a).1.x_hp
      = (fun m => if m < x.numberbands.toNat then band_hp tan (pre_solve x a) m
          else x.x_hp m) ∧
    (perform_sample tan o x a).1.x_bp
      = (fun m => if m < x.numberbands.toNat then band_bp tan (pre_solve x a) m
          else x.x_bp m) ∧
    (perform_sample tan o x a).1.singleout
      = (fun m => if m < x.numberbands.toNat
          then band_bp tan (pre_solve x a) m * (pre_solve x a).gainband m
          else x.singleout m) ∧
    (perform_sample tan o x a).2
      = (if x.softclip = 1 then clip_value (mix_value tan o x a) else mix_value tan o x a) := by
  have hn : (pre_solve x a).numberbands = x.numberbands := by rw [ring64_pre_solve_eq]
  have hx : (pre_solve x a).x_hp = x.x_hp ∧ (pre_solve x a).x_bp = x.x_bp ∧
      (pre_solve x a).singleout = x.singleout ∧ (pre_solve x a).gain = x.gain ∧
      (pre_solve x a).softclip = x.softclip := by
    rw [ring64_pre_solve_eq]; exact ⟨rfl, rfl, rfl, rfl, rfl⟩
  obtain ⟨h1, h2, h3, h4, h5⟩ := hx
  have e : (gain_loop { x with p_input := a } BANDS) = pre_solve x a := rfl
  simp only [perform_sample, e, ring64_solve_loop_eq, ring64_mix_loop_eq, ring64_write_out_eq,
    hn, h1, h2, h3, h4, h5, zero_add, mix_value]
  by_cases hs : x.softclip = 1
  · simp only [hs, if_true]
    refine ⟨trivial, trivial, trivial, trivial, trivial, ?_⟩
    congr 1
    apply Finset.sum_congr rfl
    intro l hl
    simp [Finset.mem_range.mp hl]
  · simp only [hs, if_false]
    refine ⟨trivial, trivial, trivial, trivial, trivial, ?_⟩
    apply Finset.sum_congr rfl
    intro l hl
    simp [Finset.mem_range.mp hl]

end Ring64Lemmas

/-! ### `ring64~`: the block prologue and the sample loop -/

section Ring64Block
open ring64

theorem ring64_perform_cutoff_eq (x : t_ring64 α) (c : α) :
    perform_cutoff x c = { x with p_cutoff := cutoff_value x.x_sr x.cutoffold c,
                                  cutoffold := cutoff_value x.x_sr x.cutoffold c } := by
  unfold perform_cutoff cutoff_value
  dsimp only
  split_ifs with h1 h2 h3
  · rfl
  · rfl
  · rfl
  · have h := not_not.mp h1
    rw [h]

theorem ring64_perform_resonance_eq (exp : α → α) (x : t_ring64 α) (r : α) :
    perform_resonance exp x r
      = { x with p_resonance := resonance_value exp x.x_sr x.resonanceold r,
                 resonanceold := resonance_value exp x.x_sr x.resonanceold r } := by
  unfold perform_resonance resonance_value
  dsimp only
  split_ifs with h1 h2 h3
  · rfl
  · rfl
  · rfl
  · have h := not_not.mp h1
    rw [h]

theorem ring64_perform_brightness_eq (x : t_ring64 α) (b : α) :
    perform_brightness x b = { x with p_brightness := brightness_value x.brightnessold b,
                                      brightnessold := brightness_value x.brightnessold b } := by
  unfold perform_brightness brightness_value
  dsimp only
  split_ifs with h1 h2 h3
  · rfl
  · rfl
  · rfl
  · have h := not_not.mp h1
    rw [h]

/-- The instance with which the sample loop of `ring64_perform` starts: the retained
values are overwritten before the increments are taken, so all increments are `0`. -/
theorem ring64_perform_begin_eq (exp : α → α) (x : t_ring64 α) (c r b : α) (n : Nat) :
    perform_begin exp x c r b n = { x with
      T := 1 / x.x_sr,
      p_cutoff := cutoff_value x.x_sr x.cutoffold c,
      cutoffold := cutoff_value x.x_sr x.cutoffold c,
      p_resonance := resonance_value exp x.x_sr x.resonanceold r,
      resonanceold := resonance_value exp x.x_sr x.resonanceold r,
      p_brightness := brightness_value x.brightnessold b,
      brightnessold := brightness_value x.brightnessold b,
      cutoffincrement := 0,
      resonanceincrement := 0,
      brightnessincrement := 0 } := by
  simp [perform_begin, ring64_perform_cutoff_eq, ring64_perform_resonance_eq,
    ring64_perform_brightness_eq]

/-- Fields one sample of `ring64_perform` keeps, and the running controls. -/
theorem ring64_perform_sample_frame (tan : α → α) (o : α) (x : t_ring64 α) (a : α) :
    (perform_sample tan o x a).1.x_sr = x.x_sr ∧
    (perform_sample tan o x a).1.T = x.T ∧
    (perform_sample tan o x a).1.PI = x.PI ∧
    (perform_sample tan o x a).1.cutoffincrement = x.cutoffincrement ∧
    (perform_sample tan o x a).1.resonanceincrement = x.resonanceincrement ∧
    (perform_sample tan o x a).1.brightnessincrement = x.brightnessincrement ∧
    (perform_sample tan o x a).1.cutoffold = x.cutoffold ∧
    (perform_sample tan o x a).1.resonanceold = x.resonanceold ∧
    (perform_sample tan o x a).1.brightnessold = x.brightnessold ∧
    (perform_sample tan o x a).1.p_cutoff = x.p_cutoff + x.cutoffincrement ∧
    (perform_sample tan o x a).1.p_resonance = x.p_resonance + x.resonanceincrement ∧
    (perform_sample tan o x a).1.p_brightness = x.p_brightness + x.brightnessincrement ∧
    (perform_sample tan o x a).1.numberbands = x.numberbands ∧
    (perform_sample tan o x a).1.softclip = x.softclip ∧
    (perform_sample tan o x a).1.gain = x.gain ∧
    (perform_sample tan o x a).1.freqmult = x.freqmult ∧
    (perform_sample tan o x a).1.p_gainband = x.p_gainband := by
  have e : (gain_loop { x with p_input := a } BANDS) = pre_solve x a := rfl
  simp only [perform_sample, e, ring64_solve_loop_eq, ring64_mix_loop_eq, ring64_write_out_eq,
    ring64_pre_solve_eq]
  by_cases hs : x.softclip = 1
  · simp only [hs, if_true, and_self]
  · simp only [hs, if_false, and_self]

/-- Fields the sample loop of `ring64_perform` keeps, and the running controls. -/
theorem ring64_perform_loop_frame (tan : α → α) (o : α) (in1 : Nat → α) (x : t_ring64 α)
    (i : Nat) :
    (perform_loop tan o in1 x i).1.x_sr = x.x_sr ∧
    (perform_loop tan o in1 x i).1.T = x.T ∧
    (perform_loop tan o in1 x i).1.PI = x.PI ∧
    (perform_loop tan o in1 x i).1.cutoffincrement = x.cutoffincrement ∧
    (perform_loop tan o in1 x i).1.resonanceincrement = x.resonanceincrement ∧
    (perform_loop tan o in1 x i).1.brightnessincrement = x.brightnessincrement ∧
    (perform_loop tan o in1 x i).1.cutoffold = x.cutoffold ∧
    (perform_loop tan o in1 x i).1.resonanceold = x.resonanceold ∧
    (perform_loop tan o in1 x i).1.brightnessold = x.brightnessold ∧
    (perform_loop tan o in1 x i).1.p_cutoff = x.p_cutoff + i * x.cutoffincrement ∧
    (perform_loop tan o in1 x i).1.p_resonance = x.p_resonance + i * x.resonanceincrement ∧
    (perform_loop tan o in1 x i).1.p_brightness = x.p_brightness + i * x.brightnessincrement ∧
    (perform_loop tan o in1 x i).1.numberbands = x.numberbands ∧
    (perform_loop tan o in1 x i).1.softclip = x.softclip ∧
    (perform_loop tan o in1 x i).1.gain = x.gain ∧
    (perform_loop tan o in1 x i).1.freqmult = x.freqmult ∧
    (perform_loop tan o in1 x i).1.p_gainband = x.p_gainband := by
  induction i with
  | zero => simp [perform_loop]
  | succ i ih =>
    obtain ⟨h1, h2, h3, h4, h5, h6, h7, h8, h9, h10, h11, h12, h13, h14, h15, h16, h17⟩ := ih
    obtain ⟨k1, k2, k3, k4, k5, k6, k7, k8, k9, k10, k11, k12, k13, k14, k15, k16, k17⟩ :=
      ring64_perform_sample_frame tan o (perform_loop tan o in1 x i).1 (in1 i)
    simp only [perform_loop]
    rw [k1, k2, k3, k4, k5, k6, k7, k8, k9, k10, k11, k12, k13, k14, k15, k16, k17,
      h1, h2, h3, h4, h5, h6, h7, h8, h9, h10, h11, h12, h13, h14, h15, h16, h17]
    refine ⟨rfl, rfl, rfl, rfl, rfl, rfl, rfl, rfl, rfl, ?_, ?_, ?_, rfl, rfl, rfl, rfl, rfl⟩ <;>
      (push_cast; ring)

theorem ring64_perform_loop_length (tan : α → α) (o : α) (in1 : Nat → α) (x : t_ring64 α)
    (i : Nat) : (perform_loop tan o in1 x i).2.length = i := by
  induction i with
  | zero => rfl
  | succ i ih => simp [perform_loop, ih]

/-- Entry `i` of the output of the loop is what the body wrote for sample `i`. -/
theorem ring64_perform_loop_out (tan : α → α) (o : α) (in1 : Nat → α) (x : t_ring64 α)
    (n i : Nat) (h : i < n) :
    (perform_loop tan o in1 x n).2[i]?
      = some (perform_sample tan o (perform_loop tan o in1 x i).1 (in1 i)).2 := by
  induction n with
  | zero => omega
  | succ n ih =>
    simp only [perform_loop]
    by_cases hi : i < n
    · rw [List.getElem?_append_left (by rw [ring64_perform_loop_length]; exact hi)]
      exact ih hi
    · have : i = n := by omega
      subst this
      rw [List.getElem?_append_right (by rw [ring64_perform_loop_length])]
      simp [ring64_perform_loop_length]

end Ring64Block

/-! ### Bounds of the block controls -/

theorem cutoff_value_clipped (sr old c : α) (hsr : 0.0003 ≤ 0.48 * sr) (hne : c ≠ old) :
    0.0003 ≤ cutoff_value sr old c ∧ cutoff_value sr old c ≤ 0.48 * sr := by
  unfold cutoff_value
  rw [if_pos hne]
  split_ifs with h1 h2
  · constructor
    · linarith
    · linarith
  · exact ⟨le_refl _, hsr⟩
  · constructor
    · exact not_lt.mp h2
    · have := not_lt.mp h1
      linarith

theorem cutoff_value_range (sr old c : α) (hsr : 0.0003 ≤ 0.48 * sr)
    (h0 : 0 ≤ old) (h1 : old ≤ 0.48 * sr) :
    0 ≤ cutoff_value sr old c ∧ cutoff_value sr old c ≤ 0.48 * sr := by
  by_cases hne : c ≠ old
  · obtain ⟨a, b⟩ := cutoff_value_clipped sr old c hsr hne
    have : (0 : α) ≤ 0.0003 := by norm_num
    exact ⟨le_trans this a, b⟩
  · have h := not_not.mp hne
    unfold cutoff_value
    rw [if_neg hne, h]
    exact ⟨h0, h1⟩

theorem zdsv_resonance_value_range (old r : α) (h0 : 0.0005 ≤ old) (h1 : old ≤ 1) :
    0.0005 ≤ zdsv_resonance_value old r ∧ zdsv_resonance_value old r ≤ 1 := by
  unfold zdsv_resonance_value
  split_ifs with a b c
  · exact ⟨by norm_num, le_refl _⟩
  · exact ⟨le_refl _, by norm_num⟩
  · exact ⟨not_lt.mp c, not_lt.mp b⟩
  · have h := not_not.mp a
    rw [h]
    exact ⟨h0, h1⟩

theorem ring64_resonance_value_range (exp : α → α) (sr old r : α)
    (h0 : 0.00002 ≤ old) (h1 : old ≤ 1) :
    0.00002 ≤ ring64.resonance_value exp sr old r ∧ ring64.resonance_value exp sr old r ≤ 1 := by
  unfold ring64.resonance_value
  split_ifs with a b c
  · exact ⟨by norm_num, le_refl _⟩
  · exact ⟨le_refl _, by norm_num⟩
  · exact ⟨not_lt.mp c, not_lt.mp b⟩
  · have h := not_not.mp a
    rw [h]
    exact ⟨h0, h1⟩


/-! ### Zero state, reachable instances and their invariants -/

section ZdsvZero
open zdsv

/-- One sample of `zdsv_perform` with zero input on a zero state writes zeros and
leaves the state zero. -/
theorem zdsv_perform_sample_zero (tan : α → α) (y : t_zdsv α) (h1 : y.s1 = 0) (h2 : y.s2 = 0) :
    (perform_sample tan y 0).1.s1 = 0 ∧ (perform_sample tan y 0).1.s2 = 0 ∧
    (perform_sample tan y 0).2 = (0, 0, 0) := by
  simp [perform_sample, h1, h2]

theorem zdsv_perform_loop_zero (tan : α → α) (in1 : Nat → α) (x : t_zdsv α)
    (h1 : x.s1 = 0) (h2 : x.s2 = 0) (i : Nat) (hin : ∀ j, j < i → in1 j = 0) :
    (perform_loop tan in1 x i).1.s1 = 0 ∧ (perform_loop tan in1 x i).1.s2 = 0 ∧
    (perform_loop tan in1 x i).2 = List.replicate i (0, 0, 0) := by
  induction i with
  | zero => exact ⟨h1, h2, rfl⟩
  | succ i ih =>
    obtain ⟨a, b, c⟩ := ih (fun j hj => hin j (Nat.lt_succ_of_lt hj))
    have hz := hin i (Nat.lt_succ_self i)
    simp only [perform_loop, hz]
    obtain ⟨p, q, r⟩ := zdsv_perform_sample_zero tan (perform_loop tan in1 x i).1 a b
    refine ⟨p, q, ?_⟩
    rw [c, r, List.replicate_succ']

/-- What holds of every instance reachable at the fixed sample rate `sr`. -/
theorem zdsv_reachableAt_inv (tan atan : α → α) (sr : α) (hsr : 0.0003 ≤ 0.48 * sr)
    (x : t_zdsv α) (hx : ReachableAt tan atan sr x) :
    x.x_sr = sr ∧ x.PI = 4 * atan 1 ∧ 0 ≤ x.cutoffold ∧ x.cutoffold ≤ 0.48 * sr ∧
    0.0005 ≤ x.resonanceold ∧ x.resonanceold ≤ 1 := by
  have hpos : (0 : α) ≤ 0.48 * sr := le_trans (by norm_num) hsr
  induction hx with
  | construct =>
    refine ⟨rfl, rfl, ?_, ?_, ?_, ?_⟩
    · exact le_refl _
    · exact hpos
    · show (0.0005 : α) ≤ 1
      norm_num
    · exact le_refl _
  | dsp x _ ih =>
    obtain ⟨i1, i2, i3, i4, i5, i6⟩ := ih
    exact ⟨rfl, i2, i3, i4, i5, i6⟩
  | perform x in1 cutoffin resonancein n _ ih =>
    obtain ⟨i1, i2, i3, i4, i5, i6⟩ := ih
    obtain ⟨f1, -, f3, -, -, f6, f7, -⟩ := zdsv_perform_loop_frame tan in1
      (perform_begin x (cutoffin 0) (resonancein 0) n) n
    simp only [zdsv_perform]
    rw [f1, f3, f6, f7, zdsv_perform_begin_eq]
    simp only
    rw [i1]
    obtain ⟨c1, c2⟩ := cutoff_value_range sr x.cutoffold (cutoffin 0) hsr i3 i4
    obtain ⟨r1, r2⟩ := zdsv_resonance_value_range x.resonanceold (resonancein 0) i5 i6
    exact ⟨rfl, i2, c1, c2, r1, r2⟩

end ZdsvZero

section Ring64Reach

open ring64

omit [LinearOrderedField α] in
theorem ring64_freqs_entry_frame (x : t_ring64 α) (i : Nat) (a : t_atom α) :
    (freqs_entry x i a).resonanceold = x.resonanceold ∧
    (freqs_entry x i a).numberbands = x.numberbands ∧
    (freqs_entry x i a).PI = x.PI := by
  cases a <;> exact ⟨rfl, rfl, rfl⟩

theorem ring64_gains_entry_frame (x : t_ring64 α) (i : Nat) (a : t_atom α) :
    (gains_entry x i a).resonanceold = x.resonanceold ∧
    (gains_entry x i a).numberbands = x.numberbands ∧
    (gains_entry x i a).PI = x.PI := by
  cases a with
  | A_FLOAT f =>
    unfold gains_entry
    dsimp only
    split_ifs <;> exact ⟨rfl, rfl, rfl⟩
  | A_SYMBOL s => exact ⟨rfl, rfl, rfl⟩
  | A_POINTER => exact ⟨rfl, rfl, rfl⟩

omit [LinearOrderedField α] in
theorem ring64_freqs_frame (l : List (Nat × t_atom α)) (x : t_ring64 α) :
    (l.foldl (fun y ia => freqs_entry y ia.1 ia.2) x).resonanceold = x.resonanceold ∧
    (l.foldl (fun y ia => freqs_entry y ia.1 ia.2) x).numberbands = x.numberbands ∧
    (l.foldl (fun y ia => freqs_entry y ia.1 ia.2) x).PI = x.PI := by
  induction l generalizing x with
  | nil => exact ⟨rfl, rfl, rfl⟩
  | cons a l ih =>
    simp only [List.foldl_cons]
    obtain ⟨h1, h2, h3⟩ := ih (freqs_entry x a.1 a.2)
    obtain ⟨k1, k2, k3⟩ := ring64_freqs_entry_frame x a.1 a.2
    rw [h1, h2, h3, k1, k2, k3]
    exact ⟨rfl, rfl, rfl⟩

theorem ring64_gains_frame (l : List (Nat × t_atom α)) (x : t_ring64 α) :
    (l.foldl (fun y ia => gains_entry y ia.1 ia.2) x).resonanceold = x.resonanceold ∧
    (l.foldl (fun y ia => gains_entry y ia.1 ia.2) x).numberbands = x.numberbands ∧
    (l.foldl (fun y ia => gains_entry y ia.1 ia.2) x).PI = x.PI := by
  induction l generalizing x with
  | nil => exact ⟨rfl, rfl, rfl⟩
  | cons a l ih =>
    simp only [List.foldl_cons]
    obtain ⟨h1, h2, h3⟩ := ih (gains_entry x a.1 a.2)
    obtain ⟨k1, k2, k3⟩ := ring64_gains_entry_frame x a.1 a.2
    rw [h1, h2, h3, k1, k2, k3]
    exact ⟨rfl, rfl, rfl⟩

theorem c_trunc_range [FloorRing α] (b : α) (lo hi : Int) (h0 : 0 ≤ lo) (h1 : (lo : α) ≤ b)
    (h2 : b ≤ (hi : α)) : lo ≤ c_trunc b ∧ c_trunc b ≤ hi := by
  have hb : (0 : α) ≤ b := le_trans (by exact_mod_cast h0) h1
  unfold c_trunc
  rw [if_pos hb]
  constructor
  · exact Int.le_floor.mpr h1
  · have := Int.floor_le b
    have h3 : ((⌊b⌋ : Int) : α) ≤ (hi : α) := le_trans this h2
    exact_mod_cast h3

/-- What holds of every reachable instance of `ring64~`. -/
theorem ring64_reachable_inv [FloorRing α] (tan exp atan : α → α) (x : t_ring64 α)
    (hx : Reachable tan exp atan x) :
    0.00002 ≤ x.resonanceold ∧ x.resonanceold ≤ 1 ∧ 1 ≤ x.numberbands ∧ x.numberbands ≤ 64 ∧
    x.PI = 4 * atan 1 := by
  induction hx with
  | construct =>
    refine ⟨?_, ?_, ?_, ?_, rfl⟩
    · show (0.00002 : α) ≤ 1
      norm_num
    · exact le_refl _
    · show (1 : Int) ≤ 16
      norm_num
    · show (16 : Int) ≤ 64
      norm_num
  | dsp x sr _ _ ih => exact ih
  | freqs x argvec _ ih =>
    obtain ⟨h1, h2, h3⟩ := ring64_freqs_frame argvec.enum x
    unfold ring64_freqs
    rw [h1, h2, h3]
    exact ih
  | gains x argvec _ ih =>
    obtain ⟨h1, h2, h3⟩ := ring64_gains_frame argvec.enum x
    unfold ring64_gains
    rw [h1, h2, h3]
    exact ih
  | bands x b _ ih =>
    obtain ⟨i1, i2, i3, i4, i5⟩ := ih
    unfold ring64_bands
    split_ifs with a c
    · exact ⟨i1, i2, le_refl _, by norm_num, i5⟩
    · exact ⟨i1, i2, by norm_num, le_refl _, i5⟩
    · have hb := c_trunc_range b 1 64 (by norm_num) (by exact_mod_cast not_lt.mp a)
        (by exact_mod_cast not_lt.mp c)
      exact ⟨i1, i2, hb.1, hb.2, i5⟩
  | gain x g _ ih =>
    unfold ring64_gain
    split_ifs <;> exact ih
  | softclip x s _ ih => exact ih
  | perform x in1 cutoffin resonancein brightnessin n _ ih =>
    obtain ⟨i1, i2, i3, i4, i5⟩ := ih
    obtain ⟨-, -, f3, -, -, -, -, f8, -, -, -, -, f13, -⟩ := ring64_perform_loop_frame tan
      (1 / (x.numberbands : α)) in1
      (perform_begin exp x (cutoffin 0) (resonancein 0) (brightnessin 0) n) n
    simp only [ring64_perform]
    rw [f3, f8, f13, ring64_perform_begin_eq]
    simp only
    obtain ⟨r1, r2⟩ := ring64_resonance_value_range exp x.x_sr x.resonanceold (resonancein 0) i1 i2
    exact ⟨r1, r2, i3, i4, i5⟩

end Ring64Reach

/-- The prewarped gain of `zdsv~` is `tan(π·cutoff/sr)` on an instance set up by the
block prologue at a nonzero sample rate. -/
theorem zdsv_prewarp_real (y : zdsv.t_zdsv ℝ) (hPI : y.PI = Real.pi) (hT : y.T = 1 / y.x_sr)
    (hsr : y.x_sr ≠ 0) :
    zdsv.prewarp Real.tan y = Real.tan (Real.pi * y.p_cutoff / y.x_sr) := by
  simp only [zdsv.prewarp, hPI, hT, half_lit]
  rw [show 2 * Real.pi * y.p_cutoff * (1 / y.x_sr) * (1 / 2) = Real.pi * y.p_cutoff / y.x_sr by ring]
  field_simp
  ring

theorem zdsv_divisor_pos_of_range (y : zdsv.t_zdsv ℝ) (hPI : y.PI = Real.pi)
    (hT : y.T = 1 / y.x_sr) (hsr : 0 < y.x_sr) (hc0 : 0 ≤ y.p_cutoff)
    (hc1 : y.p_cutoff ≤ 0.48 * y.x_sr) (hr : 0 ≤ y.p_resonance) :
    0 < zdsv.divisor Real.tan y := by
  have hg : 0 ≤ zdsv.prewarp Real.tan y := by
    rw [zdsv_prewarp_real y hPI hT (ne_of_gt hsr)]
    apply Real.tan_nonneg_of_nonneg_of_le_pi_div_two
    · positivity
    · rw [div_le_iff₀ hsr]
      have hpi := Real.pi_pos
      nlinarith
  unfold zdsv.divisor
  nlinarith [mul_nonneg hr hg, mul_nonneg hg hg]

theorem real_PI : 4 * Real.arctan 1 = Real.pi := by
  rw [Real.arctan_one]; ring

section ClaimC2

open zdsv

/-- C2. Every sample `i` of a block of `zdsv_perform` (on an instance whose `PI`
is π, as the constructor sets it), with the running cutoff and resonance and the
state `(s1, s2)` the sample finds: `g = (2 sr tan(2π·cutoff·T/2))·T/2` with
`T = 1/sr`, `hp = (x − 2·resonance·s1 − g·s1 − s2)/(1 + 2·resonance·g + g²)`,
`bp = g·hp + s1`, `lp = g·bp + s2`; the samples written are `(lp, bp, hp)` and the
new state is `s1′ = g·hp + bp`, `s2′ = g·bp + lp`. -/
theorem C2_zdsv_sample (x : t_zdsv ℝ) (in1 cutoffin resonancein : ℕ → ℝ) (n i : ℕ)
    (hPI : x.PI = Real.pi) (hi : i < n) :
    let b := perform_begin x (cutoffin 0) (resonancein 0) n
    let y := (perform_loop Real.tan in1 b i).1
    let z := (perform_loop Real.tan in1 b (i + 1)).1
    let T := 1 / x.x_sr
    let g := (2 * x.x_sr * Real.tan (2 * Real.pi * y.p_cutoff * T / 2)) * T / 2
    let hp := (in1 i - 2 * y.p_resonance * y.s1 - g * y.s1 - y.s2)
                / (1 + 2 * y.p_resonance * g + g ^ 2)
    let bp := g * hp + y.s1
    let lp := g * bp + y.s2
    (zdsv_perform Real.tan x in1 cutoffin resonancein n).2[i]? = some (lp, bp, hp) ∧
    z.s1 = g * hp + bp ∧ z.s2 = g * bp + lp := by
  intro b y z T g hp bp lp
  have hb : b.x_sr = x.x_sr ∧ b.T = 1 / x.x_sr ∧ b.PI = x.PI := by
    simp only [b, zdsv_perform_begin_eq]; exact ⟨trivial, trivial, trivial⟩
  obtain ⟨f1, f2, f3, -⟩ := zdsv_perform_loop_frame Real.tan in1 b i
  have g1 : y.x_sr = x.x_sr := f1.trans hb.1
  have g2 : y.T = 1 / x.x_sr := f2.trans hb.2.1
  have g3 : y.PI = Real.pi := (f3.trans hb.2.2).trans hPI
  have hg : prewarp Real.tan { y with p_input := in1 i } = g := by
    simp only [prewarp, g1, g2, g3, half_lit]
    show _ = 2 * x.x_sr * Real.tan (2 * Real.pi * y.p_cutoff * (1 / x.x_sr) / 2) * (1 / x.x_sr) / 2
    rw [show 2 * Real.pi * y.p_cutoff * (1 / x.x_sr) * (1 / 2)
          = 2 * Real.pi * y.p_cutoff * (1 / x.x_sr) / 2 by ring]
    ring
  obtain ⟨s1, s2, s3⟩ := zdsv_perform_sample_eq Real.tan y (in1 i) g hg
  refine ⟨?_, s2, s3⟩
  simp only [zdsv_perform]
  rw [zdsv_perform_loop_out Real.tan in1 b n i hi]
  exact congrArg some s1

theorem C2_witness :
    ∃ out : ℝ × ℝ × ℝ,
      (zdsv_perform Real.tan (zdsv_dsp (zdsv_new Real.arctan) 44100)
        (fun _ => 1) (fun _ => 1000) (fun _ => 0) 1).2[0]? = some out :=
  ⟨_, (C2_zdsv_sample (zdsv_dsp (zdsv_new Real.arctan) 44100)
        (fun _ => 1) (fun _ => 1000) (fun _ => 0) 1 0 real_PI (by norm_num)).1⟩

end ClaimC2

/-! #### A change of the sample rate -/

/-- An instance after a change of the sample rate: a new `zdsv~` runs one block of
one zero sample at 96000 Hz with cutoff input 36000 and resonance input 0, then the
host announces 48000 Hz. -/
theorem zdsv_after_rate_change :
    (zdsv.zdsv_dsp (zdsv.zdsv_perform Real.tan (zdsv.zdsv_dsp (zdsv.zdsv_new Real.arctan) 96000)
      (fun _ => 0) (fun _ => 36000) (fun _ => 0) 1).1 48000).x_sr = 48000 ∧
    (zdsv.zdsv_dsp (zdsv.zdsv_perform Real.tan (zdsv.zdsv_dsp (zdsv.zdsv_new Real.arctan) 96000)
      (fun _ => 0) (fun _ => 36000) (fun _ => 0) 1).1 48000).PI = Real.pi ∧
    (zdsv.zdsv_dsp (zdsv.zdsv_perform Real.tan (zdsv.zdsv_dsp (zdsv.zdsv_new Real.arctan) 96000)
      (fun _ => 0) (fun _ => 36000) (fun _ => 0) 1).1 48000).cutoffold = 36000 ∧
    (zdsv.zdsv_dsp (zdsv.zdsv_perform Real.tan (zdsv.zdsv_dsp (zdsv.zdsv_new Real.arctan) 96000)
      (fun _ => 0) (fun _ => 36000) (fun _ => 0) 1).1 48000).resonanceold = 1 ∧
    (zdsv.zdsv_dsp (zdsv.zdsv_perform Real.tan (zdsv.zdsv_dsp (zdsv.zdsv_new Real.arctan) 96000)
      (fun _ => 0) (fun _ => 36000) (fun _ => 0) 1).1 48000).s1 = 0 ∧
    (zdsv.zdsv_dsp (zdsv.zdsv_perform Real.tan (zdsv.zdsv_dsp (zdsv.zdsv_new Real.arctan) 96000)
      (fun _ => 0) (fun _ => 36000) (fun _ => 0) 1).1 48000).s2 = 0 := by
  obtain ⟨-, -, f3, -, -, f6, f7, -⟩ := zdsv_perform_loop_frame Real.tan (fun _ => 0)
      (zdsv.perform_begin (zdsv.zdsv_dsp (zdsv.zdsv_new Real.arctan) (96000 : ℝ)) 36000 0 1) 1
  obtain ⟨z1, z2, -⟩ := zdsv_perform_loop_zero Real.tan (fun _ => (0 : ℝ))
      (zdsv.perform_begin (zdsv.zdsv_dsp (zdsv.zdsv_new Real.arctan) (96000 : ℝ)) 36000 0 1)
      (by rw [zdsv_perform_begin_eq]; rfl) (by rw [zdsv_perform_begin_eq]; rfl) 1 (fun _ _ => rfl)
  have c : cutoff_value (96000 : ℝ) 0 36000 = 36000 := by unfold cutoff_value; norm_num
  have r : zdsv_resonance_value (1 : ℝ) 0 = 1 := by unfold zdsv_resonance_value; norm_num
  have b3 : (zdsv.perform_begin (zdsv.zdsv_dsp (zdsv.zdsv_new Real.arctan) (96000 : ℝ))
      36000 0 1).PI = Real.pi := by
    rw [zdsv_perform_begin_eq]; exact real_PI
  have b6 : (zdsv.perform_begin (zdsv.zdsv_dsp (zdsv.zdsv_new Real.arctan) (96000 : ℝ))
      36000 0 1).cutoffold = 36000 := by
    rw [zdsv_perform_begin_eq]; exact c
  have b7 : (zdsv.perform_begin (zdsv.zdsv_dsp (zdsv.zdsv_new Real.arctan) (96000 : ℝ))
      36000 0 1).resonanceold = 1 := by
    rw [zdsv_perform_begin_eq]; exact r
  exact ⟨rfl, f3.trans b3, f6.trans b6, f7.trans b7, z1, z2⟩

/-! #### C3: the identity of the high-pass solve -/

/-- C5, at the failing input. A new `zdsv~` at 44100 Hz first runs a block of 4
samples with cutoff input 100, which leaves the running cutoff `a = 100`; the
next block of 4 samples has the target `b = 200`.  Its samples 0, 1, 2, 3 all
run with cutoff 200 (a ramp would use 100, 125, 150, 175), the increment
being 0, and the running cutoff after the block is 200. -/
theorem C5_ramp_is_flat :
    (zdsv.zdsv_perform Real.tan (zdsv.zdsv_dsp (zdsv.zdsv_new Real.arctan) 44100)
        (fun _ => 0) (fun _ => 100) (fun _ => 0) 4).1.p_cutoff = 100 ∧
    (zdsv.perform_begin
        (zdsv.zdsv_perform Real.tan (zdsv.zdsv_dsp (zdsv.zdsv_new Real.arctan) 44100)
          (fun _ => 0) (fun _ => 100) (fun _ => 0) 4).1 200 0 4).cutoffincrement = 0 ∧
    (zdsv.perform_loop Real.tan (fun _ => 0) (zdsv.perform_begin
        (zdsv.zdsv_perform Real.tan (zdsv.zdsv_dsp (zdsv.zdsv_new Real.arctan) 44100)
          (fun _ => 0) (fun _ => 100) (fun _ => 0) 4).1 200 0 4) 0).1.p_cutoff = 200 ∧
    (zdsv.perform_loop Real.tan (fun _ => 0) (zdsv.perform_begin
        (zdsv.zdsv_perform Real.tan (zdsv.zdsv_dsp (zdsv.zdsv_new Real.arctan) 44100)
          (fun _ => 0) (fun _ => 100) (fun _ => 0) 4).1 200 0 4) 1).1.p_cutoff = 200 ∧
    (zdsv.perform_loop Real.tan (fun _ => 0) (zdsv.perform_begin
        (zdsv.zdsv_perform Real.tan (zdsv.zdsv_dsp (zdsv.zdsv_new Real.arctan) 44100)
          (fun _ => 0) (fun _ => 100) (fun _ => 0) 4).1 200 0 4) 2).1.p_cutoff = 200 ∧
    (zdsv.perform_loop Real.tan (fun _ => 0) (zdsv.perform_begin
        (zdsv.zdsv_perform Real.tan (zdsv.zdsv_dsp (zdsv.zdsv_new Real.arctan) 44100)
          (fun _ => 0) (fun _ => 100) (fun _ => 0) 4).1 200 0 4) 3).1.p_cutoff = 200 ∧
    (zdsv.zdsv_perform Real.tan
        (zdsv.zdsv_perform Real.tan (zdsv.zdsv_dsp (zdsv.zdsv_new Real.arctan) 44100)
          (fun _ => 0) (fun _ => 100) (fun _ => 0) 4).1
        (fun _ => 0) (fun _ => 200) (fun _ => 0) 4).1.p_cutoff = 200 := by
  have key : ∀ (x : zdsv.t_zdsv ℝ) (c : ℝ) (i : ℕ),
      (zdsv.perform_loop Real.tan (fun _ => 0) (zdsv.perform_begin x c 0 4) i).1.p_cutoff
        = cutoff_value x.x_sr x.cutoffold c := by
    intro x c i
    obtain ⟨-, -, -, -, -, -, -, h8, -⟩ := zdsv_perform_loop_frame Real.tan (fun _ => 0)
      (zdsv.perform_begin x c 0 4) i
    rw [h8, zdsv_perform_begin_eq]
    simp
  have old : ∀ (x : zdsv.t_zdsv ℝ) (c : ℝ) (i : ℕ),
      (zdsv.perform_loop Real.tan (fun _ => 0) (zdsv.perform_begin x c 0 4) i).1.cutoffold
        = cutoff_value x.x_sr x.cutoffold c ∧
      (zdsv.perform_loop Real.tan (fun _ => 0) (zdsv.perform_begin x c 0 4) i).1.x_sr = x.x_sr := by
    intro x c i
    obtain ⟨h1, -, -, -, -, h6, -⟩ := zdsv_perform_loop_frame Real.tan (fun _ => 0)
      (zdsv.perform_begin x c 0 4) i
    rw [h6, h1, zdsv_perform_begin_eq]
    exact ⟨rfl, rfl⟩
  have a : cutoff_value (44100 : ℝ) 0 100 = 100 := by
    unfold cutoff_value; norm_num
  have b : cutoff_value (44100 : ℝ) 100 200 = 200 := by
    unfold cutoff_value; norm_num
  have e1 : (zdsv.zdsv_dsp (zdsv.zdsv_new Real.arctan) (44100 : ℝ)).x_sr = 44100 := rfl
  have e2 : (zdsv.zdsv_dsp (zdsv.zdsv_new Real.arctan) (44100 : ℝ)).cutoffold = 0 := rfl
  have A1 := key (zdsv.zdsv_dsp (zdsv.zdsv_new Real.arctan) (44100 : ℝ)) 100 4
  have A2 := old (zdsv.zdsv_dsp (zdsv.zdsv_new Real.arctan) (44100 : ℝ)) 100 4
  rw [e1, e2, a] at A1 A2
  obtain ⟨A2, A3⟩ := A2
  have B : ∀ i, (zdsv.perform_loop Real.tan (fun _ => 0) (zdsv.perform_begin
        (zdsv.perform_loop Real.tan (fun _ => 0) (zdsv.perform_begin
          (zdsv.zdsv_dsp (zdsv.zdsv_new Real.arctan) 44100) 100 0 4) 4).1 200 0 4) i).1.p_cutoff
        = 200 := by
    intro i
    rw [key, A2, A3, b]
  refine ⟨A1, ?_, B 0, B 1, B 2, B 3, B 4⟩
  rw [zdsv_perform_begin_eq]

/-! #### C6 and C7: muted bands -/

section MutedBand

open ring64

/-- The initialisation loop of the constructor in closed form. -/
theorem ring64_new_loop_eq (x : t_ring64 α) (M : Nat) :
    new_loop x M = { x with
      s1 := fun k => if k < M then 0 else x.s1 k,
      s2 := fun k => if k < M then 0 else x.s2 k,
      freqmult := fun k => if k < M then 1 else x.freqmult k,
      gainband := fun k => if k < M then 1 else x.gainband k } := by
  induction M with
  | zero => simp [new_loop]
  | succ M ih =>
    simp only [new_loop, ih]
    congr 1
    all_goals
      funext k
      by_cases hk : k = M
      · subst hk
        simp
      · have : k < M + 1 ↔ k < M := by omega
        simp [Function.update_noteq hk, this]

end MutedBand

section CutoffRange

/-- From a retained value that is `0` or in `[0.0003, 0.48·sr]` the cutoff of a
block is again `0` or in that range, and in that range when the input is not `0`. -/
theorem cutoff_value_zero_or_range (sr old c : α) (hsr : 0.0003 ≤ 0.48 * sr)
    (hold : old = 0 ∨ (0.0003 ≤ old ∧ old ≤ 0.48 * sr)) :
    (cutoff_value sr old c = 0 ∨
      (0.0003 ≤ cutoff_value sr old c ∧ cutoff_value sr old c ≤ 0.48 * sr)) ∧
    (c ≠ 0 → 0.0003 ≤ cutoff_value sr old c ∧ cutoff_value sr old c ≤ 0.48 * sr) := by
  by_cases hne : c ≠ old
  · have h := cutoff_value_clipped sr old c hsr hne
    exact ⟨Or.inr h, fun _ => h⟩
  · have h := not_not.mp hne
    have e : cutoff_value sr old c = old := by
      unfold cutoff_value
      rw [if_neg hne, h]
    rw [e]
    refine ⟨hold, ?_⟩
    intro hc
    rcases hold with h0 | hr
    · exact absurd (h.trans h0) hc
    · exact hr

/-- The cutoff with which sample `i` of a block of `zdsv~` is solved is the clipped
first cutoff sample of the block, and it is retained. -/
theorem zdsv_sample_cutoff (tan : α → α) (x : zdsv.t_zdsv α)
    (in1 : Nat → α) (c r : α) (n i : Nat) :
    (zdsv.perform_loop tan in1 (zdsv.perform_begin x c r n) i).1.p_cutoff
      = cutoff_value x.x_sr x.cutoffold c ∧
    (zdsv.perform_loop tan in1 (zdsv.perform_begin x c r n) i).1.cutoffold
      = cutoff_value x.x_sr x.cutoffold c ∧
    (zdsv.perform_loop tan in1 (zdsv.perform_begin x c r n) i).1.x_sr = x.x_sr := by
  obtain ⟨f1, -, -, -, -, f6, -, f8, -⟩ := zdsv_perform_loop_frame tan in1
    (zdsv.perform_begin x c r n) i
  have b1 : (zdsv.perform_begin x c r n).x_sr = x.x_sr := by rw [zdsv_perform_begin_eq]
  have b4 : (zdsv.perform_begin x c r n).cutoffincrement = 0 := by rw [zdsv_perform_begin_eq]
  have b6 : (zdsv.perform_begin x c r n).p_cutoff = cutoff_value x.x_sr x.cutoffold c := by
    rw [zdsv_perform_begin_eq]
  have b7 : (zdsv.perform_begin x c r n).cutoffold = cutoff_value x.x_sr x.cutoffold c := by
    rw [zdsv_perform_begin_eq]
  rw [b4, b6, mul_zero, add_zero] at f8
  exact ⟨f8, f6.trans b7, f1.trans b1⟩

/-- The cutoff with which sample `i` of a block of `ring64~` is solved is the
clipped first cutoff sample of the block, and it is retained. -/
theorem ring64_sample_cutoff (tan exp : α → α) (x : ring64.t_ring64 α)
    (in1 : Nat → α) (c r b : α) (n i : Nat) :
    (ring64.perform_loop tan (1 / (x.numberbands : α)) in1
        (ring64.perform_begin exp x c r b n) i).1.p_cutoff
      = cutoff_value x.x_sr x.cutoffold c ∧
    (ring64.perform_loop tan (1 / (x.numberbands : α)) in1
        (ring64.perform_begin exp x c r b n) i).1.cutoffold
      = cutoff_value x.x_sr x.cutoffold c ∧
    (ring64.perform_loop tan (1 / (x.numberbands : α)) in1
        (ring64.perform_begin exp x c r b n) i).1.x_sr = x.x_sr := by
  obtain ⟨f1, -, -, -, -, -, f7, -, -, f10, -⟩ := ring64_perform_loop_frame tan
    (1 / (x.numberbands : α)) in1 (ring64.perform_begin exp x c r b n) i
  have b1 : (ring64.perform_begin exp x c r b n).x_sr = x.x_sr := by
    rw [ring64_perform_begin_eq]
  have b4 : (ring64.perform_begin exp x c r b n).cutoffincrement = 0 := by
    rw [ring64_perform_begin_eq]
  have b6 : (ring64.perform_begin exp x c r b n).p_cutoff
      = cutoff_value x.x_sr x.cutoffold c := by
    rw [ring64_perform_begin_eq]
  have b7 : (ring64.perform_begin exp x c r b n).cutoffold
      = cutoff_value x.x_sr x.cutoffold c := by
    rw [ring64_perform_begin_eq]
  rw [b4, b6, mul_zero, add_zero] at f10
  exact ⟨f10, f7.trans b7, f1.trans b1⟩

/-- At one sample rate the cutoff retained by `zdsv~` is `0` or in
`[0.0003, 0.48·sr]`. -/
theorem zdsv_reachableAt_cutoff (tan atan : α → α) (sr : α) (hsr : 0.0003 ≤ 0.48 * sr)
    (x : zdsv.t_zdsv α) (hx : zdsv.ReachableAt tan atan sr x) :
    x.x_sr = sr ∧ (x.cutoffold = 0 ∨ (0.0003 ≤ x.cutoffold ∧ x.cutoffold ≤ 0.48 * sr)) := by
  induction hx with
  | construct => exact ⟨rfl, Or.inl rfl⟩
  | dsp x _ ih => exact ⟨rfl, ih.2⟩
  | perform x in1 cutoffin resonancein n _ ih =>
    obtain ⟨i1, i2⟩ := ih
    obtain ⟨-, c2, c3⟩ := zdsv_sample_cutoff tan x in1 (cutoffin 0) (resonancein 0) n n
    simp only [zdsv.zdsv_perform]
    rw [c2, c3, i1]
    exact ⟨rfl, (cutoff_value_zero_or_range sr x.cutoffold (cutoffin 0) hsr i2).1⟩

omit [LinearOrderedField α] in
/-- The message `freqs` leaves the sample rate and the retained cutoff as they were. -/
theorem ring64_freqs_rate_frame (l : List (Nat × ring64.t_atom α)) (x : ring64.t_ring64 α) :
    (l.foldl (fun y ia => ring64.freqs_entry y ia.1 ia.2) x).x_sr = x.x_sr ∧
    (l.foldl (fun y ia => ring64.freqs_entry y ia.1 ia.2) x).cutoffold = x.cutoffold := by
  induction l generalizing x with
  | nil => exact ⟨rfl, rfl⟩
  | cons a l ih =>
    simp only [List.foldl_cons]
    obtain ⟨h1, h2⟩ := ih (ring64.freqs_entry x a.1 a.2)
    rw [h1, h2]
    cases a.2 <;> exact ⟨rfl, rfl⟩

/-- The message `gains` leaves the sample rate and the retained cutoff as they were. -/
theorem ring64_gains_rate_frame (l : List (Nat × ring64.t_atom α)) (x : ring64.t_ring64 α) :
    (l.foldl (fun y ia => ring64.gains_entry y ia.1 ia.2) x).x_sr = x.x_sr ∧
    (l.foldl (fun y ia => ring64.gains_entry y ia.1 ia.2) x).cutoffold = x.cutoffold := by
  induction l generalizing x with
  | nil => exact ⟨rfl, rfl⟩
  | cons a l ih =>
    simp only [List.foldl_cons]
    obtain ⟨h1, h2⟩ := ih (ring64.gains_entry x a.1 a.2)
    rw [h1, h2]
    cases a.2 with
    | A_FLOAT f =>
      unfold ring64.gains_entry
      dsimp only
      split_ifs <;> exact ⟨rfl, rfl⟩
    | A_SYMBOL s => exact ⟨rfl, rfl⟩
    | A_POINTER => exact ⟨rfl, rfl⟩

/-- At one sample rate the cutoff retained by `ring64~` is `0` or in
`[0.0003, 0.48·sr]`. -/
theorem ring64_reachableAt_cutoff [FloorRing α] (tan exp atan : α → α) (sr : α)
    (hsr : 0.0003 ≤ 0.48 * sr) (x : ring64.t_ring64 α)
    (hx : ring64.ReachableAt tan exp atan sr x) :
    x.x_sr = sr ∧ (x.cutoffold = 0 ∨ (0.0003 ≤ x.cutoffold ∧ x.cutoffold ≤ 0.48 * sr)) := by
  induction hx with
  | construct => exact ⟨rfl, Or.inl rfl⟩
  | dsp x _ ih => exact ⟨rfl, ih.2⟩
  | freqs x argvec _ ih =>
    obtain ⟨h1, h2⟩ := ring64_freqs_rate_frame argvec.enum x
    unfold ring64.ring64_freqs
    rw [h1, h2]
    exact ih
  | gains x argvec _ ih =>
    obtain ⟨h1, h2⟩ := ring64_gains_rate_frame argvec.enum x
    unfold ring64.ring64_gains
    rw [h1, h2]
    exact ih
  | bands x b _ ih =>
    unfold ring64.ring64_bands
    split_ifs <;> exact ih
  | gain x g _ ih =>
    unfold ring64.ring64_gain
    split_ifs <;> exact ih
  | softclip x s _ ih => exact ih
  | perform x in1 cutoffin resonancein brightnessin n _ ih =>
    obtain ⟨i1, i2⟩ := ih
    obtain ⟨-, c2, c3⟩ := ring64_sample_cutoff tan exp x in1 (cutoffin 0) (resonancein 0)
      (brightnessin 0) n n
    simp only [ring64.ring64_perform]
    rw [c2, c3, i1]
    exact ⟨rfl, (cutoff_value_zero_or_range sr x.cutoffold (cutoffin 0) hsr i2).1⟩

end CutoffRange

/-- C8 (amended). For `zdsv~` and `ring64~`, on every instance that has run at one
sample rate `sr` with `0.0003 ≤ 0.48·sr` since its construction, the base cutoff
used for every sample of every block is `0` or lies in `[0.0003, 0.48·sr]`, and it
lies in `[0.0003, 0.48·sr]` whenever the cutoff input of the block is not `0`. -/
theorem C8_cutoff_in_range_at_one_rate [FloorRing α] (tan exp atan : α → α) (sr : α)
    (hsr : 0.0003 ≤ 0.48 * sr) :
    (∀ (x : zdsv.t_zdsv α) (in1 cutoffin resonancein : Nat → α) (n i : Nat),
      zdsv.ReachableAt tan atan sr x → i < n →
      ((zdsv.perform_loop tan in1
            (zdsv.perform_begin x (cutoffin 0) (resonancein 0) n) i).1.p_cutoff = 0 ∨
        (0.0003 ≤ (zdsv.perform_loop tan in1
            (zdsv.perform_begin x (cutoffin 0) (resonancein 0) n) i).1.p_cutoff ∧
          (zdsv.perform_loop tan in1
            (zdsv.perform_begin x (cutoffin 0) (resonancein 0) n) i).1.p_cutoff ≤ 0.48 * sr)) ∧
      (cutoffin 0 ≠ 0 →
        0.0003 ≤ (zdsv.perform_loop tan in1
            (zdsv.perform_begin x (cutoffin 0) (resonancein 0) n) i).1.p_cutoff ∧
        (zdsv.perform_loop tan in1
            (zdsv.perform_begin x (cutoffin 0) (resonancein 0) n) i).1.p_cutoff ≤ 0.48 * sr)) ∧
    (∀ (x : ring64.t_ring64 α) (in1 cutoffin resonancein brightnessin : Nat → α) (n i : Nat),
      ring64.ReachableAt tan exp atan sr x → i < n →
      ((ring64.sample_start tan exp x in1 cutoffin resonancein brightnessin n i).p_cutoff = 0 ∨
        (0.0003 ≤ (ring64.sample_start tan exp x in1 cutoffin resonancein brightnessin
            n i).p_cutoff ∧
          (ring64.sample_start tan exp x in1 cutoffin resonancein brightnessin n i).p_cutoff
            ≤ 0.48 * sr)) ∧
      (cutoffin 0 ≠ 0 →
        0.0003 ≤ (ring64.sample_start tan exp x in1 cutoffin resonancein brightnessin
            n i).p_cutoff ∧
        (ring64.sample_start tan exp x in1 cutoffin resonancein brightnessin n i).p_cutoff
          ≤ 0.48 * sr)) := by
  constructor
  · intro x in1 cutoffin resonancein n i hx _
    obtain ⟨i1, i2⟩ := zdsv_reachableAt_cutoff tan atan sr hsr x hx
    obtain ⟨c1, -, -⟩ := zdsv_sample_cutoff tan x in1 (cutoffin 0) (resonancein 0) n i
    rw [c1, i1]
    exact cutoff_value_zero_or_range sr x.cutoffold (cutoffin 0) hsr i2
  · intro x in1 cutoffin resonancein brightnessin n i hx _
    obtain ⟨i1, i2⟩ := ring64_reachableAt_cutoff tan exp atan sr hsr x hx
    obtain ⟨c1, -, -⟩ := ring64_sample_cutoff tan exp x in1 (cutoffin 0) (resonancein 0)
      (brightnessin 0) n i
    unfold ring64.sample_start
    rw [c1, i1]
    exact cutoff_value_zero_or_range sr x.cutoffold (cutoffin 0) hsr i2

/-- C8, witness: the second block of a `zdsv~` at 44100 Hz, with the same cutoff
input 1000 as the first: its cutoff is in range though not clipped again. -/
theorem C8_witness :
    0.0003 ≤ (zdsv.perform_loop Real.tan (fun _ => 0)
        (zdsv.perform_begin
          (zdsv.zdsv_perform Real.tan (zdsv.zdsv_dsp (zdsv.zdsv_new Real.arctan) 44100)
            (fun _ => 0) (fun _ => 1000) (fun _ => 0) 4).1
          1000 0 4) 2).1.p_cutoff ∧
    (zdsv.perform_loop Real.tan (fun _ => 0)
        (zdsv.perform_begin
          (zdsv.zdsv_perform Real.tan (zdsv.zdsv_dsp (zdsv.zdsv_new Real.arctan) 44100)
            (fun _ => 0) (fun _ => 1000) (fun _ => 0) 4).1
          1000 0 4) 2).1.p_cutoff ≤ 0.48 * 44100 :=
  ((C8_cutoff_in_range_at_one_rate Real.tan Real.exp Real.arctan (44100 : ℝ)
      (by norm_num)).1
    (zdsv.zdsv_perform Real.tan (zdsv.zdsv_dsp (zdsv.zdsv_new Real.arctan) 44100)
      (fun _ => 0) (fun _ => 1000) (fun _ => 0) 4).1
    (fun _ => 0) (fun _ => 1000) (fun _ => 0) 4 2
    (zdsv.ReachableAt.perform _ _ _ _ 4 zdsv.ReachableAt.construct) (by norm_num)).2
    (by norm_num)

/-- C8, counterexample.  The first block of a new `zdsv~` at 44100 Hz with cutoff
input 0 runs its first sample with cutoff 0, below 0.0003.  At the sample rate
0.0004 a cutoff input 1 is clipped to 0.000192, below 0.0003.  And after a block at
96000 Hz with cutoff input 36000, a block at 48000 Hz with the same cutoff input
runs with cutoff 36000, above `0.48 · 48000`. -/
theorem C8_counterexample :
    ¬ (0.0003 ≤ (zdsv.perform_loop Real.tan (fun _ => 0)
        (zdsv.perform_begin (zdsv.zdsv_dsp (zdsv.zdsv_new Real.arctan) 44100) 0 0 1) 0).1.p_cutoff) ∧
    ¬ (0.0003 ≤ (zdsv.perform_loop Real.tan (fun _ => 0)
        (zdsv.perform_begin (zdsv.zdsv_dsp (zdsv.zdsv_new Real.arctan) 0.0004) 1 0 1) 0).1.p_cutoff) ∧
    ¬ ((zdsv.perform_loop Real.tan (fun _ => 0)
        (zdsv.perform_begin
          (zdsv.zdsv_dsp (zdsv.zdsv_perform Real.tan
            (zdsv.zdsv_dsp (zdsv.zdsv_new Real.arctan) 96000)
            (fun _ => 0) (fun _ => 36000) (fun _ => 0) 1).1 48000)
          36000 0 1) 0).1.p_cutoff ≤ 0.48 * 48000) := by
  refine ⟨?_, ?_, ?_⟩
  · simp only [zdsv.perform_loop, zdsv_perform_begin_eq, zdsv.zdsv_dsp, zdsv.zdsv_new, cutoff_value]
    norm_num
  · simp only [zdsv.perform_loop, zdsv_perform_begin_eq, zdsv.zdsv_dsp, zdsv.zdsv_new, cutoff_value]
    norm_num
  · obtain ⟨h1, -, h3, -, -, -⟩ := zdsv_after_rate_change
    obtain ⟨c1, -, -⟩ := zdsv_sample_cutoff Real.tan
      (zdsv.zdsv_dsp (zdsv.zdsv_perform Real.tan
        (zdsv.zdsv_dsp (zdsv.zdsv_new Real.arctan) 96000)
        (fun _ => 0) (fun _ => 36000) (fun _ => 0) 1).1 48000) (fun _ => 0) 36000 0 1 0
    rw [c1, h1, h3]
    unfold cutoff_value
    norm_num

/-! #### C9: zero input on a zero state -/

section FumioZero
open fumio

end FumioZero

section OtaZero
open ota

end OtaZero

section Ring64Zero

open ring64

theorem ring64_clip_value_zero : clip_value (0 : α) = 0 := by
  unfold clip_value
  norm_num

end Ring64Zero

section LowPass

open fumio

/-- One Runge–Kutta step of `fumio~` in low-pass mode with resonance 0 is linear. -/
theorem fumio_lowpass_step (x : t_fumio ℝ) (s : Fin 2 → ℝ) (h : ℝ)
    (hm : x.x_mode = 1) (hr : x.p_resonance = 0) :
    solver_rungekutta Real.tanh s h x
      = some ![x.p_input + fumio_P (2 * 3.14159 * x.p_cutoff * h) * (s 0 - x.p_input),
               x.p_input + fumio_P (2 * 3.14159 * x.p_cutoff * h) * (s 1 - x.p_input)
                 + fumio_Q (2 * 3.14159 * x.p_cutoff * h) * (s 0 - x.p_input)] := by
  simp only [solver_rungekutta, calc_derivatives, hm, hr, if_true, zero_mul, Real.tanh_zero,
    Option.bind_eq_bind, Option.some_bind, Option.pure_def, sub_zero, add_zero, half_lit,
    Matrix.cons_val_zero, Matrix.cons_val_one, Matrix.head_cons]
  congr 1
  funext i
  fin_cases i
  · simp only [fumio_P, Fin.zero_eta, Matrix.cons_val_zero]
    ring
  · simp only [fumio_P, fumio_Q, Fin.mk_one, Matrix.cons_val_one, Matrix.head_cons]
    ring

theorem fumio_P_nonneg (a : ℝ) : 0 ≤ fumio_P a := by
  unfold fumio_P
  nlinarith [sq_nonneg (1 - a / 2), sq_nonneg (a * (a - 2)), sq_nonneg a]

theorem fumio_Q_nonneg (a : ℝ) (h0 : 0 ≤ a) (h1 : a ≤ 1.570795) : 0 ≤ fumio_Q a := by
  have hc : 0 ≤ 1 - a + a ^ 2 / 2 - a ^ 3 / 6 := by
    have hb : (0 : ℝ) ≤ 1.570795 - a := by linarith
    have hf : 0 ≤ 6 - 3 * a - 3 * 1.570795 + a ^ 2 + a * 1.570795 + (1.570795 : ℝ) ^ 2 := by
      nlinarith [sq_nonneg (a + 1.570795 / 2 - 3 / 2)]
    nlinarith [mul_nonneg hb hf]
  have : fumio_Q a = a * (1 - a + a ^ 2 / 2 - a ^ 3 / 6) := by
    unfold fumio_Q; ring
  rw [this]
  exact mul_nonneg h0 hc

theorem fumio_P_add_Q_le_one (a : ℝ) : fumio_P a + fumio_Q a ≤ 1 := by
  unfold fumio_P fumio_Q
  nlinarith [sq_nonneg a, sq_nonneg (a * (a - 4 / 3)), sq_nonneg (a * a)]

/-- One linear step keeps `s1 ≤ s0 ≤ u` and does not lower `s1`. -/
theorem fumio_linear_step_order (P Q u s0 s1 : ℝ) (hP : 0 ≤ P) (hQ : 0 ≤ Q) (hPQ : P + Q ≤ 1)
    (h10 : s1 ≤ s0) (h0 : s0 ≤ u) :
    u + P * (s1 - u) + Q * (s0 - u) ≤ u + P * (s0 - u) ∧
    u + P * (s0 - u) ≤ u ∧
    s1 ≤ u + P * (s1 - u) + Q * (s0 - u) := by
  refine ⟨?_, ?_, ?_⟩
  · nlinarith [mul_nonneg hP (sub_nonneg.mpr h10), mul_nonneg hQ (sub_nonneg.mpr h0)]
  · nlinarith [mul_nonneg hP (sub_nonneg.mpr h0)]
  · have h1u : s1 ≤ u := le_trans h10 h0
    nlinarith [mul_nonneg hQ (sub_nonneg.mpr h10), mul_nonneg (sub_nonneg.mpr hPQ)
      (sub_nonneg.mpr h1u)]

/-- The oversampling loop of `fumio~` in low-pass mode with resonance 0 and input 1,
for a step with `0 ≤ k·h ≤ 1.570795`: the state stays ordered `s1 ≤ s0 ≤ 1` and `s1`
does not decrease. -/
theorem fumio_lowpass_oversample (x : t_fumio ℝ) (h : ℝ) (hm : x.x_mode = 1)
    (hr : x.p_resonance = 0) (hu : x.p_input = 1)
    (ha0 : 0 ≤ 2 * 3.14159 * x.p_cutoff * h) (ha1 : 2 * 3.14159 * x.p_cutoff * h ≤ 1.570795)
    (h10 : x.x_state 1 ≤ x.x_state 0) (h0 : x.x_state 0 ≤ 1) (j : ℕ) :
    ∃ y, oversample_loop Real.tanh h x j = some y ∧ y.x_mode = 1 ∧
      y.x_oversample = x.x_oversample ∧ y.p_input = 1 ∧ y.p_resonance = 0 ∧
      y.p_cutoff = x.p_cutoff ∧ y.x_state 1 ≤ y.x_state 0 ∧ y.x_state 0 ≤ 1 ∧
      x.x_state 1 ≤ y.x_state 1 := by
  induction j with
  | zero => exact ⟨x, rfl, hm, rfl, hu, hr, rfl, h10, h0, le_refl _⟩
  | succ j ih =>
    obtain ⟨y, e, ym, yo, yu, yr, yc, y10, y0, yx⟩ := ih
    have hs := fumio_lowpass_step y y.x_state h ym yr
    rw [yu, yc] at hs
    obtain ⟨o1, o2, o3⟩ := fumio_linear_step_order
      (fumio_P (2 * 3.14159 * x.p_cutoff * h)) (fumio_Q (2 * 3.14159 * x.p_cutoff * h)) 1
      (y.x_state 0) (y.x_state 1) (fumio_P_nonneg _) (fumio_Q_nonneg _ ha0 ha1)
      (fumio_P_add_Q_le_one _) y10 y0
    refine ⟨{ y with x_state :=
        ![1 + fumio_P (2 * 3.14159 * x.p_cutoff * h) * (y.x_state 0 - 1),
          1 + fumio_P (2 * 3.14159 * x.p_cutoff * h) * (y.x_state 1 - 1)
            + fumio_Q (2 * 3.14159 * x.p_cutoff * h) * (y.x_state 0 - 1)] },
      ?_, ym, yo, yu, yr, yc, ?_, ?_, ?_⟩
    · simp only [oversample_loop, e, Option.bind_eq_bind, Option.some_bind, hs, Option.pure_def]
    · simpa using o1
    · simpa using o2
    · simpa using le_trans yx o3

/-- One audio sample of `fumio~` in low-pass mode with input 1 and resonance input 0. -/
theorem fumio_lowpass_sample (x : t_fumio ℝ) (h c : ℝ) (hm : x.x_mode = 1)
    (ha0 : 0 ≤ 2 * 3.14159 * c * h) (ha1 : 2 * 3.14159 * c * h ≤ 1.570795)
    (h10 : x.x_state 1 ≤ x.x_state 0) (h0 : x.x_state 0 ≤ 1) :
    ∃ y, perform_sample Real.tanh h x 1 c 0 = some (y, [y.x_state 1]) ∧ y.x_mode = 1 ∧
      y.x_oversample = x.x_oversample ∧ y.x_state 1 ≤ y.x_state 0 ∧ y.x_state 0 ≤ 1 ∧
      x.x_state 1 ≤ y.x_state 1 := by
  obtain ⟨y, e, ym, yo, -, -, -, y10, y0, yx⟩ := fumio_lowpass_oversample
    { x with p_input := 1, p_cutoff := c, p_resonance := if (0 : ℝ) < 0 then 0 else 0 } h hm
    (by simp) rfl ha0 ha1 h10 h0 x.x_oversample.toNat
  refine ⟨y, ?_, ym, yo, y10, y0, yx⟩
  simp only [perform_sample, Option.bind_eq_bind]
  rw [e]
  simp [ym]

/-- The sample loop of `fumio~` in low-pass mode with input 1 and resonance input 0:
the outputs are non-decreasing and at most the current `s1`, which is at most 1. -/
theorem fumio_lowpass_loop (x : t_fumio ℝ) (h c : ℝ) (hm : x.x_mode = 1)
    (ha0 : 0 ≤ 2 * 3.14159 * c * h) (ha1 : 2 * 3.14159 * c * h ≤ 1.570795)
    (h10 : x.x_state 1 ≤ x.x_state 0) (h0 : x.x_state 0 ≤ 1) (n : ℕ) :
    ∃ y out, perform_loop Real.tanh h (fun _ => 1) (fun _ => c) (fun _ => 0) x n = some (y, out) ∧
      y.x_mode = 1 ∧ y.x_state 1 ≤ y.x_state 0 ∧ y.x_state 0 ≤ 1 ∧
      out.length = n ∧ out.Pairwise (· ≤ ·) ∧ (∀ v ∈ out, v ≤ y.x_state 1) := by
  induction n with
  | zero => exact ⟨x, [], rfl, hm, h10, h0, rfl, List.Pairwise.nil, by simp⟩
  | succ n ih =>
    obtain ⟨y, out, e, ym, y10, y0, hl, hp, hb⟩ := ih
    obtain ⟨z, e2, zm, -, z10, z0, zx⟩ := fumio_lowpass_sample y h c ym ha0 ha1 y10 y0
    refine ⟨z, out ++ [z.x_state 1], ?_, zm, z10, z0, ?_, ?_, ?_⟩
    · simp only [perform_loop, e, Option.bind_eq_bind, Option.some_bind, e2, Option.pure_def]
    · simp [hl]
    · rw [List.pairwise_append]
      refine ⟨hp, List.pairwise_singleton _ _, ?_⟩
      intro a ha b hb2
      rw [List.mem_singleton] at hb2
      rw [hb2]
      exact le_trans (hb a ha) zx
    · intro v hv
      rw [List.mem_append, List.mem_singleton] at hv
      rcases hv with hv | hv
      · exact le_trans (hb v hv) zx
      · rw [hv]

/-- C10 (amended). `fumio~` in low-pass mode from the zero state with resonance
input 0, constant input 1, sample rate 44100, oversample factor 2 and a constant
cutoff between 0 and 22050 Hz: the block produces one output per sample, the output
sequence is non-decreasing and no output exceeds 1. -/
theorem C10_step_response (x : fumio.t_fumio ℝ) (c : ℝ) (n : ℕ)
    (hm : x.x_mode = 1) (ho : x.x_oversample = 2) (hsr : x.x_sr = 44100)
    (hs : x.x_state = fun _ => 0) (hc0 : 0 ≤ c) (hc1 : c ≤ 22050) :
    ∃ y out, fumio.fumio_perform Real.tanh x (fun _ => 1) (fun _ => c) (fun _ => 0) n
        = some (y, out) ∧
      out.length = n ∧ out.Pairwise (· ≤ ·) ∧ (∀ v ∈ out, v ≤ 1) := by
  have ha0 : 0 ≤ 2 * 3.14159 * c * (1 / (((2 : ℤ) : ℝ) * 44100)) := by
    push_cast
    positivity
  have ha1 : 2 * 3.14159 * c * (1 / (((2 : ℤ) : ℝ) * 44100)) ≤ 1.570795 := by
    push_cast
    norm_num
    linarith
  obtain ⟨y, out, e, -, y10, y0, hl, hp, hb⟩ := fumio_lowpass_loop x
    (1 / (((2 : ℤ) : ℝ) * 44100)) c hm ha0 ha1 (by rw [hs]) (by rw [hs]; norm_num) n
  refine ⟨y, out, ?_, hl, hp, fun v hv => le_trans (hb v hv) (le_trans y10 y0)⟩
  simp only [fumio.fumio_perform, ho, hsr]
  exact e

/-- C10, witness: the new `fumio~` at 44100 Hz with cutoff 1000 Hz, eight samples. -/
theorem C10_witness :
    ∃ y out, fumio.fumio_perform Real.tanh (fumio.fumio_dsp fumio.fumio_new 44100)
        (fun _ => 1) (fun _ => 1000) (fun _ => 0) 8 = some (y, out) ∧
      out.length = 8 ∧ out.Pairwise (· ≤ ·) ∧ (∀ v ∈ out, v ≤ 1) :=
  C10_step_response (fumio.fumio_dsp fumio.fumio_new 44100) 1000 8
    fumio_new_fields.1 fumio_new_fields.2.1 rfl fumio_new_fields.2.2
    (by norm_num) (by norm_num)

/-- Two Runge–Kutta steps of `fumio~` in low-pass mode with resonance 0. -/
theorem fumio_lowpass_two_steps (x : fumio.t_fumio ℝ) (h : ℝ)
    (hm : x.x_mode = 1) (hr : x.p_resonance = 0) :
    fumio.oversample_loop Real.tanh h x 2
      = some { x with x_state :=
          ![x.p_input + fumio_P (2 * 3.14159 * x.p_cutoff * h) ^ 2 * (x.x_state 0 - x.p_input),
            x.p_input + fumio_P (2 * 3.14159 * x.p_cutoff * h) ^ 2 * (x.x_state 1 - x.p_input)
              + 2 * fumio_P (2 * 3.14159 * x.p_cutoff * h)
                  * fumio_Q (2 * 3.14159 * x.p_cutoff * h) * (x.x_state 0 - x.p_input)] } := by
  have s1 := fumio_lowpass_step x x.x_state h hm hr
  have s2 := fumio_lowpass_step
    { x with x_state :=
      ![x.p_input + fumio_P (2 * 3.14159 * x.p_cutoff * h) * (x.x_state 0 - x.p_input),
        x.p_input + fumio_P (2 * 3.14159 * x.p_cutoff * h) * (x.x_state 1 - x.p_input)
          + fumio_Q (2 * 3.14159 * x.p_cutoff * h) * (x.x_state 0 - x.p_input)] }
    ![x.p_input + fumio_P (2 * 3.14159 * x.p_cutoff * h) * (x.x_state 0 - x.p_input),
        x.p_input + fumio_P (2 * 3.14159 * x.p_cutoff * h) * (x.x_state 1 - x.p_input)
          + fumio_Q (2 * 3.14159 * x.p_cutoff * h) * (x.x_state 0 - x.p_input)]
    h hm hr
  simp only [fumio.oversample_loop, Option.bind_eq_bind, Option.some_bind, s1, Option.pure_def,
    s2, Matrix.cons_val_zero, Matrix.cons_val_one, Matrix.head_cons]
  congr 2
  funext i
  fin_cases i
  · simp only [Fin.zero_eta, Matrix.cons_val_zero]
    ring
  · simp only [Fin.mk_one, Matrix.cons_val_one, Matrix.head_cons]
    ring

/-- The first output of `fumio~` in low-pass mode with oversample factor 2, input 1
and resonance input 0. -/
theorem fumio_lowpass_first_output (x : fumio.t_fumio ℝ) (c : ℝ)
    (hm : x.x_mode = 1) (ho : x.x_oversample.toNat = 2) :
    ∃ y, fumio.fumio_perform Real.tanh x (fun _ => 1) (fun _ => c) (fun _ => 0) 1
      = some (y, [1 + fumio_P (2 * 3.14159 * c * (1 / ((x.x_oversample : ℝ) * x.x_sr))) ^ 2
            * (x.x_state 1 - 1)
          + 2 * fumio_P (2 * 3.14159 * c * (1 / ((x.x_oversample : ℝ) * x.x_sr)))
            * fumio_Q (2 * 3.14159 * c * (1 / ((x.x_oversample : ℝ) * x.x_sr)))
            * (x.x_state 0 - 1)]) := by
  have e := fumio_lowpass_two_steps
    { x with p_input := 1, p_cutoff := c, p_resonance := if (0 : ℝ) < 0 then 0 else 0 }
    (1 / ((x.x_oversample : ℝ) * x.x_sr)) hm (by simp)
  simp only [fumio.fumio_perform, fumio.perform_loop, fumio.perform_sample,
    Option.bind_eq_bind, Option.some_bind]
  rw [ho, e]
  simp only [Option.some_bind, hm, true_or, if_true, Option.pure_def, List.nil_append]
  exact ⟨_, rfl⟩

/-- C10, counterexample: with the cutoff 44100 Hz the new `fumio~` at 44100 Hz, in
low-pass mode with resonance input 0 and input 1, writes a first output above 1. -/
theorem C10_counterexample :
    ∃ y v, fumio.fumio_perform Real.tanh (fumio.fumio_dsp fumio.fumio_new 44100)
        (fun _ => 1) (fun _ => 44100) (fun _ => 0) 1 = some (y, [v]) ∧ 1 < v := by
  obtain ⟨hm, ho, hs⟩ := fumio_new_fields
  have hm2 : (fumio.fumio_dsp (fumio.fumio_new : fumio.t_fumio ℝ) 44100).x_mode = 1 := hm
  have ho2 : (fumio.fumio_dsp (fumio.fumio_new : fumio.t_fumio ℝ) 44100).x_oversample = 2 := ho
  have hs2 : (fumio.fumio_dsp (fumio.fumio_new : fumio.t_fumio ℝ) 44100).x_state
      = fun _ => 0 := hs
  have hsr : (fumio.fumio_dsp (fumio.fumio_new : fumio.t_fumio ℝ) 44100).x_sr = 44100 := rfl
  obtain ⟨y, hy⟩ := fumio_lowpass_first_output
    (fumio.fumio_dsp (fumio.fumio_new : fumio.t_fumio ℝ) 44100) 44100 hm2 (by rw [ho2]; rfl)
  refine ⟨y, _, hy, ?_⟩
  rw [hs2, ho2, hsr]
  simp only [fumio_P, fumio_Q]
  norm_num

end LowPass

/-! #### C11: the new instance of `ring64~` -/

section Ring64New

open ring64

/-- The fields of a new `ring64~`. -/
theorem ring64_new_fields (atan : α → α) :
    (∀ k, k < 64 → (ring64_new atan).freqmult k = 1 ∧ (ring64_new atan).gainband k = 1 ∧
      (ring64_new atan).s1 k = 0 ∧ (ring64_new atan).s2 k = 0) ∧
    (∀ k, (ring64_new atan).p_gainband k = 0) ∧
    (ring64_new atan).numberbands = 16 ∧ (ring64_new atan).gain = 0.9 ∧
    (ring64_new atan).softclip = 0 := by
  refine ⟨?_, ?_, rfl, rfl, rfl⟩
  · intro k hk
    simp only [ring64_new, ring64_new_loop_eq]
    simp [hk]
  · intro k
    simp only [ring64_new, ring64_new_loop_eq]
    rfl

/-- With every base gain `0` the band gains of a sample are `0` and the sample
written is `0`. -/
theorem ring64_perform_sample_silent (tan : α → α) (o : α) (x : t_ring64 α) (a : α)
    (hn : x.numberbands ≤ 64) (hz : ∀ k, k < 64 → x.p_gainband k = 0) :
    (perform_sample tan o x a).2 = 0 := by
  obtain ⟨-, -, -, -, -, h6⟩ := ring64_perform_sample_fields tan o x a
  have hg : ∀ l, l < 64 → (pre_solve x a).gainband l = 0 := by
    intro l hl
    rw [ring64_pre_solve_eq]
    show (if l < BANDS then band_gain x l else x.gainband l) = 0
    rw [if_pos hl]
    unfold band_gain
    rw [hz l hl]
    simp
  have hmix : mix_value tan o x a = 0 := by
    unfold mix_value
    apply Finset.sum_eq_zero
    intro l hl
    have hl64 : l < 64 := by
      have := Finset.mem_range.mp hl
      omega
    rw [hg l hl64]
    simp
  rw [h6, hmix]
  split_ifs
  · exact ring64_clip_value_zero
  · rfl

/-- With every base gain `0` a block writes zeros only. -/
theorem ring64_perform_loop_silent (tan : α → α) (o : α) (in1 : Nat → α) (x : t_ring64 α)
    (hn : x.numberbands ≤ 64) (hz : ∀ k, k < 64 → x.p_gainband k = 0) (n : Nat) :
    (perform_loop tan o in1 x n).2 = List.replicate n 0 := by
  induction n with
  | zero => rfl
  | succ n ih =>
    obtain ⟨-, -, -, -, -, -, -, -, -, -, -, -, f13, -, -, -, f17⟩ :=
      ring64_perform_loop_frame tan o in1 x n
    have a := ring64_perform_sample_silent tan o (perform_loop tan o in1 x n).1 (in1 n)
      (by rw [f13]; exact hn) (by rw [f17]; exact hz)
    simp only [perform_loop, ih, a, List.replicate_succ']

/-- C11, on the new instance. `ring64_new` sets, for every band `k < 64`, the
frequency multiplier to 1 and the state pair to zero, the active band count to 16
and the overall gain to 0.9; but the per-band value it sets to 1 is `gainband[k]`,
which `ring64_perform` overwrites in every sample, while the base gain
`p_gainband[k]` that `ring64_perform` multiplies by the brightness tilt is never
assigned and is `0`.  So every block of a new instance, whatever its inputs and
sample rate, writes only zeros. -/
theorem C11_new_instance_base_gain (tan exp atan : α → α) :
    (∀ k, k < 64 → (ring64.ring64_new atan).freqmult k = 1 ∧
      (ring64.ring64_new atan).s1 k = 0 ∧ (ring64.ring64_new atan).s2 k = 0 ∧
      (ring64.ring64_new atan).gainband k = 1 ∧ (ring64.ring64_new atan).p_gainband k = 0) ∧
    (ring64.ring64_new atan).numberbands = 16 ∧ (ring64.ring64_new atan).gain = 0.9 ∧
    (∀ (sr : α) (in1 cutoffin resonancein brightnessin : Nat → α) (n : Nat),
      (ring64.ring64_perform tan exp (ring64.ring64_dsp (ring64.ring64_new atan) sr)
        in1 cutoffin resonancein brightnessin n).2 = List.replicate n 0) := by
  obtain ⟨h1, h2, h3, h4, -⟩ := ring64_new_fields atan
  refine ⟨fun k hk => ⟨(h1 k hk).1, (h1 k hk).2.2.1, (h1 k hk).2.2.2, (h1 k hk).2.1, h2 k⟩,
    h3, h4, ?_⟩
  intro sr in1 cutoffin resonancein brightnessin n
  apply ring64_perform_loop_silent
  · rw [ring64_perform_begin_eq]
    show (ring64_new atan).numberbands ≤ 64
    rw [h3]
    norm_num
  · intro k _
    rw [ring64_perform_begin_eq]
    exact h2 k

end Ring64New

/-! #### C12 and C13: the derivatives -/

/-- C12 (amended). For every state `(s0, s1)`, input, cutoff and resonance, with
`k = 2·3.14159·cutoff` (the constant of the code, not `2π`), `calc_derivatives` of
`fumio~` returns: in mode 1 `ds0 = k (input − s0 − tanh(resonance·s1))`,
`ds1 = k (s0 − s1 + tanh(resonance·s1))`; in mode 3 `ds0 = k (s0 −
tanh(resonance·s1))`, `ds1 = k (−input − s1)`; in mode 2 `ds0 = k (−input − s0 −
tanh(resonance·s1))`, `ds1 = k (input + s0 − s1 + tanh(resonance·s1))`. -/
theorem C12_fumio_calc_derivatives (tanh : α → α) (x : fumio.t_fumio α) (s : Fin 2 → α) :
    (x.x_mode = 1 → fumio.calc_derivatives tanh s x = some
      ![2 * 3.14159 * x.p_cutoff * (x.p_input - s 0 - tanh (x.p_resonance * s 1)),
        2 * 3.14159 * x.p_cutoff * (s 0 - s 1 + tanh (x.p_resonance * s 1))]) ∧
    (x.x_mode = 3 → fumio.calc_derivatives tanh s x = some
      ![2 * 3.14159 * x.p_cutoff * (s 0 - tanh (x.p_resonance * s 1)),
        2 * 3.14159 * x.p_cutoff * (-x.p_input - s 1)]) ∧
    (x.x_mode = 2 → fumio.calc_derivatives tanh s x = some
      ![2 * 3.14159 * x.p_cutoff * (-x.p_input - s 0 - tanh (x.p_resonance * s 1)),
        2 * 3.14159 * x.p_cutoff * (x.p_input + s 0 - s 1 + tanh (x.p_resonance * s 1))]) := by
  refine ⟨?_, ?_, ?_⟩
  · intro h
    simp only [fumio.calc_derivatives, h, if_true]
  · intro h
    simp [fumio.calc_derivatives, h]
  · intro h
    simp [fumio.calc_derivatives, h]

/-- C13 (amended). For every state `(s0, s1, s2, s3)`, input, cutoff and resonance,
with `k = 2·3.14159·cutoff` (the constant of the code, not `2π`), `calc_derivatives`
of `ota~` returns `ds0 = k tanh(1.1·input − resonance·tanh(1.96·s3) − s0)`,
`ds1 = k tanh(1.1·s0 − s1)`, `ds2 = k tanh(1.1·s1 − s2)`, `ds3 = k tanh(1.1·s2 − s3)`. -/
theorem C13_ota_calc_derivatives (tanh : α → α) (x : ota.t_ota α) (s : Fin 4 → α) :
    ota.calc_derivatives tanh s x 0
      = 2 * 3.14159 * x.p_cutoff
          * tanh (1.1 * x.p_input - x.p_resonance * tanh (1.96 * s 3) - s 0) ∧
    ota.calc_derivatives tanh s x 1 = 2 * 3.14159 * x.p_cutoff * tanh (1.1 * s 0 - s 1) ∧
    ota.calc_derivatives tanh s x 2 = 2 * 3.14159 * x.p_cutoff * tanh (1.1 * s 1 - s 2) ∧
    ota.calc_derivatives tanh s x 3 = 2 * 3.14159 * x.p_cutoff * tanh (1.1 * s 2 - s 3) := by
  refine ⟨rfl, rfl, rfl, rfl⟩

/-- The constant of the code is not `2π`. -/
theorem two_pi_ne_const : (2 * 3.14159 : ℝ) ≠ 2 * Real.pi := by
  have := Real.pi_gt_d6
  intro h
  linarith

/-- The hyperbolic tangent of a positive number is positive. -/
theorem tanh_pos_of_pos (t : ℝ) (h : 0 < t) : 0 < Real.tanh t := by
  rw [Real.tanh_eq_sinh_div_cosh]
  exact div_pos (Real.sinh_pos_iff.mpr h) (Real.cosh_pos t)

/-- C12, witness: the new `fumio~` (mode 1) at the state `(0, 0)`. -/
theorem C12_witness :
    fumio.calc_derivatives Real.tanh (fun _ => 0) (fumio.fumio_new : fumio.t_fumio ℝ) = some
      ![2 * 3.14159 * (fumio.fumio_new : fumio.t_fumio ℝ).p_cutoff
          * ((fumio.fumio_new : fumio.t_fumio ℝ).p_input - 0
              - Real.tanh ((fumio.fumio_new : fumio.t_fumio ℝ).p_resonance * 0)),
        2 * 3.14159 * (fumio.fumio_new : fumio.t_fumio ℝ).p_cutoff
          * (0 - 0 + Real.tanh ((fumio.fumio_new : fumio.t_fumio ℝ).p_resonance * 0))] :=
  (C12_fumio_calc_derivatives Real.tanh fumio.fumio_new (fun _ => 0)).1 fumio_new_fields.1

/-- C12, counterexample: in mode 1 with input 1, cutoff 1, resonance 0 and the state
`(0, 0)` the code returns `ds0 = 2·3.14159`, not `2π`. -/
theorem C12_counterexample :
    ¬ (fumio.calc_derivatives Real.tanh (fun _ => 0)
        { (fumio.fumio_new : fumio.t_fumio ℝ) with p_input := 1, p_cutoff := 1, p_resonance := 0 }
      = some ![2 * Real.pi * 1 * (1 - 0 - Real.tanh (0 * 0)),
               2 * Real.pi * 1 * (0 - 0 + Real.tanh (0 * 0))]) := by
  intro h
  simp only [fumio.calc_derivatives] at h
  rw [if_pos fumio_new_fields.1] at h
  have h0 := congrFun (Option.some.inj h) 0
  simp only [Matrix.cons_val_zero, mul_zero, Real.tanh_zero, sub_zero, mul_one] at h0
  exact two_pi_ne_const h0

/-- C13, counterexample: with input 1, cutoff 1, resonance 0 and the zero state the
code returns `ds0 = 2·3.14159·tanh(1.1)`, not `2π·tanh(1.1)`. -/
theorem C13_counterexample :
    ¬ (ota.calc_derivatives Real.tanh (fun _ => 0)
        { (ota.ota_new : ota.t_ota ℝ) with p_input := 1, p_cutoff := 1, p_resonance := 0 } 0
      = 2 * Real.pi * 1 * Real.tanh (1.1 * 1 - 0 * Real.tanh (1.96 * 0) - 0)) := by
  simp only [ota.calc_derivatives, Matrix.cons_val_zero, mul_one, zero_mul, sub_zero]
  intro h
  have ht : Real.tanh 1.1 ≠ 0 := ne_of_gt (tanh_pos_of_pos 1.1 (by norm_num))
  exact two_pi_ne_const (mul_right_cancel₀ ht h)

/-! #### C14: the mix of the bank -/

section Ring64Mix

open ring64

/-- The band gain is never negative. -/
theorem ring64_band_gain_nonneg (x : t_ring64 α) (k : Nat) : 0 ≤ band_gain x k := by
  unfold band_gain
  split_ifs with h1 h2
  · exact le_refl 0
  · exact le_refl 0
  · exact not_lt.mp h2

/-- The band gain is `0` for a muted band and else the tilted base gain, or `0`
when that is negative. -/
theorem ring64_band_gain_max (x : t_ring64 α) (k : Nat) :
    band_gain x k = if muted x k then 0
      else max 0 (x.p_gainband k * (x.p_brightness * (((k : α) + 1 - 4) / 4) + 1)) := by
  unfold band_gain pivot
  split_ifs with h1 h2
  · rfl
  · exact (max_eq_left (le_of_lt h2)).symm
  · exact (max_eq_right (not_lt.mp h2)).symm

/-- Without soft clipping the sample written is the overall gain times
`oneovernumberbands` times the sum of the weighted band-pass values. -/
theorem ring64_perform_sample_mix (tan : α → α) (o : α) (x : t_ring64 α) (a : α)
    (hs : x.softclip ≠ 1) (hn : x.numberbands ≤ 64) :
    (perform_sample tan o x a).2
      = x.gain * o * ∑ m in Finset.range x.numberbands.toNat,
          band_bp tan (pre_solve x a) m * band_gain x m := by
  obtain ⟨-, -, -, -, -, h6⟩ := ring64_perform_sample_fields tan o x a
  rw [h6, if_neg hs]
  unfold mix_value
  rw [Finset.mul_sum]
  apply Finset.sum_congr rfl
  intro l hl
  have hl64 : l < 64 := by
    have := Finset.mem_range.mp hl
    omega
  have hg : (pre_solve x a).gainband l = band_gain x l := by
    rw [ring64_pre_solve_eq]
    show (if l < BANDS then band_gain x l else x.gainband l) = band_gain x l
    rw [if_pos hl64]
  rw [hg]
  ring

/-- Fields of the instance at the start of sample `i` of a block. -/
theorem ring64_sample_start_frame (tan exp : α → α) (x : t_ring64 α)
    (in1 cutoffin resonancein brightnessin : Nat → α) (n i : Nat) :
    (sample_start tan exp x in1 cutoffin resonancein brightnessin n i).numberbands
      = x.numberbands ∧
    (sample_start tan exp x in1 cutoffin resonancein brightnessin n i).softclip = x.softclip ∧
    (sample_start tan exp x in1 cutoffin resonancein brightnessin n i).gain = x.gain ∧
    (sample_start tan exp x in1 cutoffin resonancein brightnessin n i).freqmult = x.freqmult ∧
    (sample_start tan exp x in1 cutoffin resonancein brightnessin n i).p_gainband
      = x.p_gainband := by
  obtain ⟨-, -, -, -, -, -, -, -, -, -, -, -, f13, f14, f15, f16, f17⟩ :=
    ring64_perform_loop_frame tan (1 / (x.numberbands : α)) in1
      (perform_begin exp x (cutoffin 0) (resonancein 0) (brightnessin 0) n) i
  unfold sample_start
  rw [f13, f14, f15, f16, f17, ring64_perform_begin_eq]
  exact ⟨rfl, rfl, rfl, rfl, rfl⟩

end Ring64Mix

/-- C14. In a block of `ring64_perform` on an instance with soft clipping off (and
at most 64 active bands, as every reachable instance has), sample `i` of the output
is `gain · (1/numberbands) · Σ_{m < numberbands} bp[m] · gain[m]`, where `bp[m]` is
the band-pass value `x_bp[m]` that the solve of band `m` computes in that sample,
with the integrator gain taken at the cutoff `p_cutoff · freqmult[m]`, and
`gain[m]` is `0` for a muted band and `max(0, base_gain[m] · (brightness ·
((m + 1 − 4)/4) + 1))` otherwise; every `gain[m]` is `≥ 0`. -/
theorem C14_output_mix (tan exp : α → α) (x : ring64.t_ring64 α)
    (in1 cutoffin resonancein brightnessin : Nat → α) (n i : Nat) (hi : i < n)
    (hs : x.softclip ≠ 1) (hn : x.numberbands ≤ 64) :
    (ring64.ring64_perform tan exp x in1 cutoffin resonancein brightnessin n).2[i]?
      = some (x.gain * (1 / (x.numberbands : α))
          * ∑ m in Finset.range x.numberbands.toNat,
              ring64.band_bp tan (ring64.pre_solve
                (ring64.sample_start tan exp x in1 cutoffin resonancein brightnessin n i)
                (in1 i)) m
              * ring64.band_gain
                  (ring64.sample_start tan exp x in1 cutoffin resonancein brightnessin n i) m) ∧
    (∀ m, m < x.numberbands.toNat →
      (ring64.perform_sample tan (1 / (x.numberbands : α))
          (ring64.sample_start tan exp x in1 cutoffin resonancein brightnessin n i) (in1 i)).1.x_bp m
        = ring64.band_bp tan (ring64.pre_solve
            (ring64.sample_start tan exp x in1 cutoffin resonancein brightnessin n i) (in1 i)) m ∧
      ring64.prewarp tan (ring64.pre_solve
            (ring64.sample_start tan exp x in1 cutoffin resonancein brightnessin n i) (in1 i)) m
        = (2 * (ring64.sample_start tan exp x in1 cutoffin resonancein brightnessin n i).x_sr)
            * tan (2 * (ring64.sample_start tan exp x in1 cutoffin resonancein brightnessin n i).PI
                * (ring64.sample_start tan exp x in1 cutoffin resonancein brightnessin n i).p_cutoff
                * x.freqmult m
                * (ring64.sample_start tan exp x in1 cutoffin resonancein brightnessin n i).T * 0.5)
            * (ring64.sample_start tan exp x in1 cutoffin resonancein brightnessin n i).T * 0.5) ∧
    (∀ m, ring64.band_gain
          (ring64.sample_start tan exp x in1 cutoffin resonancein brightnessin n i) m
        = if ring64.muted
            (ring64.sample_start tan exp x in1 cutoffin resonancein brightnessin n i) m then 0
          else max 0 (x.p_gainband m
            * ((ring64.sample_start tan exp x in1 cutoffin resonancein brightnessin n i).p_brightness
                * (((m : α) + 1 - 4) / 4) + 1))) ∧
    (∀ m, 0 ≤ ring64.band_gain
          (ring64.sample_start tan exp x in1 cutoffin resonancein brightnessin n i) m) := by
  obtain ⟨f1, f2, f3, f4, f5⟩ :=
    ring64_sample_start_frame tan exp x in1 cutoffin resonancein brightnessin n i
  refine ⟨?_, ?_, ?_, ?_⟩
  · unfold ring64.ring64_perform
    rw [ring64_perform_loop_out _ _ _ _ n i hi]
    have key := ring64_perform_sample_mix tan (1 / (x.numberbands : α))
      (ring64.sample_start tan exp x in1 cutoffin resonancein brightnessin n i) (in1 i)
      (by rw [f2]; exact hs) (by rw [f1]; exact hn)
    rw [f1, f3] at key
    exact congrArg some key
  · intro m hm
    obtain ⟨-, -, -, h4, -, -⟩ := ring64_perform_sample_fields tan (1 / (x.numberbands : α))
      (ring64.sample_start tan exp x in1 cutoffin resonancein brightnessin n i) (in1 i)
    refine ⟨?_, ?_⟩
    · rw [h4, f1]
      show (if m < x.numberbands.toNat then _ else _) = _
      rw [if_pos hm]
    · rw [ring64_pre_solve_eq, ← f4]
      rfl
  · intro m
    rw [ring64_band_gain_max, f5]
  · intro m
    exact ring64_band_gain_nonneg _ m

/-- C14, witness: sample 0 of the first block of a new `ring64~` at 44100 Hz. -/
theorem C14_witness :
    (ring64.ring64_perform Real.tan Real.exp
        (ring64.ring64_dsp (ring64.ring64_new Real.arctan) 44100)
        (fun _ => 1) (fun _ => 440) (fun _ => 1) (fun _ => 0) 1).2[0]?
      = some ((ring64.ring64_dsp (ring64.ring64_new Real.arctan) 44100).gain
          * (1 / ((ring64.ring64_dsp (ring64.ring64_new Real.arctan) 44100).numberbands : ℝ))
          * ∑ m in Finset.range
                (ring64.ring64_dsp (ring64.ring64_new Real.arctan) 44100).numberbands.toNat,
              ring64.band_bp Real.tan (ring64.pre_solve
                (ring64.sample_start Real.tan Real.exp
                  (ring64.ring64_dsp (ring64.ring64_new Real.arctan) 44100)
                  (fun _ => 1) (fun _ => 440) (fun _ => 1) (fun _ => 0) 1 0) 1) m
              * ring64.band_gain
                  (ring64.sample_start Real.tan Real.exp
                    (ring64.ring64_dsp (ring64.ring64_new Real.arctan) 44100)
                    (fun _ => 1) (fun _ => 440) (fun _ => 1) (fun _ => 0) 1 0) m) :=
  (C14_output_mix Real.tan Real.exp (ring64.ring64_dsp (ring64.ring64_new Real.arctan) 44100)
    (fun _ => 1) (fun _ => 440) (fun _ => 1) (fun _ => 0) 1 0 (by norm_num)
    (by
      show (ring64.ring64_new Real.arctan).softclip ≠ 1
      rw [(ring64_new_fields Real.arctan).2.2.2.2]
      norm_num)
    (by
      show (ring64.ring64_new Real.arctan).numberbands ≤ 64
      rw [(ring64_new_fields Real.arctan).2.2.1]
      norm_num)).1

/-! #### C15: the soft clip -/

section Ring64Clip

open ring64

/-- The two tests of the soft-clipping branch clamp to `[-1, 1]`. -/
theorem ring64_clamp_eq (s : α) :
    (if (if s > 1 then 1 else s) < -1 then -1 else (if s > 1 then 1 else s))
      = min 1 (max (-1) s) := by
  by_cases h1 : s > 1
  · have h2 : ¬ ((1 : α) < -1) := by norm_num
    rw [if_pos h1, if_neg h2, max_eq_right (by linarith), min_eq_left (le_of_lt h1)]
  · rw [if_neg h1]
    by_cases h3 : s < -1
    · rw [if_pos h3, max_eq_left (le_of_lt h3), min_eq_right (by norm_num)]
    · rw [if_neg h3, max_eq_right (not_lt.mp h3), min_eq_right (not_lt.mp h1)]

/-- The soft-clipping curve in terms of the clamped value. -/
theorem ring64_clip_value_eq (s : α) :
    clip_value s = 1.5 * min 1 (max (-1) s) - 0.5 * (min 1 (max (-1) s)) ^ 3 := by
  unfold clip_value
  simp only [ring64_clamp_eq]
  ring

/-- The cubic `1.5 c - 0.5 c³` maps `[-1, 1]` into `[-1, 1]`. -/
theorem ring64_cubic_range (c : α) (h1 : -1 ≤ c) (h2 : c ≤ 1) :
    -1 ≤ 1.5 * c - 0.5 * c ^ 3 ∧ 1.5 * c - 0.5 * c ^ 3 ≤ 1 := by
  have e1 : 1.5 * c - 0.5 * c ^ 3 - (-1) = (1 / 2) * ((c + 1) ^ 2 * (2 - c)) := by
    norm_num
    ring
  have e2 : 1 - (1.5 * c - 0.5 * c ^ 3) = (1 / 2) * ((c - 1) ^ 2 * (c + 2)) := by
    norm_num
    ring
  have p1 : 0 ≤ (1 / 2 : α) * ((c + 1) ^ 2 * (2 - c)) :=
    mul_nonneg (by norm_num) (mul_nonneg (sq_nonneg _) (by linarith))
  have p2 : 0 ≤ (1 / 2 : α) * ((c - 1) ^ 2 * (c + 2)) :=
    mul_nonneg (by norm_num) (mul_nonneg (sq_nonneg _) (by linarith))
  constructor
  · linarith
  · linarith

/-- Clamping to `[-1, 1]` commutes with negation. -/
theorem ring64_clamp_neg (s : α) : min 1 (max (-1) (-s)) = -min 1 (max (-1) s) := by
  rw [← ring64_clamp_eq, ← ring64_clamp_eq]
  by_cases h1 : s > 1
  · have a1 : ¬ (-s > 1) := by
      intro h
      linarith
    have a2 : -s < -1 := by linarith
    have a3 : ¬ ((1 : α) < -1) := by norm_num
    rw [if_neg a1, if_pos a2, if_pos h1, if_neg a3]
  · by_cases h3 : s < -1
    · have a1 : -s > 1 := by linarith
      have a3 : ¬ ((1 : α) < -1) := by norm_num
      rw [if_pos a1, if_neg a3, if_neg h1, if_pos h3, neg_neg]
    · have a1 : ¬ (-s > 1) := by
        intro h
        apply h3
        linarith
      have a2 : ¬ (-s < -1) := by
        intro h
        apply h1
        linarith
      rw [if_neg a1, if_neg a2, if_neg h1, if_neg h3]

/-- The soft-clipping curve stays in `[-1, 1]`. -/
theorem ring64_clip_value_range (s : α) : -1 ≤ clip_value s ∧ clip_value s ≤ 1 := by
  rw [ring64_clip_value_eq]
  exact ring64_cubic_range _ (le_min (by norm_num) (le_max_left _ _)) (min_le_left _ _)

/-- The soft-clipping curve is odd. -/
theorem ring64_clip_value_odd (s : α) : clip_value (-s) = -clip_value s := by
  rw [ring64_clip_value_eq, ring64_clip_value_eq, ring64_clamp_neg]
  ring

/-- The soft-clipping curve is `1` at `1`. -/
theorem ring64_clip_value_one : clip_value (1 : α) = 1 := by
  rw [ring64_clip_value_eq, max_eq_right (by norm_num), min_self]
  norm_num

end Ring64Clip

/-- C15. With soft clipping on, the sample `ring64_perform` writes is `f(s)` for the
mixed value `s` of that sample, where `f(s) = 1.5 c − 0.5 c³` with
`c = min(1, max(−1, s))`; for every `s`, `−1 ≤ f(s) ≤ 1` and `f(−s) = −f(s)`; and
`f(0) = 0`, `f(1) = 1`, `f(−1) = −1`. -/
theorem C15_soft_clip (tan : α → α) (o : α) (x : ring64.t_ring64 α) (a : α)
    (hs : x.softclip = 1) :
    (ring64.perform_sample tan o x a).2 = ring64.clip_value (ring64.mix_value tan o x a) ∧
    (∀ s : α, (ring64.write_out { x with sumout := s }).2 = ring64.clip_value s) ∧
    (∀ s : α, ring64.clip_value s = 1.5 * min 1 (max (-1) s) - 0.5 * (min 1 (max (-1) s)) ^ 3) ∧
    (∀ s : α, -1 ≤ ring64.clip_value s ∧ ring64.clip_value s ≤ 1) ∧
    (∀ s : α, ring64.clip_value (-s) = -ring64.clip_value s) ∧
    ring64.clip_value (0 : α) = 0 ∧ ring64.clip_value (1 : α) = 1 ∧
    ring64.clip_value (-1 : α) = -1 := by
  refine ⟨?_, ?_, ring64_clip_value_eq, ring64_clip_value_range, ring64_clip_value_odd,
    ring64_clip_value_zero, ring64_clip_value_one, ?_⟩
  · obtain ⟨-, -, -, -, -, h6⟩ := ring64_perform_sample_fields tan o x a
    rw [h6, if_pos hs]
  · intro s
    rw [ring64_write_out_eq]
    show (if x.softclip = 1 then _ else _ : ring64.t_ring64 α × α).2 = _
    rw [if_pos hs]
  · rw [ring64_clip_value_odd, ring64_clip_value_one]

/-- C15, witness: a new `ring64~` with the `softclip` message `1`. -/
theorem C15_witness :
    (ring64.perform_sample Real.tan 1
        (ring64.ring64_softclip (ring64.ring64_new Real.arctan) 1) 1).2
      = ring64.clip_value (ring64.mix_value Real.tan 1
          (ring64.ring64_softclip (ring64.ring64_new Real.arctan) 1) 1) :=
  (C15_soft_clip Real.tan 1 (ring64.ring64_softclip (ring64.ring64_new Real.arctan) 1) 1
    (by
      show c_trunc (1 : ℝ) = 1
      simp [c_trunc])).1

/-! #### C16 to C18: the messages of `fumio~` and `ota~` -/

/-- Truncation leaves an integer as it is. -/
theorem c_trunc_intCast [FloorRing α] (m : Int) : c_trunc (m : α) = m := by
  unfold c_trunc
  split_ifs
  · exact Int.floor_intCast m
  · exact Int.ceil_intCast m

/-- C16. For every prior instance, `fumio_clear` and `ota_clear` leave every entry
of the state vector `0`; `fumio_mode` with a request in `[1, 3]` leaves both state
entries `0` and stores the request truncated to an integer as the mode, so for the
requests 1, 2 and 3 the mode is the request. -/
theorem C16_clear_and_mode_zero_state [FloorRing α] (x : fumio.t_fumio α) (y : ota.t_ota α) :
    (∀ i, (fumio.fumio_clear x).x_state i = 0) ∧
    (∀ i, (ota.ota_clear y).x_state i = 0) ∧
    (∀ mode : α, 1 ≤ mode → mode ≤ 3 →
      (∀ i, (fumio.fumio_mode x mode).x_state i = 0) ∧
      (fumio.fumio_mode x mode).x_mode = c_trunc mode) ∧
    (∀ m : Int, 1 ≤ m → m ≤ 3 →
      (∀ i, (fumio.fumio_mode x (m : α)).x_state i = 0) ∧
      (fumio.fumio_mode x (m : α)).x_mode = m) := by
  have key : ∀ mode : α, 1 ≤ mode → mode ≤ 3 →
      (∀ i, (fumio.fumio_mode x mode).x_state i = 0) ∧
      (fumio.fumio_mode x mode).x_mode = c_trunc mode := by
    intro mode h1 h3
    unfold fumio.fumio_mode
    rw [if_pos ⟨h1, h3⟩]
    exact ⟨fun _ => rfl, rfl⟩
  refine ⟨fun _ => rfl, fun _ => rfl, key, ?_⟩
  intro m h1 h3
  have h1c : (1 : α) ≤ (m : α) := by exact_mod_cast h1
  have h3c : (m : α) ≤ 3 := by exact_mod_cast h3
  obtain ⟨k1, k2⟩ := key (m : α) h1c h3c
  exact ⟨k1, by rw [k2, c_trunc_intCast]⟩

/-- C16, witness: the mode request 2 on a new `fumio~`. -/
theorem C16_witness :
    (∀ i, (fumio.fumio_mode (fumio.fumio_new : fumio.t_fumio ℝ) ((2 : Int) : ℝ)).x_state i = 0) ∧
    (fumio.fumio_mode (fumio.fumio_new : fumio.t_fumio ℝ) ((2 : Int) : ℝ)).x_mode = 2 :=
  (C16_clear_and_mode_zero_state (fumio.fumio_new : fumio.t_fumio ℝ)
    (ota.ota_new : ota.t_ota ℝ)).2.2.2 2 (by norm_num) (by norm_num)

/-- C17. A mode request below 1 or above 3 leaves the instance of `fumio~` as it
was: mode, state vector, oversample factor and every other field. -/
theorem C17_invalid_mode_ignored [FloorRing α] (x : fumio.t_fumio α) (mode : α)
    (h : mode < 1 ∨ 3 < mode) : fumio.fumio_mode x mode = x := by
  unfold fumio.fumio_mode
  rw [if_neg]
  rintro ⟨h1, h3⟩
  rcases h with h | h
  · exact absurd h1 (not_le.mpr h)
  · exact absurd h3 (not_le.mpr h)

/-- C17, witness: the mode request 4 on a new `fumio~`. -/
theorem C17_witness :
    fumio.fumio_mode (fumio.fumio_new : fumio.t_fumio ℝ) 4 = fumio.fumio_new :=
  C17_invalid_mode_ignored fumio.fumio_new 4 (Or.inr (by norm_num))

/-- The value the `oversample` messages store. -/
theorem oversample_value [FloorRing α] (r : α) :
    (1 ≤ c_trunc (if (if r ≤ 1 then 1 else r) > 8 then 8 else (if r ≤ 1 then 1 else r)) ∧
      c_trunc (if (if r ≤ 1 then 1 else r) > 8 then 8 else (if r ≤ 1 then 1 else r)) ≤ 8) ∧
    (r ≤ 1 →
      c_trunc (if (if r ≤ 1 then 1 else r) > 8 then 8 else (if r ≤ 1 then 1 else r)) = 1) ∧
    (8 < r →
      c_trunc (if (if r ≤ 1 then 1 else r) > 8 then 8 else (if r ≤ 1 then 1 else r)) = 8) ∧
    (1 ≤ r → r ≤ 8 →
      c_trunc (if (if r ≤ 1 then 1 else r) > 8 then 8 else (if r ≤ 1 then 1 else r))
        = c_trunc r) := by
  have t1 : c_trunc (1 : α) = 1 := by
    have h : c_trunc (((1 : Int) : α)) = 1 := c_trunc_intCast 1
    simpa using h
  have t8 : c_trunc (8 : α) = 8 := by
    have h : c_trunc (((8 : Int) : α)) = 8 := c_trunc_intCast 8
    simpa using h
  have n18 : ¬ ((1 : α) > 8) := by norm_num
  refine ⟨?_, ?_, ?_, ?_⟩
  · by_cases h1 : r ≤ 1
    · rw [if_pos h1, if_neg n18, t1]
      norm_num
    · rw [if_neg h1]
      by_cases h8 : r > 8
      · rw [if_pos h8, t8]
        norm_num
      · rw [if_neg h8]
        have := c_trunc_range r 1 8 (by norm_num) (by push_cast; exact le_of_lt (not_le.mp h1))
          (by push_cast; exact not_lt.mp h8)
        exact this
  · intro h1
    rw [if_pos h1, if_neg n18, t1]
  · intro h8
    have h1 : ¬ (r ≤ 1) := by
      intro h
      linarith
    rw [if_neg h1, if_pos h8, t8]
  · intro h1 h8
    rcases eq_or_lt_of_le h1 with e | l
    · rw [← e, if_pos (le_refl 1), if_neg n18]
    · rw [if_neg (not_le.mpr l), if_neg (not_lt.mpr h8)]

/-- C18. For every request `r`, `fumio_oversample` and `ota_oversample` store an
integer in `[1, 8]`: `1` for `r ≤ 1`, `8` for `r > 8`, and `r` truncated to an
integer for `1 ≤ r ≤ 8`. -/
theorem C18_oversample_clamped [FloorRing α] (x : fumio.t_fumio α) (y : ota.t_ota α) (r : α) :
    ((1 ≤ (fumio.fumio_oversample x r).x_oversample ∧
        (fumio.fumio_oversample x r).x_oversample ≤ 8) ∧
      (r ≤ 1 → (fumio.fumio_oversample x r).x_oversample = 1) ∧
      (8 < r → (fumio.fumio_oversample x r).x_oversample = 8) ∧
      (1 ≤ r → r ≤ 8 → (fumio.fumio_oversample x r).x_oversample = c_trunc r)) ∧
    ((1 ≤ (ota.ota_oversample y r).x_oversample ∧
        (ota.ota_oversample y r).x_oversample ≤ 8) ∧
      (r ≤ 1 → (ota.ota_oversample y r).x_oversample = 1) ∧
      (8 < r → (ota.ota_oversample y r).x_oversample = 8) ∧
      (1 ≤ r → r ≤ 8 → (ota.ota_oversample y r).x_oversample = c_trunc r)) :=
  ⟨oversample_value r, oversample_value r⟩

/-- C18, witness: the request 3.7 on a new `fumio~` stores 3. -/
theorem C18_witness :
    (fumio.fumio_oversample (fumio.fumio_new : fumio.t_fumio ℝ) 3.7).x_oversample
      = c_trunc (3.7 : ℝ) :=
  (C18_oversample_clamped (fumio.fumio_new : fumio.t_fumio ℝ) (ota.ota_new : ota.t_ota ℝ)
    3.7).1.2.2.2 (by norm_num) (by norm_num)

/-! #### C19: the control messages of `ring64~` -/

section Ring64Setters

open ring64

/-- The base gain of band `i` after the entries of `l`, numbered from `s`, have
been stored: entry `i - s` decides when there is one, else the gain is as before. -/
theorem ring64_gains_fold (l : List (t_atom α)) (s : Nat) (x : t_ring64 α) (i : Nat) :
    ((l.enumFrom s).foldl (fun y ia => gains_entry y ia.1 ia.2) x).p_gainband i
      = if s ≤ i then
          (match l[i - s]? with
            | some a => (gains_entry x i a).p_gainband i
            | none => x.p_gainband i)
        else x.p_gainband i := by
  induction l generalizing s x with
  | nil => simp
  | cons a t ih =>
    rw [List.enumFrom_cons, List.foldl_cons, ih]
    have hother : ∀ j, j ≠ s → (gains_entry x s a).p_gainband j = x.p_gainband j := by
      intro j hj
      unfold gains_entry
      cases a with
      | A_FLOAT f =>
        simp only
        split_ifs <;> exact Function.update_noteq hj _ _
      | A_SYMBOL n => rfl
      | A_POINTER => rfl
    have hentry : ∀ (b : t_atom α) j, j ≠ s →
        (gains_entry (gains_entry x s a) j b).p_gainband j = (gains_entry x j b).p_gainband j := by
      intro b j hj
      unfold gains_entry
      cases b with
      | A_FLOAT f =>
        simp only
        split_ifs <;> simp
      | A_SYMBOL n => exact hother j hj
      | A_POINTER => exact hother j hj
    by_cases h1 : s + 1 ≤ i
    · have h2 : s ≤ i := by omega
      have hne : i ≠ s := by omega
      have e : i - s = (i - (s + 1)) + 1 := by omega
      rw [if_pos h1, if_pos h2, e, List.getElem?_cons_succ]
      cases t[i - (s + 1)]? with
      | none => exact hother i hne
      | some b => exact hentry b i hne
    · rw [if_neg h1]
      by_cases h2 : s ≤ i
      · have e : i = s := by omega
        subst e
        rw [if_pos h2, Nat.sub_self, List.getElem?_cons_zero]
      · have hne : i ≠ s := by omega
        rw [if_neg h2]
        exact hother i hne

/-- The base gains after the message `gains`. -/
theorem ring64_gains_band (x : t_ring64 α) (argvec : List (t_atom α)) (i : Nat) :
    (ring64_gains x argvec).p_gainband i
      = (match argvec[i]? with
          | some a => (gains_entry x i a).p_gainband i
          | none => x.p_gainband i) := by
  unfold ring64_gains List.enum
  rw [ring64_gains_fold, if_pos (Nat.zero_le i), Nat.sub_zero]

end Ring64Setters

/-- C19. `ring64_bands` stores 1 for a request below 1, 64 for a request above 64
and else the request truncated to an integer; `ring64_gain` stores 0 for a request
below 0, 2 for a request above 2 and else the request; `ring64_gains`, for a list of
at most 64 entries, stores for every entry `i` that is a number `f` the base gain
16 if `f > 16`, 0 if `f < 0` and else `f` for band `i`, and leaves the base gain of
a band whose entry is not a number, or that has no entry, as it was. -/
theorem C19_setters_clamp [FloorRing α] (x : ring64.t_ring64 α) (r : α)
    (argvec : List (ring64.t_atom α)) (hlen : argvec.length ≤ 64) :
    ((r < 1 → (ring64.ring64_bands x r).numberbands = 1) ∧
      (64 < r → (ring64.ring64_bands x r).numberbands = 64) ∧
      (1 ≤ r → r ≤ 64 → (ring64.ring64_bands x r).numberbands = c_trunc r)) ∧
    ((r < 0 → (ring64.ring64_gain x r).gain = 0) ∧
      (2 < r → (ring64.ring64_gain x r).gain = 2) ∧
      (0 ≤ r → r ≤ 2 → (ring64.ring64_gain x r).gain = r)) ∧
    (∀ (i : Nat) (f : α), argvec[i]? = some (ring64.t_atom.A_FLOAT f) →
      i < 64 ∧ (ring64.ring64_gains x argvec).p_gainband i
        = if f > 16 then 16 else if f < 0 then 0 else f) ∧
    (∀ (i : Nat) (a : ring64.t_atom α), argvec[i]? = some a →
      (∀ f, a ≠ ring64.t_atom.A_FLOAT f) →
      (ring64.ring64_gains x argvec).p_gainband i = x.p_gainband i) ∧
    (∀ i : Nat, argvec.length ≤ i →
      (ring64.ring64_gains x argvec).p_gainband i = x.p_gainband i) := by
  refine ⟨⟨?_, ?_, ?_⟩, ⟨?_, ?_, ?_⟩, ?_, ?_, ?_⟩
  · intro h
    unfold ring64.ring64_bands
    rw [if_pos h]
  · intro h
    have h1 : ¬ (r < 1) := by
      intro h
      linarith
    unfold ring64.ring64_bands
    rw [if_neg h1, if_pos h]
  · intro h1 h2
    unfold ring64.ring64_bands
    rw [if_neg (not_lt.mpr h1), if_neg (not_lt.mpr h2)]
  · intro h
    unfold ring64.ring64_gain
    rw [if_pos h]
  · intro h
    have h1 : ¬ (r < 0) := by
      intro h
      linarith
    unfold ring64.ring64_gain
    rw [if_neg h1, if_pos h]
  · intro h1 h2
    unfold ring64.ring64_gain
    rw [if_neg (not_lt.mpr h1), if_neg (not_lt.mpr h2)]
  · intro i f hf
    have hi : i < argvec.length := (List.getElem?_eq_some.mp hf).1
    refine ⟨by omega, ?_⟩
    rw [ring64_gains_band, hf]
    show (ring64.gains_entry x i (ring64.t_atom.A_FLOAT f)).p_gainband i = _
    unfold ring64.gains_entry
    simp only
    split_ifs <;> simp
  · intro i a ha hnf
    rw [ring64_gains_band, ha]
    show (ring64.gains_entry x i a).p_gainband i = _
    cases a with
    | A_FLOAT f => exact absurd rfl (hnf f)
    | A_SYMBOL n => rfl
    | A_POINTER => rfl
  · intro i hi
    rw [ring64_gains_band, List.getElem?_eq_none hi]

/-- C19, witness: the message `gains 20 foo -3 0.5` on a new `ring64~`. -/
theorem C19_witness :
    (ring64.ring64_gains (ring64.ring64_new Real.arctan)
        [ring64.t_atom.A_FLOAT 20, ring64.t_atom.A_SYMBOL "foo", ring64.t_atom.A_FLOAT (-3),
          ring64.t_atom.A_FLOAT 0.5]).p_gainband 0 = 16 ∧
    (ring64.ring64_bands (ring64.ring64_new Real.arctan) 100).numberbands = 64 :=
  ⟨by
    have h := ((C19_setters_clamp (ring64.ring64_new Real.arctan) 100
      [ring64.t_atom.A_FLOAT 20, ring64.t_atom.A_SYMBOL "foo", ring64.t_atom.A_FLOAT (-3),
        ring64.t_atom.A_FLOAT 0.5] (by simp)).2.2.1 0 20 rfl).2
    rw [h]
    norm_num,
   (C19_setters_clamp (ring64.ring64_new Real.arctan) 100
      [ring64.t_atom.A_FLOAT 20, ring64.t_atom.A_SYMBOL "foo", ring64.t_atom.A_FLOAT (-3),
        ring64.t_atom.A_FLOAT 0.5] (by simp)).1.2.1 (by norm_num)⟩

/-! #### C20: negative resonance -/

section Resonance

/-- The oversampling loop of `fumio~` changes the state vector only. -/
theorem fumio_oversample_loop_frame (tanh : α → α) (h : α) (x : fumio.t_fumio α) (j : Nat)
    (y : fumio.t_fumio α) (hy : fumio.oversample_loop tanh h x j = some y) :
    y.p_resonance = x.p_resonance ∧ y.p_input = x.p_input ∧ y.p_cutoff = x.p_cutoff ∧
    y.x_mode = x.x_mode ∧ y.x_oversample = x.x_oversample ∧ y.x_sr = x.x_sr := by
  induction j generalizing y with
  | zero =>
    simp only [fumio.oversample_loop, Option.some.injEq] at hy
    subst hy
    exact ⟨rfl, rfl, rfl, rfl, rfl, rfl⟩
  | succ j ih =>
    simp only [fumio.oversample_loop, Option.bind_eq_bind, Option.pure_def,
      Option.bind_eq_some, Option.some.injEq] at hy
    obtain ⟨z, hz, s, -, rfl⟩ := hy
    exact ih z hz

/-- The oversampling loop of `ota~` changes the state vector only. -/
theorem ota_oversample_loop_frame (tanh : α → α) (h : α) (x : ota.t_ota α) (j : Nat) :
    (ota.oversample_loop tanh h x j).p_resonance = x.p_resonance ∧
    (ota.oversample_loop tanh h x j).p_input = x.p_input ∧
    (ota.oversample_loop tanh h x j).p_cutoff = x.p_cutoff ∧
    (ota.oversample_loop tanh h x j).x_oversample = x.x_oversample ∧
    (ota.oversample_loop tanh h x j).x_sr = x.x_sr := by
  induction j with
  | zero => exact ⟨rfl, rfl, rfl, rfl, rfl⟩
  | succ j ih => exact ih

/-- A sample of `fumio~` depends on the resonance input through `max 0 r` only. -/
theorem fumio_perform_sample_resonance (tanh : α → α) (h : α) (x : fumio.t_fumio α)
    (a c r : α) :
    fumio.perform_sample tanh h x a c r
      = fumio.perform_sample tanh h x a c (if r < 0 then 0 else r) := by
  have e : (if (if r < 0 then 0 else r) < 0 then 0 else (if r < 0 then 0 else r))
      = (if r < 0 then (0 : α) else r) := by
    by_cases hr : r < 0
    · simp [hr]
    · simp [hr]
  unfold fumio.perform_sample
  rw [e]

/-- A sample of `ota~` depends on the resonance input through `max 0 r` only. -/
theorem ota_perform_sample_resonance (tanh : α → α) (h : α) (x : ota.t_ota α)
    (a c r : α) :
    ota.perform_sample tanh h x a c r
      = ota.perform_sample tanh h x a c (if r < 0 then 0 else r) := by
  have e : (if (if r < 0 then 0 else r) < 0 then 0 else (if r < 0 then 0 else r))
      = (if r < 0 then (0 : α) else r) := by
    by_cases hr : r < 0
    · simp [hr]
    · simp [hr]
  unfold ota.perform_sample
  rw [e]

/-- The resonance field after a sample of `fumio~`. -/
theorem fumio_perform_sample_p_resonance (tanh : α → α) (h : α) (x : fumio.t_fumio α)
    (a c r : α) (z : fumio.t_fumio α) (out : List α)
    (hz : fumio.perform_sample tanh h x a c r = some (z, out)) :
    z.p_resonance = if r < 0 then 0 else r := by
  simp only [fumio.perform_sample, Option.bind_eq_bind, Option.pure_def,
    Option.bind_eq_some] at hz
  obtain ⟨y, hy, hz⟩ := hz
  obtain ⟨f1, -⟩ := fumio_oversample_loop_frame tanh h _ _ y hy
  split_ifs at hz <;>
  · simp only [Option.some.injEq, Prod.mk.injEq] at hz
    rw [← hz.1, f1]

/-- A block of `fumio~` depends on the resonance buffer through `max 0 r` only. -/
theorem fumio_perform_loop_resonance (tanh : α → α) (h : α)
    (in1 cutoffin resonancein : Nat → α) (x : fumio.t_fumio α) (n : Nat) :
    fumio.perform_loop tanh h in1 cutoffin resonancein x n
      = fumio.perform_loop tanh h in1 cutoffin
          (fun i => if resonancein i < 0 then 0 else resonancein i) x n := by
  induction n with
  | zero => rfl
  | succ n ih =>
    simp only [fumio.perform_loop]
    rw [ih]
    simp only [← fumio_perform_sample_resonance]

/-- A block of `ota~` depends on the resonance buffer through `max 0 r` only. -/
theorem ota_perform_loop_resonance (tanh : α → α) (h : α)
    (in1 cutoffin resonancein : Nat → α) (x : ota.t_ota α) (n : Nat) :
    ota.perform_loop tanh h in1 cutoffin resonancein x n
      = ota.perform_loop tanh h in1 cutoffin
          (fun i => if resonancein i < 0 then 0 else resonancein i) x n := by
  induction n with
  | zero => rfl
  | succ n ih =>
    simp only [ota.perform_loop]
    rw [ih]
    simp only [← ota_perform_sample_resonance]

end Resonance

/-- C20. In `fumio_perform` and `ota_perform` a sample whose resonance input `r` is
negative gives the state and the output of the same sample with `r = 0`; after
every sample the resonance field, which `calc_derivatives` reads, is `0` for
`r < 0` and `r` for `r ≥ 0`; and a whole block gives the state and output of the
block whose negative resonance inputs are replaced by `0`. -/
theorem C20_negative_resonance_is_zero (tanh : α → α) (h : α) (x : fumio.t_fumio α)
    (y : ota.t_ota α) (a c r : α) :
    (r < 0 → fumio.perform_sample tanh h x a c r = fumio.perform_sample tanh h x a c 0) ∧
    (r < 0 → ota.perform_sample tanh h y a c r = ota.perform_sample tanh h y a c 0) ∧
    (∀ z out, fumio.perform_sample tanh h x a c r = some (z, out) →
      z.p_resonance = if r < 0 then 0 else r) ∧
    ((ota.perform_sample tanh h y a c r).1.p_resonance = if r < 0 then 0 else r) ∧
    (∀ (in1 cutoffin resonancein : Nat → α) (n : Nat),
      fumio.fumio_perform tanh x in1 cutoffin resonancein n
        = fumio.fumio_perform tanh x in1 cutoffin
            (fun i => if resonancein i < 0 then 0 else resonancein i) n ∧
      ota.ota_perform tanh y in1 cutoffin resonancein n
        = ota.ota_perform tanh y in1 cutoffin
            (fun i => if resonancein i < 0 then 0 else resonancein i) n) := by
  refine ⟨?_, ?_, ?_, ?_, ?_⟩
  · intro hr
    rw [fumio_perform_sample_resonance, if_pos hr]
  · intro hr
    rw [ota_perform_sample_resonance, if_pos hr]
  · intro z out hz
    exact fumio_perform_sample_p_resonance tanh h x a c r z out hz
  · exact (ota_oversample_loop_frame tanh h _ _).1
  · intro in1 cutoffin resonancein n
    exact ⟨fumio_perform_loop_resonance tanh _ in1 cutoffin resonancein x n,
      ota_perform_loop_resonance tanh _ in1 cutoffin resonancein y n⟩

/-- C20, witness: a sample of a new `fumio~` with the resonance input `-1`. -/
theorem C20_witness :
    fumio.perform_sample Real.tanh 1 (fumio.fumio_new : fumio.t_fumio ℝ) 1 1 (-1)
      = fumio.perform_sample Real.tanh 1 (fumio.fumio_new : fumio.t_fumio ℝ) 1 1 0 :=
  (C20_negative_resonance_is_zero Real.tanh 1 (fumio.fumio_new : fumio.t_fumio ℝ)
    (ota.ota_new : ota.t_ota ℝ) 1 1 (-1)).1 (by norm_num)

/-! #### C21: the oversampling loop -/

section Oversampling

/-- The derivative of `fumio~` does not read the state field of the instance. -/
theorem fumio_solver_state_irrelevant (tanh : α → α) (h : α) (x : fumio.t_fumio α)
    (s t : Fin 2 → α) :
    fumio.solver_rungekutta tanh t h { x with x_state := s }
      = fumio.solver_rungekutta tanh t h x := rfl

/-- In a valid mode a Runge–Kutta step of `fumio~` returns a state. -/
theorem fumio_solver_total (tanh : α → α) (h : α) (x : fumio.t_fumio α)
    (hm : x.x_mode = 1 ∨ x.x_mode = 2 ∨ x.x_mode = 3) (s : Fin 2 → α) :
    ∃ t, fumio.solver_rungekutta tanh s h x = some t := by
  obtain ⟨f, hf⟩ := fumio_calc_derivatives_total tanh x hm
  simp only [fumio.solver_rungekutta, hf, Option.bind_eq_bind, Option.some_bind, Option.pure_def]
  exact ⟨_, rfl⟩

/-- In a valid mode the integrator invoked `j` times in succession returns a state. -/
theorem fumio_rk_steps_total (tanh : α → α) (h : α) (p : fumio.t_fumio α)
    (hm : p.x_mode = 1 ∨ p.x_mode = 2 ∨ p.x_mode = 3) (j : Nat) (s : Fin 2 → α) :
    ∃ t, fumio_rk_steps tanh h p j s = some t := by
  induction j with
  | zero => exact ⟨s, rfl⟩
  | succ j ih =>
    obtain ⟨t, ht⟩ := ih
    obtain ⟨u, hu⟩ := fumio_solver_total tanh h p hm t
    exact ⟨u, by simp only [fumio_rk_steps, ht, Option.some_bind, hu]⟩

/-- The oversampling loop of `fumio~` is the integrator invoked `j` times in
succession on the state of the instance, nothing else changing. -/
theorem fumio_oversample_loop_eq (tanh : α → α) (h : α) (x : fumio.t_fumio α) (j : Nat) :
    fumio.oversample_loop tanh h x j
      = (fumio_rk_steps tanh h x j x.x_state).map (fun s => { x with x_state := s }) := by
  induction j with
  | zero => rfl
  | succ j ih =>
    simp only [fumio.oversample_loop, ih, fumio_rk_steps, Option.bind_eq_bind, Option.pure_def]
    cases fumio_rk_steps tanh h x j x.x_state with
    | none => rfl
    | some t =>
      simp only [Option.map_some', Option.some_bind, fumio_solver_state_irrelevant]
      cases fumio.solver_rungekutta tanh t h x with
      | none => rfl
      | some u => rfl

/-- The oversampling loop of `ota~` is the integrator invoked `j` times in
succession on the state of the instance, nothing else changing. -/
theorem ota_oversample_loop_eq (tanh : α → α) (h : α) (x : ota.t_ota α) (j : Nat) :
    ota.oversample_loop tanh h x j = { x with x_state := ota_rk_steps tanh h x j x.x_state } := by
  induction j with
  | zero => rfl
  | succ j ih =>
    simp only [ota.oversample_loop, ih, ota_rk_steps]
    rfl

/-- One sample of `fumio~` in a valid mode: the instance takes the sample's input,
cutoff and resonance (a negative resonance as `0`), its state is advanced by
`x_oversample` steps, and one sample is written. -/
theorem fumio_perform_sample_eq (tanh : α → α) (h : α) (x : fumio.t_fumio α) (a c r : α)
    (hm : x.x_mode = 1 ∨ x.x_mode = 2 ∨ x.x_mode = 3) :
    ∃ t, fumio_rk_steps tanh h
          { x with p_input := a, p_cutoff := c, p_resonance := if r < 0 then 0 else r }
          x.x_oversample.toNat x.x_state = some t ∧
      fumio.perform_sample tanh h x a c r
        = some ({ x with p_input := a, p_cutoff := c,
                         p_resonance := if r < 0 then 0 else r, x_state := t },
                [if x.x_mode = 3 then t 1 + a else t 1]) := by
  obtain ⟨t, ht⟩ := fumio_rk_steps_total tanh h
    { x with p_input := a, p_cutoff := c, p_resonance := if r < 0 then 0 else r } hm
    x.x_oversample.toNat x.x_state
  refine ⟨t, ht, ?_⟩
  simp only [fumio.perform_sample, fumio_oversample_loop_eq, ht, Option.map_some',
    Option.bind_eq_bind, Option.some_bind, Option.pure_def]
  rcases hm with h1 | h1 | h1
  · have n3 : ¬ (x.x_mode = 3) := by rw [h1]; norm_num
    rw [if_pos (Or.inl h1), if_neg n3]
  · have n3 : ¬ (x.x_mode = 3) := by rw [h1]; norm_num
    rw [if_pos (Or.inr h1), if_neg n3]
  · have n12 : ¬ (x.x_mode = 1 ∨ x.x_mode = 2) := by rw [h1]; norm_num
    rw [if_neg n12, if_pos h1, if_pos h1]

/-- One sample of `ota~`. -/
theorem ota_perform_sample_eq (tanh : α → α) (h : α) (x : ota.t_ota α) (a c r : α) :
    ota.perform_sample tanh h x a c r
      = ({ x with p_input := a, p_cutoff := c, p_resonance := if r < 0 then 0 else r,
                  x_state := ota_rk_steps tanh h
                    { x with p_input := a, p_cutoff := c,
                             p_resonance := if r < 0 then 0 else r }
                    x.x_oversample.toNat x.x_state },
         ota_rk_steps tanh h
            { x with p_input := a, p_cutoff := c, p_resonance := if r < 0 then 0 else r }
            x.x_oversample.toNat x.x_state 3) := by
  simp only [ota.perform_sample, ota_oversample_loop_eq]

/-- One more sample of the loop of `fumio~` in a valid mode. -/
theorem fumio_perform_loop_step (tanh : α → α) (h : α) (in1 cutoffin resonancein : Nat → α)
    (x : fumio.t_fumio α) (i : Nat) (y : fumio.t_fumio α) (out : List α)
    (e : fumio.perform_loop tanh h in1 cutoffin resonancein x i = some (y, out))
    (hm : y.x_mode = 1 ∨ y.x_mode = 2 ∨ y.x_mode = 3) :
    ∃ t, fumio_rk_steps tanh h
          { y with p_input := in1 i, p_cutoff := cutoffin i,
                   p_resonance := if resonancein i < 0 then 0 else resonancein i }
          y.x_oversample.toNat y.x_state = some t ∧
      fumio.perform_loop tanh h in1 cutoffin resonancein x (i + 1)
        = some ({ y with p_input := in1 i, p_cutoff := cutoffin i,
                         p_resonance := if resonancein i < 0 then 0 else resonancein i,
                         x_state := t },
                out ++ [if y.x_mode = 3 then t 1 + in1 i else t 1]) := by
  obtain ⟨t, ht, e2⟩ := fumio_perform_sample_eq tanh h y (in1 i) (cutoffin i) (resonancein i) hm
  refine ⟨t, ht, ?_⟩
  simp only [fumio.perform_loop, e, e2, Option.bind_eq_bind, Option.some_bind, Option.pure_def]

/-- In a valid mode the sample loop of `fumio~` returns after every number of
samples, with one output per sample and the mode, the oversample factor and the
sample rate as before. -/
theorem fumio_perform_loop_some (tanh : α → α) (h : α) (in1 cutoffin resonancein : Nat → α)
    (x : fumio.t_fumio α) (hm : x.x_mode = 1 ∨ x.x_mode = 2 ∨ x.x_mode = 3) (i : Nat) :
    ∃ y out, fumio.perform_loop tanh h in1 cutoffin resonancein x i = some (y, out) ∧
      out.length = i ∧ y.x_mode = x.x_mode ∧ y.x_oversample = x.x_oversample ∧
      y.x_sr = x.x_sr := by
  induction i with
  | zero => exact ⟨x, [], rfl, rfl, rfl, rfl, rfl⟩
  | succ i ih =>
    obtain ⟨y, out, e, hl, ym, yo, ys⟩ := ih
    obtain ⟨t, -, e2⟩ := fumio_perform_loop_step tanh h in1 cutoffin resonancein x i y out e
      (by rw [ym]; exact hm)
    exact ⟨_, _, e2, by simp [hl], ym, yo, ys⟩

/-- The output of the first `i` samples stays in place when more samples are
processed. -/
theorem fumio_perform_loop_prefix (tanh : α → α) (h : α) (in1 cutoffin resonancein : Nat → α)
    (x : fumio.t_fumio α) (i k : Nat) (y z : fumio.t_fumio α) (out1 out2 : List α)
    (e1 : fumio.perform_loop tanh h in1 cutoffin resonancein x i = some (y, out1))
    (e2 : fumio.perform_loop tanh h in1 cutoffin resonancein x (i + k) = some (z, out2)) :
    ∃ more, out2 = out1 ++ more := by
  induction k generalizing z out2 with
  | zero =>
    rw [Nat.add_zero, e1] at e2
    simp only [Option.some.injEq, Prod.mk.injEq] at e2
    exact ⟨[], by rw [← e2.2, List.append_nil]⟩
  | succ k ih =>
    rw [← Nat.add_assoc] at e2
    simp only [fumio.perform_loop, Option.bind_eq_bind, Option.pure_def,
      Option.bind_eq_some, Option.some.injEq, Prod.mk.injEq] at e2
    obtain ⟨r, hr, r2, -, -, rfl⟩ := e2
    obtain ⟨more, hmore⟩ := ih r.1 r.2 hr
    exact ⟨more ++ r2.2, by rw [hmore, List.append_assoc]⟩

/-- The sample loop of `ota~` leaves the oversample factor and the sample rate as
they were. -/
theorem ota_perform_loop_frame (tanh : α → α) (h : α) (in1 cutoffin resonancein : Nat → α)
    (x : ota.t_ota α) (i : Nat) :
    (ota.perform_loop tanh h in1 cutoffin resonancein x i).1.x_oversample = x.x_oversample ∧
    (ota.perform_loop tanh h in1 cutoffin resonancein x i).1.x_sr = x.x_sr := by
  induction i with
  | zero => exact ⟨rfl, rfl⟩
  | succ i ih =>
    simp only [ota.perform_loop, ota_perform_sample_eq]
    exact ih

/-- The number of samples the loop of `ota~` has written. -/
theorem ota_perform_loop_length (tanh : α → α) (h : α) (in1 cutoffin resonancein : Nat → α)
    (x : ota.t_ota α) (i : Nat) :
    (ota.perform_loop tanh h in1 cutoffin resonancein x i).2.length = i := by
  induction i with
  | zero => rfl
  | succ i ih => simp [ota.perform_loop, ih]

/-- Sample `i` of the output of the loop of `ota~`. -/
theorem ota_perform_loop_out (tanh : α → α) (h : α) (in1 cutoffin resonancein : Nat → α)
    (x : ota.t_ota α) (n i : Nat) (hi : i < n) :
    (ota.perform_loop tanh h in1 cutoffin resonancein x n).2[i]?
      = some ((ota.perform_loop tanh h in1 cutoffin resonancein x (i + 1)).1.x_state 3) := by
  induction n with
  | zero => exact absurd hi (Nat.not_lt_zero i)
  | succ n ih =>
    have hl := ota_perform_loop_length tanh h in1 cutoffin resonancein x n
    rcases Nat.lt_succ_iff_lt_or_eq.mp hi with hlt | heq
    · have e : (ota.perform_loop tanh h in1 cutoffin resonancein x (n + 1)).2
          = (ota.perform_loop tanh h in1 cutoffin resonancein x n).2
            ++ [(ota.perform_sample tanh h (ota.perform_loop tanh h in1 cutoffin resonancein x n).1
                  (in1 n) (cutoffin n) (resonancein n)).2] := rfl
      rw [e, List.getElem?_append_left (by rw [hl]; exact hlt)]
      exact ih hlt
    · subst heq
      have e : (ota.perform_loop tanh h in1 cutoffin resonancein x (i + 1)).2
          = (ota.perform_loop tanh h in1 cutoffin resonancein x i).2
            ++ [(ota.perform_loop tanh h in1 cutoffin resonancein x (i + 1)).1.x_state 3] := rfl
      rw [e, List.getElem?_append_right (by rw [hl]), hl, Nat.sub_self]
      rfl

end Oversampling

/-- C21. In a block of `n` samples of `fumio_perform` on an instance in mode 1, 2 or
3, sample `i < n` starts from an instance `y` with the oversample factor of the
block; its new state `t` is the result of `x_oversample` steps of
`solver_rungekutta` in succession from the state of `y`, with step size
`1 / (x_oversample · x_sr)` and the sample's input, cutoff and resonance (a negative
resonance as `0`) held fixed; and sample `i` of the output is `t 1` in modes 1 and 2
and `t 1 + input` in mode 3.  For `ota_perform` the same holds, in every instance,
with the output `t 3`. -/
theorem C21_oversampled_steps (tanh : α → α) (x : fumio.t_fumio α) (w : ota.t_ota α)
    (in1 cutoffin resonancein : Nat → α) (n i : Nat) (hi : i < n)
    (hm : x.x_mode = 1 ∨ x.x_mode = 2 ∨ x.x_mode = 3) :
    (∃ (y z : fumio.t_fumio α) (out1 : List α) (res : fumio.t_fumio α × List α)
        (t : Fin 2 → α),
      fumio.perform_loop tanh (1 / ((x.x_oversample : α) * x.x_sr))
          in1 cutoffin resonancein x i = some (y, out1) ∧
      out1.length = i ∧
      fumio_rk_steps tanh (1 / ((x.x_oversample : α) * x.x_sr))
          { y with p_input := in1 i, p_cutoff := cutoffin i,
                   p_resonance := if resonancein i < 0 then 0 else resonancein i }
          x.x_oversample.toNat y.x_state = some t ∧
      fumio.perform_loop tanh (1 / ((x.x_oversample : α) * x.x_sr))
          in1 cutoffin resonancein x (i + 1)
        = some (z, out1 ++ [if x.x_mode = 3 then t 1 + in1 i else t 1]) ∧
      z.x_state = t ∧
      fumio.fumio_perform tanh x in1 cutoffin resonancein n = some res ∧
      res.2.length = n ∧
      res.2[i]? = some (if x.x_mode = 3 then t 1 + in1 i else t 1)) ∧
    ((ota.perform_loop tanh (1 / ((w.x_oversample : α) * w.x_sr))
          in1 cutoffin resonancein w (i + 1)).1.x_state
        = ota_rk_steps tanh (1 / ((w.x_oversample : α) * w.x_sr))
            { (ota.perform_loop tanh (1 / ((w.x_oversample : α) * w.x_sr))
                in1 cutoffin resonancein w i).1 with
              p_input := in1 i, p_cutoff := cutoffin i,
              p_resonance := if resonancein i < 0 then 0 else resonancein i }
            w.x_oversample.toNat
            (ota.perform_loop tanh (1 / ((w.x_oversample : α) * w.x_sr))
              in1 cutoffin resonancein w i).1.x_state ∧
      (ota.ota_perform tanh w in1 cutoffin resonancein n).2.length = n ∧
      (ota.ota_perform tanh w in1 cutoffin resonancein n).2[i]?
        = some ((ota.perform_loop tanh (1 / ((w.x_oversample : α) * w.x_sr))
            in1 cutoffin resonancein w (i + 1)).1.x_state 3)) := by
  constructor
  · obtain ⟨y, out1, e1, hl, ym, yo, -⟩ := fumio_perform_loop_some tanh
      (1 / ((x.x_oversample : α) * x.x_sr)) in1 cutoffin resonancein x hm i
    obtain ⟨t, ht, e2⟩ := fumio_perform_loop_step tanh (1 / ((x.x_oversample : α) * x.x_sr))
      in1 cutoffin resonancein x i y out1 e1 (by rw [ym]; exact hm)
    obtain ⟨v, res, e3, hl3, -⟩ := fumio_perform_loop_some tanh
      (1 / ((x.x_oversample : α) * x.x_sr)) in1 cutoffin resonancein x hm n
    rw [show y.x_oversample.toNat = x.x_oversample.toNat from by rw [yo]] at ht
    rw [ym] at e2
    refine ⟨y, _, out1, (v, res), t, e1, hl, ht, e2, rfl, e3, hl3, ?_⟩
    have hk : i + 1 + (n - (i + 1)) = n := by omega
    have e4 := e3
    rw [← hk] at e4
    obtain ⟨more, hmore⟩ := fumio_perform_loop_prefix tanh _ in1 cutoffin resonancein x
      (i + 1) (n - (i + 1)) _ v _ res e2 e4
    show res[i]? = _
    rw [hmore, List.append_assoc, List.getElem?_append_right (by rw [hl]), hl, Nat.sub_self]
    simp
  · refine ⟨?_, ?_, ?_⟩
    · obtain ⟨f1, -⟩ := ota_perform_loop_frame tanh (1 / ((w.x_oversample : α) * w.x_sr))
        in1 cutoffin resonancein w i
      have e : (ota.perform_loop tanh (1 / ((w.x_oversample : α) * w.x_sr))
            in1 cutoffin resonancein w (i + 1)).1.x_state
          = ota_rk_steps tanh (1 / ((w.x_oversample : α) * w.x_sr))
              { (ota.perform_loop tanh (1 / ((w.x_oversample : α) * w.x_sr))
                  in1 cutoffin resonancein w i).1 with
                p_input := in1 i, p_cutoff := cutoffin i,
                p_resonance := if resonancein i < 0 then 0 else resonancein i }
              (ota.perform_loop tanh (1 / ((w.x_oversample : α) * w.x_sr))
                in1 cutoffin resonancein w i).1.x_oversample.toNat
              (ota.perform_loop tanh (1 / ((w.x_oversample : α) * w.x_sr))
                in1 cutoffin resonancein w i).1.x_state := by
        simp only [ota.perform_loop, ota_perform_sample_eq]
      rw [e, show (ota.perform_loop tanh (1 / ((w.x_oversample : α) * w.x_sr))
                in1 cutoffin resonancein w i).1.x_oversample.toNat = w.x_oversample.toNat
            from by rw [f1]]
    · exact ota_perform_loop_length tanh _ in1 cutoffin resonancein w n
    · exact ota_perform_loop_out tanh _ in1 cutoffin resonancein w n i hi

/-- C21, witness: a block of one sample of the new `fumio~` at 44100 Hz returns
with one output sample. -/
theorem C21_witness :
    ∃ res, fumio.fumio_perform Real.tanh
        (fumio.fumio_dsp (fumio.fumio_new : fumio.t_fumio ℝ) 44100)
        (fun _ => 1) (fun _ => 1000) (fun _ => 0) 1 = some res ∧ res.2.length = 1 := by
  obtain ⟨-, -, -, res, -, -, -, -, -, -, e, l, -⟩ :=
    (C21_oversampled_steps Real.tanh (fumio.fumio_dsp (fumio.fumio_new : fumio.t_fumio ℝ) 44100)
      (ota.ota_dsp (ota.ota_new : ota.t_ota ℝ) 44100)
      (fun _ => 1) (fun _ => 1000) (fun _ => 0) 1 0 (by norm_num)
      (Or.inl fumio_new_fields.1)).1
  exact ⟨res, e, l⟩

/-! #### C22: the mode of a reachable `fumio~` -/

section FumioReach

/-- The mode of a new `fumio~` is 1. -/
theorem fumio_new_mode [FloorRing α] : (fumio.fumio_new : fumio.t_fumio α).x_mode = 1 := by
  have h1 : (1 : α) ≤ 1 ∧ (1 : α) ≤ 3 := ⟨le_refl 1, by norm_num⟩
  have t1 : c_trunc (((1 : Int) : α)) = 1 := c_trunc_intCast 1
  unfold fumio.fumio_new fumio.fumio_mode
  rw [if_pos h1]
  simpa using t1

/-- The message `mode` stores 1, 2 or 3 when the mode was one of them. -/
theorem fumio_mode_valid [FloorRing α] (x : fumio.t_fumio α) (m : α)
    (hm : x.x_mode = 1 ∨ x.x_mode = 2 ∨ x.x_mode = 3) :
    (fumio.fumio_mode x m).x_mode = 1 ∨ (fumio.fumio_mode x m).x_mode = 2 ∨
      (fumio.fumio_mode x m).x_mode = 3 := by
  unfold fumio.fumio_mode
  by_cases h : 1 ≤ m ∧ m ≤ 3
  · rw [if_pos h]
    have r := c_trunc_range m 1 3 (by norm_num) (by push_cast; exact h.1)
      (by push_cast; exact h.2)
    show c_trunc m = 1 ∨ c_trunc m = 2 ∨ c_trunc m = 3
    omega
  · rw [if_neg h]
    exact hm

/-- A block of `fumio~` in a valid mode returns, with one output per sample and
the mode as before. -/
theorem fumio_perform_some (tanh : α → α) (x : fumio.t_fumio α)
    (hm : x.x_mode = 1 ∨ x.x_mode = 2 ∨ x.x_mode = 3)
    (in1 cutoffin resonancein : Nat → α) (n : Nat) :
    ∃ y out, fumio.fumio_perform tanh x in1 cutoffin resonancein n = some (y, out) ∧
      out.length = n ∧ y.x_mode = x.x_mode := by
  obtain ⟨y, out, e, hl, ym, -, -⟩ := fumio_perform_loop_some tanh
    (1 / ((x.x_oversample : α) * x.x_sr)) in1 cutoffin resonancein x hm n
  exact ⟨y, out, e, hl, ym⟩

/-- The mode of every reachable instance of `fumio~` is 1, 2 or 3. -/
theorem fumio_reachable_mode [FloorRing α] (tanh : α → α) (x : fumio.t_fumio α)
    (hx : fumio.Reachable tanh x) : x.x_mode = 1 ∨ x.x_mode = 2 ∨ x.x_mode = 3 := by
  induction hx with
  | construct => exact Or.inl fumio_new_mode
  | mode x m _ ih => exact fumio_mode_valid x m ih
  | oversample x o _ ih => exact ih
  | clear x _ ih => exact ih
  | dsp x sr _ ih => exact ih
  | perform x in1 cutoffin resonancein n y out _ e ih =>
    obtain ⟨y2, out2, e2, -, ym⟩ := fumio_perform_some tanh x ih in1 cutoffin resonancein n
    rw [e2] at e
    simp only [Option.some.injEq, Prod.mk.injEq] at e
    rw [← e.1, ym]
    exact ih

end FumioReach

/-- C22. In every instance of `fumio~` reachable from `fumio_new` by `mode`,
`oversample` and `clear` messages with any argument, `dsp` and processed blocks, the
mode is 1, 2 or 3; so `calc_derivatives` takes one of its three branches and
returns both derivative entries at every state, and `fumio_perform` returns with
one output sample for every sample of the block, in an instance that is reachable
again. -/
theorem C22_reachable_mode_valid [FloorRing α] (tanh : α → α) (x : fumio.t_fumio α)
    (hx : fumio.Reachable tanh x) :
    (x.x_mode = 1 ∨ x.x_mode = 2 ∨ x.x_mode = 3) ∧
    (∀ s : Fin 2 → α, ∃ d : Fin 2 → α, fumio.calc_derivatives tanh s x = some d) ∧
    (∀ (in1 cutoffin resonancein : Nat → α) (n : Nat), ∃ y out,
      fumio.fumio_perform tanh x in1 cutoffin resonancein n = some (y, out) ∧
      out.length = n ∧ fumio.Reachable tanh y) := by
  have hm := fumio_reachable_mode tanh x hx
  refine ⟨hm, ?_, ?_⟩
  · intro s
    obtain ⟨f, hf⟩ := fumio_calc_derivatives_total tanh x hm
    exact ⟨f s, hf s⟩
  · intro in1 cutoffin resonancein n
    obtain ⟨y, out, e, hl, -⟩ := fumio_perform_some tanh x hm in1 cutoffin resonancein n
    exact ⟨y, out, e, hl, fumio.Reachable.perform x in1 cutoffin resonancein n y out hx e⟩

/-- C22, witness: the new `fumio~` after the messages `mode 2.5` and `oversample 4`. -/
theorem C22_witness :
    (fumio.fumio_oversample (fumio.fumio_mode (fumio.fumio_new : fumio.t_fumio ℝ) 2.5) 4).x_mode = 1 ∨
    (fumio.fumio_oversample (fumio.fumio_mode (fumio.fumio_new : fumio.t_fumio ℝ) 2.5) 4).x_mode = 2 ∨
    (fumio.fumio_oversample (fumio.fumio_mode (fumio.fumio_new : fumio.t_fumio ℝ) 2.5) 4).x_mode = 3 :=
  (C22_reachable_mode_valid Real.tanh _
    (fumio.Reachable.oversample _ 4
      (fumio.Reachable.mode _ 2.5 fumio.Reachable.construct))).1

end Theorems
